import Mathlib

/-! # A shallow embedding of `CvSimpleDFT`

Source files embedded here: `src/Input/CvSimpleDFT.h`, `src/Input/CvSimpleDFT.cpp`,
the declarations of `src/ColorModels/CvProcessor.h`, and for the Qt layer
`src/Histograms/QcvProcessor.h`, `src/ColorModels/QcvProcessor.cpp`,
`src/Input/QcvSimpleDFT.h` and `src/Input/QcvSimpleDFT.cpp`.

Conventions.

* The C++ type `int` is `Int`; image dimensions are the `int` fields `rows` and `cols`
  of a `cv::Mat`.
* The C++ type `double` is the type `Double` below: the values a comparison can tell
  apart (NaN, the two infinities and the finite values, read as rationals), with the
  comparison rules of IEEE 754 and the rounding of `binary64` for sums. Where a
  statement is about real numbers, the templates are instantiated at `ℝ`.
* A `cv::Mat` is its header (`rows`, `cols`, `type`) and its elements, read by
  `Mat.get` and written by `Mat.set` (the two uses of `at<T>(i, j)`).
* What the program takes from OpenCV or from files that are not among the sources is
  either a field of `Env` or a definition whose comment says so.
-/

namespace OpenCVTP

/-! ## Scalars -/

/-- Values of the C++ type `double`. Every finite double is a rational number, so
`fin q` covers them. Comparisons follow IEEE 754, sums are rounded to the nearest
double (`add`) and products are formed exactly (`mul`). -/
inductive Double where
  | nan : Double
  | negInf : Double
  | fin (q : ℚ) : Double
  | posInf : Double
  deriving DecidableEq

namespace Double

/-- The C++ comparison `a < b`: false as soon as one operand is NaN. -/
def lt : Double → Double → Bool
  | nan, _ => false
  | _, nan => false
  | negInf, negInf => false
  | negInf, _ => true
  | _, negInf => false
  | posInf, _ => false
  | fin _, posInf => true
  | fin a, fin b => decide (a < b)

/-- The C++ comparison `a > b`. -/
def gt (a b : Double) : Bool := lt b a

/-- The C++ comparison `a <= b`: false as soon as one operand is NaN. -/
def le : Double → Double → Bool
  | nan, _ => false
  | _, nan => false
  | negInf, _ => true
  | _, posInf => true
  | posInf, _ => false
  | fin _, negInf => false
  | fin a, fin b => decide (a ≤ b)

/-- Unary minus on doubles. -/
def neg : Double → Double
  | nan => nan
  | negInf => posInf
  | fin q => fin (-q)
  | posInf => negInf

/-- Product of an infinity (negative when `negative` is set) and `x`. -/
def mulInf (negative : Bool) : Double → Double
  | nan => nan
  | negInf => if negative then posInf else negInf
  | posInf => if negative then negInf else posInf
  | fin q =>
    if q = 0 then nan
    else if (decide (0 < q)) = negative then negInf else posInf

/-- Product of two doubles. Products of finite values are exact here (no rounding);
this is the IEEE result whenever the exact product is itself a double, as it is when
one factor is `1.0`, `-1.0` or `0.0`, the products that the theorems below rely
on. -/
def mul : Double → Double → Double
  | nan, _ => nan
  | _, nan => nan
  | negInf, y => mulInf true y
  | posInf, y => mulInf false y
  | x, negInf => mulInf true x
  | x, posInf => mulInf false x
  | fin a, fin b => fin (a * b)

instance : Neg Double := ⟨neg⟩
instance : Mul Double := ⟨mul⟩
instance : One Double := ⟨fin 1⟩
instance : Zero Double := ⟨fin 0⟩

/-- A value is NaN. -/
def isNaN : Double → Bool
  | nan => true
  | _ => false

end Double

/-- The C++ type `unsigned char`. -/
abbrev uchar := Fin 256

/-- An element of a multi-channel 8-bit image: its components by channel index. -/
abbrev Pixel := Int → uchar

/-- An element of a two-channel `CV_64FC2` image: real and imaginary part. -/
abbrev Complex64 := Double × Double

/-! ## `cv::Size` and `cv::Mat` -/

/-- Modelled from the spec: `cv::Size` is a type of OpenCV, which is not among the
sources. The spec has `squareSize = (optimalSize, optimalSize)`, a width and a
height. -/
structure Size where
  width : Int
  height : Int
  deriving DecidableEq

/-- Modelled from the spec: `cv::Mat` is a type of OpenCV, which is not among the
sources. The spec has an image be a 2D grid of pixels with dimensions
`(rows, cols)` and a pixel type; `T` is the type of one element. -/
structure Mat (T : Type) where
  rows : Int
  cols : Int
  type : Int
  data : Int → Int → T

namespace Mat

variable {T : Type}

/-- Modelled from the spec: reading the pixel `(i, j)`, written `m.at<T>(i, j)` with
OpenCV. -/
def get (m : Mat T) (i j : Int) : T := m.data i j

/-- Modelled from the spec: writing the pixel `(i, j)`, written
`m.at<T>(i, j) = v` with OpenCV. -/
def set (m : Mat T) (i j : Int) (v : T) : Mat T :=
  { m with data := fun a b => if a = i ∧ b = j then v else m.data a b }

/-- Modelled from the spec: the constructor `Mat(size, type)` of OpenCV. The spec has
the buffers sized `OptimalSize x OptimalSize`: `size.height` rows and `size.width`
columns. The elements are not initialised, `junk` is what the memory happens to
hold. -/
def create (size : Size) (type : Int) (junk : Int → Int → T) : Mat T :=
  { rows := size.height, cols := size.width, type := type, data := junk }

/-- Modelled from the spec: `m.size()` of OpenCV, the dimensions the core caches. -/
def size (m : Mat T) : Size := { width := m.cols, height := m.rows }

/-- Modelled from the spec: `m.channels()` of OpenCV, the channel count the core
caches. The type codes of OpenCV are `depth + 8 * (channels - 1)`. -/
def channels (m : Mat T) : Int := m.type / 8 + 1

/-- Modelled from the spec: `m.release()` of OpenCV. The spec only has the buffers
reallocated on a full setup; the header is taken to describe an empty matrix after
the release. -/
def release (m : Mat T) : Mat T := { m with rows := 0, cols := 0 }

/-- Modelled from the spec: the assignment `m = Scalar(v)` of OpenCV. The spec has the
imaginary plane zero-initialised: every element becomes `v`. -/
def setTo (m : Mat T) (v : T) : Mat T := { m with data := fun _ _ => v }

/-- Modelled from the spec: `m.colRange(startcol, endcol)` of OpenCV. The spec reads
it as the column range `[startcol, endcol)` of every row. -/
def colRange (m : Mat T) (startcol endcol : Int) : Mat T :=
  { rows := m.rows, cols := endcol - startcol, type := m.type,
    data := fun i j => m.data i (startcol + j) }

/-- Modelled from the spec: `m.rowRange(startrow, endrow)` of OpenCV. The spec reads
it as the row range `[startrow, endrow)` of every column. -/
def rowRange (m : Mat T) (startrow endrow : Int) : Mat T :=
  { rows := endrow - startrow, cols := m.cols, type := m.type,
    data := fun i j => m.data (startrow + i) j }

end Mat

/-- Modelled from the spec: the type code `CV_8UC1` of the OpenCV headers, a
single-channel 8-bit image. -/
def CV_8UC1 : Int := 0

/-- Modelled from the spec: the type code `CV_64FC1` of the OpenCV headers, a
single-channel 64-bit floating point image. -/
def CV_64FC1 : Int := 6

/-- Modelled from the spec: the type code `CV_64FC2` of the OpenCV headers, a
two-component (real, imaginary) 64-bit floating point image. -/
def CV_64FC2 : Int := 14

/-! ## What comes from outside the sources -/

/-- The base class state of `CvProcessor` (`src/ColorModels/CvProcessor.h`): the
source image the pointer `sourceImage` refers to, the cached `nbChannels`, `size`
and `type`, and the names under which additional images are registered. The fields
`verboseLevel`, `processTime` and `timePerFeature` play no part here. -/
structure CvProcessor where
  sourceImage : Mat Pixel
  nbChannels : Int
  size : Size
  type : Int
  images : List String

/-- Behaviour the embedded code relies on without defining it. -/
structure Env where
  /-- Element values computed by OpenCV's `resize` with `INTER_AREA`, from the
  source region and the destination size. -/
  area : Mat Pixel → Size → Int → Int → Pixel
  /-- Contents of a freshly allocated 8-bit multi-channel buffer. -/
  junkPixel : Int → Int → Pixel
  /-- Contents of a freshly allocated `CV_8UC1` buffer. -/
  junkUchar : Int → Int → uchar
  /-- Contents of a freshly allocated `CV_64FC1` buffer. -/
  junkDouble : Int → Int → Double
  /-- Contents of a freshly allocated `CV_64FC2` buffer. -/
  junkComplex : Int → Int → Complex64
  /-- The body of `CvProcessor::cleanup`, declared in `CvProcessor.h`. -/
  baseCleanup : CvProcessor → CvProcessor

/-- Modelled from the spec: `resize(src, dst, dsize, 0, 0, INTER_AREA)` of OpenCV.
The spec has the cropped region resampled to `optimalSize x optimalSize` with the
channel count of the source: the destination has the size `dsize` and the type of
the source, and its elements are those of `Env.area`. -/
def resize (env : Env) (src : Mat Pixel) (dsize : Size) : Mat Pixel :=
  { rows := dsize.height, cols := dsize.width, type := src.type,
    data := env.area src dsize }

/-- Modelled from the spec: the macro `MIN` comes from the OpenCV headers, which are
not among the sources; the spec reads `MIN(rows, cols)` as the minimum. It is written
here as the conditional expression such a macro expands to. -/
def MIN (a b : Int) : Int := if a > b then b else a

/-- Modelled from the spec: the macro `MAX` comes from the OpenCV headers, which are
not among the sources; the spec reads `MAX(rows, cols)` as the maximum. It is written
here as the conditional expression such a macro expands to. -/
def MAX (a b : Int) : Int := if a < b then b else a

/-- Modelled from the spec: part of `getOptimalDFTSize` below. Dividing out the
factor `p` from `n`, at most `fuel` times. -/
def stripFactor (p : Nat) : Nat → Nat → Nat
  | 0, n => n
  | fuel + 1, n => if n ≠ 0 ∧ n % p = 0 then stripFactor p fuel (n / p) else n

/-- Modelled from the spec: part of `getOptimalDFTSize` below. The test for a
product of the small primes 2, 3 and 5: nothing but 1 is left once these factors are
divided out. -/
def isSmooth (n : Nat) : Bool :=
  stripFactor 5 n (stripFactor 3 n (stripFactor 2 n n)) == 1

/-- Modelled from the spec: part of `getOptimalDFTSize` below. The first number `m`
with `isSmooth m` among `n, n + 1, ..., n + fuel` (`n + fuel` when there is none
before). -/
def firstSmooth : Nat → Nat → Nat
  | 0, n => n
  | fuel + 1, n => if isSmooth n then n else firstSmooth fuel (n + 1)

/-- Modelled from the spec: `cv::getOptimalDFTSize` is a function of OpenCV, which is
not among the sources. The spec describes its result as the smallest integer greater
than or equal to the argument that is a product of the small primes 2, 3 and 5. The
search starts at the argument (at 0 for a negative one) and needs at most as many
steps as the argument plus one, because a power of two lies in between. The result is
a mathematical integer: the range of the C++ type `int` is not modelled. -/
def getOptimalDFTSize (vecsize : Int) : Int :=
  (firstSmooth (vecsize.toNat + 1) vecsize.toNat : Nat)

/-- Modelled from the spec: the constructor of `CvProcessor` is declared in
`CvProcessor.h` and its body is not among the sources. The spec has the core hold the
reference to the source image with the cached `nbChannels`, `size` and `type` of that
image. -/
def CvProcessor.new (sourceImage : Mat Pixel) : CvProcessor :=
  { sourceImage := sourceImage, nbChannels := sourceImage.channels,
    size := sourceImage.size, type := sourceImage.type, images := [] }

/-- Modelled from the spec: `CvProcessor::setup` is declared in `CvProcessor.h` and
its body is not among the sources. The spec has the cached `nbChannels`, `size` and
`type` resynchronised whenever the reference to the source image is replaced, which
is what a full setup is for. -/
def CvProcessor.setup (p : CvProcessor) (sourceImage : Mat Pixel) (fullSetup : Bool) :
    CvProcessor :=
  if fullSetup then
    { p with sourceImage := sourceImage, nbChannels := sourceImage.channels,
             size := sourceImage.size, type := sourceImage.type }
  else p

/-- Modelled from the spec: `CvProcessor::addImage` is declared in `CvProcessor.h`
and its body is not among the sources. Its documentation there: the image is added
under the name unless the name is already registered. -/
def CvProcessor.addImage (p : CvProcessor) (name : String) : CvProcessor :=
  if name ∈ p.images then p else { p with images := p.images ++ [name] }

/-! ## `CvSimpleDFT` -/

/-- Minimum log scale factor (`CvSimpleDFT.cpp`, line 20). -/
def minLogScaleFactor : Double := Double.fin 5

/-- Maximum log scale factor (`CvSimpleDFT.cpp`, line 26). -/
def maxLogScaleFactor : Double := Double.fin 30

/-- The attributes of a `CvSimpleDFT` (`CvSimpleDFT.h`), on top of those of its base
class `CvProcessor`. -/
structure CvSimpleDFT extends CvProcessor where
  minSize : Int
  maxSize : Int
  borderSize : Int
  optimalDFTSize : Int
  dftSize : Size
  inFrameSquare : Mat Pixel
  channels : List (Mat uchar)
  channelsDouble : List (Mat Double)
  channelsDoubleComplexComponents : List (List (Mat Double))
  channelsComplexImages : List (Mat Complex64)
  channelsComplexSpectrums : List (Mat Complex64)
  channelsComplexSpectrumComponents : List (List (Mat Double))
  channelsSpectrumMagnitude : List (Mat Double)
  logScaleFactor : Double
  channelsSpectrumLogMagnitude : List (Mat Double)
  channelsSpectrumLogMagnitudeDisplay : List (Mat uchar)
  spectrumMagnitudeImage : Mat Pixel

namespace CvSimpleDFT

/-- One turn of the inner loop of `setup` (lines 93 to 97): a plane is pushed onto
entry `i` of both component lists. -/
def setupPlane (env : Env) (i : Nat) (s : CvSimpleDFT) : CvSimpleDFT :=
  { s with
    channelsDoubleComplexComponents :=
      s.channelsDoubleComplexComponents.modify
        (fun planes => planes ++ [Mat.create s.dftSize CV_64FC1 env.junkDouble]) i
    channelsComplexSpectrumComponents :=
      s.channelsComplexSpectrumComponents.modify
        (fun planes => planes ++ [Mat.create s.dftSize CV_64FC1 env.junkDouble]) i }

/-- One turn of the loop over the channels in `setup` (lines 80 to 101). -/
def setupChannel (env : Env) (s : CvSimpleDFT) (i : Nat) : CvSimpleDFT :=
  let s1 : CvSimpleDFT :=
    { s with
      channels := s.channels ++ [Mat.create s.dftSize CV_8UC1 env.junkUchar]
      channelsDouble := s.channelsDouble ++ [Mat.create s.dftSize CV_64FC1 env.junkDouble]
      channelsDoubleComplexComponents := s.channelsDoubleComplexComponents ++ [[]]
      channelsComplexImages :=
        s.channelsComplexImages ++ [Mat.create s.dftSize CV_64FC2 env.junkComplex]
      channelsComplexSpectrums :=
        s.channelsComplexSpectrums ++ [Mat.create s.dftSize CV_64FC2 env.junkComplex]
      channelsComplexSpectrumComponents := s.channelsComplexSpectrumComponents ++ [[]]
      channelsSpectrumMagnitude :=
        s.channelsSpectrumMagnitude ++ [Mat.create s.dftSize CV_64FC1 env.junkDouble]
      channelsSpectrumLogMagnitude :=
        s.channelsSpectrumLogMagnitude ++ [Mat.create s.dftSize CV_64FC1 env.junkDouble]
      channelsSpectrumLogMagnitudeDisplay :=
        s.channelsSpectrumLogMagnitudeDisplay ++
          [Mat.create s.dftSize CV_8UC1 env.junkUchar] }
  let s2 := (List.range 2).foldl (fun st _ => setupPlane env i st) s1
  { s2 with
    channelsDoubleComplexComponents :=
      s2.channelsDoubleComplexComponents.modify
        (fun planes => planes.modify (fun m => m.setTo (Double.fin 0)) 1) i }

/-- The method `CvSimpleDFT::setup` (lines 62 to 102). -/
def setup (env : Env) (s : CvSimpleDFT) (sourceImage : Mat Pixel) (fullSetup : Bool) :
    CvSimpleDFT :=
  let s1 : CvSimpleDFT :=
    if fullSetup then
      let base := CvProcessor.setup s.toCvProcessor sourceImage fullSetup
      let minSize := MIN sourceImage.rows sourceImage.cols
      let maxSize := MAX sourceImage.rows sourceImage.cols
      let borderSize := Int.tdiv (maxSize - minSize) 2
      let optimalDFTSize := getOptimalDFTSize minSize
      let dftSize : Size := { height := optimalDFTSize, width := optimalDFTSize }
      { s with
        toCvProcessor := base
        minSize := minSize
        maxSize := maxSize
        borderSize := borderSize
        optimalDFTSize := optimalDFTSize
        dftSize := dftSize
        inFrameSquare := Mat.create dftSize base.type env.junkPixel
        spectrumMagnitudeImage := Mat.create dftSize base.type env.junkPixel }
    else s
  (List.range s1.nbChannels.toNat).foldl (setupChannel env) s1

/-- One turn of the loop over the channels in `cleanup` (lines 106 to 124). -/
def cleanupChannel (s : CvSimpleDFT) (i : Nat) : CvSimpleDFT :=
  let s1 : CvSimpleDFT :=
    (List.range 2).foldl (fun st j =>
      { st with
        channelsComplexSpectrumComponents :=
          st.channelsComplexSpectrumComponents.modify
            (fun planes => planes.modify Mat.release j) i
        channelsDoubleComplexComponents :=
          st.channelsDoubleComplexComponents.modify
            (fun planes => planes.modify Mat.release j) i }) s
  { s1 with
    channelsSpectrumLogMagnitudeDisplay :=
      s1.channelsSpectrumLogMagnitudeDisplay.modify Mat.release i
    channelsSpectrumLogMagnitude := s1.channelsSpectrumLogMagnitude.modify Mat.release i
    channelsSpectrumMagnitude := s1.channelsSpectrumMagnitude.modify Mat.release i
    channelsComplexSpectrumComponents :=
      s1.channelsComplexSpectrumComponents.modify (fun _ => []) i
    channelsComplexSpectrums := s1.channelsComplexSpectrums.modify Mat.release i
    channelsComplexImages := s1.channelsComplexImages.modify Mat.release i
    channelsDoubleComplexComponents :=
      s1.channelsDoubleComplexComponents.modify (fun _ => []) i
    channelsDouble := s1.channelsDouble.modify Mat.release i
    channels := s1.channels.modify Mat.release i }

/-- The method `CvSimpleDFT::cleanup` (lines 104 to 141). -/
def cleanup (env : Env) (s : CvSimpleDFT) : CvSimpleDFT :=
  let s1 := (List.range s.nbChannels.toNat).foldl cleanupChannel s
  let s2 : CvSimpleDFT :=
    { s1 with
      channelsSpectrumLogMagnitudeDisplay := []
      channelsSpectrumLogMagnitude := []
      channelsSpectrumMagnitude := []
      channelsComplexSpectrumComponents := []
      channelsComplexSpectrums := []
      channelsComplexImages := []
      channelsDoubleComplexComponents := []
      channelsDouble := []
      channels := []
      spectrumMagnitudeImage := s1.spectrumMagnitudeImage.release
      inFrameSquare := s1.inFrameSquare.release }
  { s2 with toCvProcessor := env.baseCleanup s2.toCvProcessor }

/-- The method `CvSimpleDFT::update` (lines 146 to 246): the source image is cropped
and resized into `inFrameSquare`. The steps after that are comments in the source
(the loop over the channels has an empty body), so nothing else changes. -/
def update (env : Env) (s : CvSimpleDFT) : CvSimpleDFT :=
  if s.sourceImage.cols > s.sourceImage.rows then
    { s with
      inFrameSquare :=
        resize env (s.sourceImage.colRange s.borderSize (s.borderSize + s.minSize))
          s.dftSize }
  else
    { s with
      inFrameSquare :=
        resize env (s.sourceImage.rowRange s.borderSize (s.borderSize + s.minSize))
          s.dftSize }

/-- The method `CvSimpleDFT::getOptimalDftSize` (lines 252 to 255). -/
def getOptimalDftSize (s : CvSimpleDFT) : Int := s.optimalDFTSize

/-- The method `CvSimpleDFT::getLogScaleFactor` (lines 261 to 264). -/
def getLogScaleFactor (s : CvSimpleDFT) : Double := s.logScaleFactor

/-- The method `CvSimpleDFT::setLogScaleFactor` (lines 270 to 284). -/
def setLogScaleFactor (s : CvSimpleDFT) (logScaleFactor : Double) : CvSimpleDFT :=
  if Double.gt logScaleFactor maxLogScaleFactor then
    { s with logScaleFactor := maxLogScaleFactor }
  else if Double.lt logScaleFactor minLogScaleFactor then
    { s with logScaleFactor := minLogScaleFactor }
  else
    { s with logScaleFactor := logScaleFactor }

/-- The constructor `CvSimpleDFT::CvSimpleDFT` (lines 32 to 47). -/
def new (env : Env) (sourceImage : Mat Pixel) : CvSimpleDFT :=
  let base := CvProcessor.new sourceImage
  let minSize := MIN sourceImage.rows sourceImage.cols
  let maxSize := MAX sourceImage.rows sourceImage.cols
  let borderSize := Int.tdiv (maxSize - minSize) 2
  let optimalDFTSize := getOptimalDFTSize minSize
  let dftSize : Size := { width := optimalDFTSize, height := optimalDFTSize }
  let s0 : CvSimpleDFT :=
    { toCvProcessor := base
      minSize := minSize
      maxSize := maxSize
      borderSize := borderSize
      optimalDFTSize := optimalDFTSize
      dftSize := dftSize
      inFrameSquare := Mat.create dftSize base.type env.junkPixel
      channels := []
      channelsDouble := []
      channelsDoubleComplexComponents := []
      channelsComplexImages := []
      channelsComplexSpectrums := []
      channelsComplexSpectrumComponents := []
      channelsSpectrumMagnitude := []
      logScaleFactor := Double.fin 10
      channelsSpectrumLogMagnitude := []
      channelsSpectrumLogMagnitudeDisplay := []
      spectrumMagnitudeImage := Mat.create dftSize base.type env.junkPixel }
  let s1 := setup env s0 sourceImage false
  let s2 : CvSimpleDFT := { s1 with toCvProcessor := s1.toCvProcessor.addImage "square" }
  { s2 with toCvProcessor := s2.toCvProcessor.addImage "spectrum" }

/-- The calls the user of a `CvSimpleDFT` can make on it. -/
inductive Call where
  | setLogScaleFactor (logScaleFactor : Double)
  | setup (sourceImage : Mat Pixel) (fullSetup : Bool)
  | cleanupSetup (sourceImage : Mat Pixel)
  | update

/-- The state after one call. -/
def step (env : Env) (s : CvSimpleDFT) : Call → CvSimpleDFT
  | Call.setLogScaleFactor v => s.setLogScaleFactor v
  | Call.setup img fullSetup => s.setup env img fullSetup
  | Call.cleanupSetup img => (s.cleanup env).setup env img true
  | Call.update => s.update env

/-- The state after a sequence of calls. -/
def run (env : Env) (s : CvSimpleDFT) (calls : List Call) : CvSimpleDFT :=
  calls.foldl (step env) s

end CvSimpleDFT

/-! ## The utility `frequencyShift` -/

/-- The value of `(T)pow(-1.0, k)` for an integer `k`: `1` for an even `k`, `-1` for
an odd one. -/
def powMinusOne {T : Type} [One T] [Neg T] (k : Int) : T :=
  if k % 2 = 0 then 1 else -1

/-- The method template `CvSimpleDFT::frequencyShift` (lines 297 to 309): the result
is the image `imgOut` after the two loops. -/
def frequencyShift {T : Type} [Mul T] [One T] [Neg T] (imgIn imgOut : Mat T) : Mat T :=
  (List.range imgIn.rows.toNat).foldl
    (fun (out : Mat T) (i : Nat) =>
      (List.range imgIn.cols.toNat).foldl
        (fun (out : Mat T) (j : Nat) =>
          out.set (i : Int) (j : Int)
            (imgIn.get (i : Int) (j : Int) * powMinusOne ((i : Int) + (j : Int))))
        out)
    imgOut

/-! ## Sample inputs -/

/-- An image of the given dimensions, three 8-bit channels (`CV_8UC3`), every
component equal to 128. -/
def sampleImage (rows cols : Int) : Mat Pixel :=
  { rows := rows, cols := cols, type := 16, data := fun _ _ _ => 128 }

/-- An environment in which every library computation yields zero. -/
def sampleEnv : Env :=
  { area := fun _ _ _ _ _ => 0
    junkPixel := fun _ _ _ => 0
    junkUchar := fun _ _ => 0
    junkDouble := fun _ _ => Double.fin 0
    junkComplex := fun _ _ => (Double.fin 0, Double.fin 0)
    baseCleanup := fun p => p }

/-! ## Predicates used in the statements -/

namespace CvSimpleDFT

/-- The attributes that only the planner writes: the base class part, the geometry
and the log scale factor. -/
structure Config where
  base : CvProcessor
  minSize : Int
  maxSize : Int
  borderSize : Int
  optimalDFTSize : Int
  dftSize : Size
  logScaleFactor : Double

/-- The planner attributes of a state. -/
def config (s : CvSimpleDFT) : Config :=
  { base := s.toCvProcessor, minSize := s.minSize, maxSize := s.maxSize,
    borderSize := s.borderSize, optimalDFTSize := s.optimalDFTSize,
    dftSize := s.dftSize, logScaleFactor := s.logScaleFactor }

/-- A call that requests NaN as log scale factor. -/
def Call.requestsNaN : Call → Bool
  | Call.setLogScaleFactor v => v.isNaN
  | _ => false

/-- The stored log scale factor lies in the closed range
`[minLogScaleFactor, maxLogScaleFactor]`. -/
def logScaleFactorInRange (s : CvSimpleDFT) : Prop :=
  Double.le minLogScaleFactor s.getLogScaleFactor = true ∧
    Double.le s.getLogScaleFactor maxLogScaleFactor = true

instance (s : CvSimpleDFT) : Decidable (logScaleFactorInRange s) := by
  unfold logScaleFactorInRange
  infer_instance

/-- The planner attributes of `s` are those that lines 68 to 73 of `setup` (and the
initialisers of the constructor) compute from the image `img`, and `img` is the
source image of `s`. -/
def plannedFrom (s : CvSimpleDFT) (img : Mat Pixel) : Prop :=
  s.sourceImage = img ∧
  s.minSize = MIN img.rows img.cols ∧
  s.maxSize = MAX img.rows img.cols ∧
  s.borderSize = Int.tdiv (MAX img.rows img.cols - MIN img.rows img.cols) 2 ∧
  s.optimalDFTSize = getOptimalDFTSize (MIN img.rows img.cols) ∧
  s.dftSize = { width := s.optimalDFTSize, height := s.optimalDFTSize }

/-- The cached geometry of `s` is the one planned from the dimensions of its current
source image. -/
def geometryMatches (s : CvSimpleDFT) : Prop :=
  s.minSize = MIN s.sourceImage.rows s.sourceImage.cols ∧
  s.maxSize = MAX s.sourceImage.rows s.sourceImage.cols ∧
  s.borderSize = Int.tdiv (s.maxSize - s.minSize) 2

end CvSimpleDFT

/-- The only prime factors of `n` are 2, 3 and 5. -/
def onlyFactors235 (n : Nat) : Prop :=
  ∀ p : Nat, p.Prime → p ∣ n → p = 2 ∨ p = 3 ∨ p = 5

/-- The only prime factors of the integer `N` are 2, 3 and 5. -/
def intOnlyFactors235 (N : Int) : Prop :=
  ∀ p : Nat, p.Prime → (p : Int) ∣ N → p = 2 ∨ p = 3 ∨ p = 5

/-- A `CV_64FC1` image of the given dimensions whose element `(i, j)` is
`3 * i + j + 1`. -/
def sampleDoubleImage (rows cols : Int) : Mat Double :=
  { rows := rows, cols := cols, type := CV_64FC1,
    data := fun i j => Double.fin ((3 * i + j + 1 : Int) : ℚ) }

/-! ## Shapes and contents of the buffers -/

/-- A matrix of `n` rows and `n` columns. -/
def Mat.isSquare {T : Type} (m : Mat T) (n : Int) : Prop := m.rows = n ∧ m.cols = n

namespace CvSimpleDFT

/-- The nine per-channel buffer lists of a `CvSimpleDFT`. -/
structure Buffers where
  channels : List (Mat uchar)
  channelsDouble : List (Mat Double)
  channelsDoubleComplexComponents : List (List (Mat Double))
  channelsComplexImages : List (Mat Complex64)
  channelsComplexSpectrums : List (Mat Complex64)
  channelsComplexSpectrumComponents : List (List (Mat Double))
  channelsSpectrumMagnitude : List (Mat Double)
  channelsSpectrumLogMagnitude : List (Mat Double)
  channelsSpectrumLogMagnitudeDisplay : List (Mat uchar)

/-- The per-channel buffer lists of a state. -/
def buffers (s : CvSimpleDFT) : Buffers :=
  { channels := s.channels
    channelsDouble := s.channelsDouble
    channelsDoubleComplexComponents := s.channelsDoubleComplexComponents
    channelsComplexImages := s.channelsComplexImages
    channelsComplexSpectrums := s.channelsComplexSpectrums
    channelsComplexSpectrumComponents := s.channelsComplexSpectrumComponents
    channelsSpectrumMagnitude := s.channelsSpectrumMagnitude
    channelsSpectrumLogMagnitude := s.channelsSpectrumLogMagnitude
    channelsSpectrumLogMagnitudeDisplay := s.channelsSpectrumLogMagnitudeDisplay }

/-- The buffer lists that `n` turns of the loop of `setup` build when they start from
empty lists: `n` buffers of size `dftSize` in each list, two planes per channel in the
two component lists, the second plane of `channelsDoubleComplexComponents` filled
with zero. -/
def freshBuffers (env : Env) (dftSize : Size) (n : Nat) : Buffers :=
  { channels := List.replicate n (Mat.create dftSize CV_8UC1 env.junkUchar)
    channelsDouble := List.replicate n (Mat.create dftSize CV_64FC1 env.junkDouble)
    channelsDoubleComplexComponents :=
      List.replicate n
        [Mat.create dftSize CV_64FC1 env.junkDouble,
         (Mat.create dftSize CV_64FC1 env.junkDouble).setTo (Double.fin 0)]
    channelsComplexImages := List.replicate n (Mat.create dftSize CV_64FC2 env.junkComplex)
    channelsComplexSpectrums :=
      List.replicate n (Mat.create dftSize CV_64FC2 env.junkComplex)
    channelsComplexSpectrumComponents :=
      List.replicate n
        [Mat.create dftSize CV_64FC1 env.junkDouble,
         Mat.create dftSize CV_64FC1 env.junkDouble]
    channelsSpectrumMagnitude :=
      List.replicate n (Mat.create dftSize CV_64FC1 env.junkDouble)
    channelsSpectrumLogMagnitude :=
      List.replicate n (Mat.create dftSize CV_64FC1 env.junkDouble)
    channelsSpectrumLogMagnitudeDisplay :=
      List.replicate n (Mat.create dftSize CV_8UC1 env.junkUchar) }

/-- Each of the nine per-channel lists holds exactly `nbChannels` entries, each entry
of the two component lists holds exactly 2 planes, and every buffer has
`optimalDFTSize` rows and `optimalDFTSize` columns. -/
def buffersShaped (s : CvSimpleDFT) : Prop :=
  ((s.channels.length : Int) = s.nbChannels ∧
   (s.channelsDouble.length : Int) = s.nbChannels ∧
   (s.channelsDoubleComplexComponents.length : Int) = s.nbChannels ∧
   (s.channelsComplexImages.length : Int) = s.nbChannels ∧
   (s.channelsComplexSpectrums.length : Int) = s.nbChannels ∧
   (s.channelsComplexSpectrumComponents.length : Int) = s.nbChannels ∧
   (s.channelsSpectrumMagnitude.length : Int) = s.nbChannels ∧
   (s.channelsSpectrumLogMagnitude.length : Int) = s.nbChannels ∧
   (s.channelsSpectrumLogMagnitudeDisplay.length : Int) = s.nbChannels) ∧
  ((∀ planes ∈ s.channelsDoubleComplexComponents, planes.length = 2) ∧
   (∀ planes ∈ s.channelsComplexSpectrumComponents, planes.length = 2)) ∧
  ((∀ m ∈ s.channels, m.isSquare s.optimalDFTSize) ∧
   (∀ m ∈ s.channelsDouble, m.isSquare s.optimalDFTSize) ∧
   (∀ planes ∈ s.channelsDoubleComplexComponents,
      ∀ m ∈ planes, m.isSquare s.optimalDFTSize) ∧
   (∀ m ∈ s.channelsComplexImages, m.isSquare s.optimalDFTSize) ∧
   (∀ m ∈ s.channelsComplexSpectrums, m.isSquare s.optimalDFTSize) ∧
   (∀ planes ∈ s.channelsComplexSpectrumComponents,
      ∀ m ∈ planes, m.isSquare s.optimalDFTSize) ∧
   (∀ m ∈ s.channelsSpectrumMagnitude, m.isSquare s.optimalDFTSize) ∧
   (∀ m ∈ s.channelsSpectrumLogMagnitude, m.isSquare s.optimalDFTSize) ∧
   (∀ m ∈ s.channelsSpectrumLogMagnitudeDisplay, m.isSquare s.optimalDFTSize))

/-- Entry `i` of a list of component planes has a plane of index 1, and that plane is
zero at every pixel. -/
def imaginaryPlaneZero (components : List (List (Mat Double))) (i : Nat) : Prop :=
  ∃ planes m, components[i]? = some planes ∧ planes[1]? = some m ∧
    ∀ a b : Int, m.get a b = Double.fin 0

end CvSimpleDFT

/-! ## The utility `logScaleImg` -/

namespace Mat

/-- Modelled from the spec: `m.total()` of OpenCV, the number of elements of the
grid. -/
def total {T : Type} (m : Mat T) : Int := m.rows * m.cols

/-- Modelled from the spec: the element that an iterator of OpenCV
(`m.begin<T>() + k`) refers to. The iterators visit a matrix row by row, so the
element of rank `k` is in row `k / cols` and column `k % cols`. -/
def elem {T : Type} (m : Mat T) (k : Nat) : T :=
  m.get ((k : Int) / m.cols) ((k : Int) % m.cols)

/-- Modelled from the spec: writing through an iterator of OpenCV,
`*(m.begin<T>() + k) = v`. -/
def setElem {T : Type} (m : Mat T) (k : Nat) (v : T) : Mat T :=
  m.set ((k : Int) / m.cols) ((k : Int) % m.cols) v

end Mat

/-- The method template `CvSimpleDFT::logScaleImg` (lines 318 to 330): the result is
the image `imgOut` after the loop. The two iterators advance together until one of
them reaches its end, so the loop makes as many turns as the smaller image has
elements. `log` is the function of that name of the C library. -/
def logScaleImg {T : Type} [Add T] [Mul T] [One T] (log : T → T) (imgIn imgOut : Mat T)
    (scaleFactor : T) : Mat T :=
  (List.range (min imgIn.total.toNat imgOut.total.toNat)).foldl
    (fun (out : Mat T) (k : Nat) =>
      out.setElem k (scaleFactor * log (1 + imgIn.elem k)))
    imgOut

/-! ## Rounded addition of doubles -/

namespace Double

/-- Rounding of the fraction `N / D` (with `D > 0`) to the nearest natural number,
ties going to the even one. -/
def roundHalfEven (N D : Nat) : Nat :=
  if 2 * (N % D) < D then N / D
  else if D < 2 * (N % D) then N / D + 1
  else if (N / D) % 2 = 0 then N / D else N / D + 1

/-- The number of times `n` can be halved before it drops below 2, at most `fuel`
times. -/
def halvings : Nat → Nat → Nat
  | 0, _ => 0
  | fuel + 1, n => if n < 2 then 0 else halvings fuel (n / 2) + 1

/-- The exponent `k` with `2 ^ k <= n < 2 ^ (k + 1)`, for `n > 0`. -/
def log2 (n : Nat) : Nat := halvings n n

/-- The exponent `e` with `2 ^ e <= n / d < 2 ^ (e + 1)`, for `n > 0` and `d > 0`. -/
def floorLog2 (n d : Nat) : Int :=
  let k : Int := (log2 n : Int) - (log2 d : Int)
  if d * 2 ^ k.toNat ≤ n * 2 ^ (-k).toNat then k else k - 1

/-- The value `m * 2 ^ q` as a rational number. -/
def scaleByPow2 (m : Nat) (q : Int) : ℚ :=
  if 0 ≤ q then ((m * 2 ^ q.toNat : Nat) : ℚ) else mkRat (m : Int) (2 ^ (-q).toNat)

/-- Rounding of the positive rational `n / d` to the nearest `binary64` number (53
bits of precision, exponents from -1022 to 1023, ties to even): the exponent `e` of
the value, kept at -1022 or above for the subnormal range, fixes the spacing
`2 ^ (e - 52)` of the doubles around it; the value is rounded to a multiple of that
spacing, and is infinite when the result reaches `2 ^ 1024`. -/
def roundPos (n d : Nat) : Double :=
  let e : Int := max (floorLog2 n d) (-1022)
  let q : Int := e - 52
  let m : Nat := roundHalfEven (n * 2 ^ (-q).toNat) (d * 2 ^ q.toNat)
  if 1024 ≤ e ∨ (e = 1023 ∧ m = 2 ^ 53) then posInf else fin (scaleByPow2 m q)

/-- Rounding of a rational number to the nearest `binary64` number, the rounding of
the arithmetic of a C++ `double`. -/
def round (x : ℚ) : Double :=
  if x.num = 0 then fin 0
  else if 0 < x.num then roundPos x.num.toNat x.den
  else neg (roundPos (-x.num).toNat x.den)

/-- The C++ sum `a + b` of two doubles: the exact sum, rounded. -/
def add : Double → Double → Double
  | nan, _ => nan
  | _, nan => nan
  | posInf, negInf => nan
  | negInf, posInf => nan
  | posInf, _ => posInf
  | _, posInf => posInf
  | negInf, _ => negInf
  | _, negInf => negInf
  | fin a, fin b => round (a + b)

instance : Add Double := ⟨add⟩

end Double

/-- A stand-in for the function `log` of the C library, of which this development
uses one value only: `log(1.0)` is `0.0`. Every other argument is sent to NaN. -/
def logAtOne (x : Double) : Double :=
  if x = Double.fin 1 then Double.fin 0 else Double.nan

/-- A `CV_64FC1` image of one row and one column whose element is `2 ^ (-60)`. -/
def tinyImage : Mat Double :=
  { rows := 1, cols := 1, type := CV_64FC1, data := fun _ _ => Double.fin (mkRat 1 (2 ^ 60)) }

/-! ## The discrete Fourier transform -/

/-- Modelled from the spec: the forward transform is computed by `dft` of OpenCV,
which is not among the sources (and the call is still to be written in `update`).
The spec has it be the complex-to-complex discrete Fourier transform of the
`optimalSize x optimalSize` image, with a full complex output. Bin `(u, v)` of the
transform of the `N x N` image `f` is the sum over the pixels `(i, j)` of
`f(i, j) * ω ^ (u * i + v * j)`, where `ω` is the root of unity `exp(-2πi/N)`. -/
def dft2 {R : Type} [CommSemiring R] (ω : R) (N : Nat) (f : Nat → Nat → R) (u v : Nat) : R :=
  Finset.sum (Finset.range N) fun i =>
    Finset.sum (Finset.range N) fun j => f i j * ω ^ (u * i + v * j)

/-- An image of real numbers of the given dimensions whose element `(i, j)` is
`3 * i + j`. -/
def sampleRealImage (rows cols : Int) : Mat ℝ :=
  { rows := rows, cols := cols, type := CV_64FC1, data := fun i j => ((3 * i + j : Int) : ℝ) }

/-- An environment in which freshly allocated buffers hold non-zero values. -/
def junkEnv : Env :=
  { area := fun _ _ _ _ _ => 0
    junkPixel := fun _ _ _ => 3
    junkUchar := fun _ _ => 9
    junkDouble := fun _ _ => Double.fin 7
    junkComplex := fun _ _ => (Double.fin 7, Double.fin 7)
    baseCleanup := fun p => p }

/-- An image of the given dimensions, three 8-bit channels, every component equal
to 0. -/
def zeroImage (rows cols : Int) : Mat Pixel :=
  { rows := rows, cols := cols, type := 16, data := fun _ _ _ => 0 }

/-! ## The Qt layer: `QcvProcessor` and `QcvSimpleDFT` -/

/-- Modelled from the spec: `CvProcessorException.h` is not among the sources. The
spec has a distinguishable "missing image" condition and an "invalid name" condition,
which `CvProcessor.h` names `NULL_IMAGE` and `INVALID_NAME`. -/
inductive CvProcessorException where
  | NULL_IMAGE
  | INVALID_NAME
  deriving DecidableEq

/-- Modelled from the spec: `QMutex` is a type of Qt, which is not among the sources.
The spec has a lock primitive guarding the source image: it is held or free. -/
structure QMutex where
  locked : Bool
  deriving DecidableEq

/-- The signals of `QcvProcessor` (`src/Histograms/QcvProcessor.h`) and of
`QcvSimpleDFT` (`src/Input/QcvSimpleDFT.h`). An image argument is a pointer to an
attribute of the processor and is left out; `imageChangedTo` is the signal
`imageChanged(Mat *)`. The text of `processTimeUpdated` and of `sendMessage` is left
out. -/
inductive Signal where
  | updated
  | finished
  | imageChanged
  | imageChangedTo
  | imageColorsChanged
  | imageSizeChanged
  | processTimeUpdated
  | sendText (message : String)
  | sendMessage
  | squareImageChanged
  | spectrumImageChanged
  | inverseImageChanged
  deriving DecidableEq

/-- What a call does that is visible from outside, in the order in which it does it:
operations on the source lock, emitted signals, and the start and the end of the call
of `CvSimpleDFT::update`. -/
inductive Event where
  | lock
  | unlock
  | emit (signal : Signal)
  | coreUpdateBegin
  | coreUpdateEnd
  deriving DecidableEq

/-- How a call ends: it returns, it leaves by an exception, or it never returns because
it waits for a lock that is held. -/
inductive Outcome where
  | returned
  | raised (e : CvProcessorException)
  | blocked
  deriving DecidableEq

/-- The attributes of a `QcvSimpleDFT`: those of `CvSimpleDFT` and, from
`QcvProcessor`, the pointer `sourceLock` (`none` for `NULL`) with the state of the
mutex it points to. The attributes `updateThread`, `message` and `processTimeString`
play no part here. -/
structure QcvSimpleDFT extends CvSimpleDFT where
  sourceLock : Option QMutex

/-- The result of a call: the state it leaves, the events it produced and how it
ended. -/
structure Run where
  state : QcvSimpleDFT
  events : List Event
  outcome : Outcome

namespace Run

/-- A step that returns at once. -/
def ret (s : QcvSimpleDFT) : Run := { state := s, events := [], outcome := Outcome.returned }

/-- Sequencing of statements: the rest of a body runs only if the step before it
returned; an exception or a blocked call ends the body there. -/
def andThen (r : Run) (next : QcvSimpleDFT → Run) : Run :=
  match r.outcome with
  | Outcome.returned =>
    { state := (next r.state).state
      events := r.events ++ (next r.state).events
      outcome := (next r.state).outcome }
  | _ => r

end Run

namespace QcvSimpleDFT

/-- The statement `emit signal(...)`. -/
def emitSignal (signal : Signal) (s : QcvSimpleDFT) : Run :=
  { state := s, events := [Event.emit signal], outcome := Outcome.returned }

/-- The statement `if (sourceLock != NULL) { sourceLock->lock(); }`. Locking a mutex
that is held never returns. -/
def lockSource (s : QcvSimpleDFT) : Run :=
  match s.sourceLock with
  | none => Run.ret s
  | some m =>
    if m.locked then { state := s, events := [], outcome := Outcome.blocked }
    else
      { state := { s with sourceLock := some { locked := true } }
        events := [Event.lock]
        outcome := Outcome.returned }

/-- The statement `if (sourceLock != NULL) { sourceLock->unlock(); }`. -/
def unlockSource (s : QcvSimpleDFT) : Run :=
  match s.sourceLock with
  | none => Run.ret s
  | some _ =>
    { state := { s with sourceLock := some { locked := false } }
      events := [Event.unlock]
      outcome := Outcome.returned }

/-- The constructor `QcvSimpleDFT::QcvSimpleDFT` (`QcvSimpleDFT.cpp`, lines 18 to
26), without the thread. -/
def new (env : Env) (image : Mat Pixel) (imageLock : Option QMutex) : QcvSimpleDFT :=
  { toCvSimpleDFT := CvSimpleDFT.new env image, sourceLock := imageLock }

end QcvSimpleDFT

/-- Modelled from the spec: `CvProcessor::setSourceImage` is declared in
`CvProcessor.h` and its body is not among the sources. Its documentation there has it
throw `NULL_IMAGE` when the new source image is `NULL`; the spec has the null image
rejected with the existing state unchanged, and a replacement force the cleanup and
the full setup (both virtual, so those of `CvSimpleDFT`). -/
def CvProcessor.setSourceImage (env : Env) (s : QcvSimpleDFT) (sourceImage : Option (Mat Pixel)) :
    Run :=
  match sourceImage with
  | none =>
    { state := s, events := [], outcome := Outcome.raised CvProcessorException.NULL_IMAGE }
  | some img =>
    Run.ret { s with toCvSimpleDFT := (s.toCvSimpleDFT.cleanup env).setup env img true }

/-- The method `QcvProcessor::update` (`QcvProcessor.cpp`, lines 109 to 122). -/
def QcvProcessor.update (s : QcvSimpleDFT) : Run :=
  (QcvSimpleDFT.emitSignal Signal.updated s).andThen fun s1 =>
  QcvSimpleDFT.emitSignal Signal.processTimeUpdated s1

namespace QcvSimpleDFT

/-- The call `CvSimpleDFT::update()` made by `QcvSimpleDFT::update`. -/
def coreUpdate (env : Env) (s : QcvSimpleDFT) : Run :=
  { state := { s with toCvSimpleDFT := s.toCvSimpleDFT.update env }
    events := [Event.coreUpdateBegin, Event.coreUpdateEnd]
    outcome := Outcome.returned }

/-- The method `QcvSimpleDFT::update` (`QcvSimpleDFT.cpp`, lines 40 to 63). -/
def update (env : Env) (s : QcvSimpleDFT) : Run :=
  (lockSource s).andThen fun s1 =>
  (coreUpdate env s1).andThen fun s2 =>
  (unlockSource s2).andThen fun s3 =>
  QcvProcessor.update s3

end QcvSimpleDFT

/-- The method `QcvProcessor::setSourceImage` (`QcvProcessor.cpp`, lines 134 to 176)
on a `QcvSimpleDFT`, whose `update` the last statement calls. The comparison of the
sizes reads `image->cols` and `image->rows`; it is only reached when
`CvProcessor::setSourceImage` returned, that is with an image. -/
def QcvProcessor.setSourceImage (env : Env) (s : QcvSimpleDFT) (image : Option (Mat Pixel)) :
    Run :=
  let previousSize := s.sourceImage.size
  let previousNbChannels := s.nbChannels
  (QcvSimpleDFT.lockSource s).andThen fun s1 =>
  (CvProcessor.setSourceImage env s1 image).andThen fun s2 =>
  (QcvSimpleDFT.unlockSource s2).andThen fun s3 =>
  (QcvSimpleDFT.emitSignal Signal.imageChangedTo s3).andThen fun s4 =>
  (QcvSimpleDFT.emitSignal Signal.imageChanged s4).andThen fun s5 =>
  (match image with
    | some img =>
      if previousSize.width ≠ img.cols ∨ previousSize.height ≠ img.rows then
        QcvSimpleDFT.emitSignal Signal.imageSizeChanged s5
      else Run.ret s5
    | none => Run.ret s5).andThen fun s6 =>
  (if previousNbChannels ≠ s6.nbChannels then
      QcvSimpleDFT.emitSignal Signal.imageColorsChanged s6
    else Run.ret s6).andThen fun s7 =>
  QcvSimpleDFT.update env s7

/-- The method `QcvSimpleDFT::setSourceImage` (`QcvSimpleDFT.cpp`, lines 70 to 90).
`QString::number` writes the integer in decimal. -/
def QcvSimpleDFT.setSourceImage (env : Env) (s : QcvSimpleDFT) (image : Option (Mat Pixel)) :
    Run :=
  let previousDftSize := s.dftSize
  (QcvProcessor.setSourceImage env s image).andThen fun s1 =>
  (QcvSimpleDFT.emitSignal Signal.squareImageChanged s1).andThen fun s2 =>
  (QcvSimpleDFT.emitSignal Signal.spectrumImageChanged s2).andThen fun s3 =>
  (if previousDftSize.width ≠ s3.dftSize.width ∨
        previousDftSize.height ≠ s3.dftSize.height then
      (QcvSimpleDFT.emitSignal Signal.imageSizeChanged s3).andThen fun s4 =>
      QcvSimpleDFT.emitSignal (Signal.sendText (toString s4.optimalDFTSize)) s4
    else Run.ret s3).andThen fun s5 =>
  QcvSimpleDFT.update env s5

/-! ## The state between two calls -/

namespace CvSimpleDFT

/-- The square frame `inFrameSquare` has the size `dftSize`. -/
def squareFrameSized (s : CvSimpleDFT) : Prop :=
  s.inFrameSquare.rows = s.dftSize.height ∧ s.inFrameSquare.cols = s.dftSize.width

/-- The numbers of entries of the nine per-channel buffer lists, in the order of their
declaration. -/
def Buffers.lengths (b : Buffers) : List Nat :=
  [b.channels.length, b.channelsDouble.length, b.channelsDoubleComplexComponents.length,
   b.channelsComplexImages.length, b.channelsComplexSpectrums.length,
   b.channelsComplexSpectrumComponents.length, b.channelsSpectrumMagnitude.length,
   b.channelsSpectrumLogMagnitude.length, b.channelsSpectrumLogMagnitudeDisplay.length]

end CvSimpleDFT

/-! ## The indices of `cleanup` -/

namespace CvSimpleDFT

/-- Every index that turn `i` of the loop of `cleanup` (lines 106 to 124) uses is in
range for the state `s` the turn starts from: `[i]` in each of the nine lists, and
`[i][j]` for `j = 0, 1` in the two component lists. The turn changes no length before
its last use of an index: `release` keeps the planes in place, and the two `clear()`
of entry `i` come after the inner loop. -/
def cleanupChannelInRange (s : CvSimpleDFT) (i : Nat) : Bool :=
  (match s.channelsComplexSpectrumComponents[i]? with
    | some planes => decide (2 ≤ planes.length)
    | none => false) &&
  (match s.channelsDoubleComplexComponents[i]? with
    | some planes => decide (2 ≤ planes.length)
    | none => false) &&
  decide (i < s.channelsSpectrumLogMagnitudeDisplay.length) &&
  decide (i < s.channelsSpectrumLogMagnitude.length) &&
  decide (i < s.channelsSpectrumMagnitude.length) &&
  decide (i < s.channelsComplexSpectrums.length) &&
  decide (i < s.channelsComplexImages.length) &&
  decide (i < s.channelsDouble.length) &&
  decide (i < s.channels.length)

/-- One turn of the loop of `cleanup` with its indices checked: no state is left
(`none`) once an index was out of range, which is undefined behaviour in C++. -/
def cleanupChannelChecked (s : Option CvSimpleDFT) (i : Nat) : Option CvSimpleDFT :=
  match s with
  | some st => if cleanupChannelInRange st i then some (cleanupChannel st i) else none
  | none => none

/-- The loop of `cleanup` (lines 106 to 124) with its indices checked. The statements
of `cleanup` after the loop use no index. -/
def cleanupLoopChecked (s : CvSimpleDFT) : Option CvSimpleDFT :=
  (List.range s.nbChannels.toNat).foldl cleanupChannelChecked (some s)

/-- Every per-channel buffer list holds at least `nbChannels` entries and every entry
of the two component lists holds 2 planes. -/
def cleanupInvariant (s : CvSimpleDFT) : Prop :=
  (∀ n ∈ s.buffers.lengths, s.nbChannels ≤ (n : Int)) ∧
  (∀ planes ∈ s.channelsDoubleComplexComponents, planes.length = 2) ∧
  (∀ planes ∈ s.channelsComplexSpectrumComponents, planes.length = 2)

end CvSimpleDFT

/-! ## The number format of `QcvProcessor` -/

/-- The static array `numberFormat` of `QcvProcessor` (`QcvProcessor.h`, line 35:
`static char numberFormat[10]`): its cells, and the bytes that copies have written
into the memory behind its last cell. -/
structure NumberFormat where
  cells : List Char
  past : List Char
  deriving DecidableEq

/-- The initial value of `numberFormat` (`QcvProcessor.cpp`, line 21): the
characters of `"%8.1f ms"`, the other cells of the 10 are zero. -/
def NumberFormat.initial : NumberFormat :=
  { cells := "%8.1f ms".toList ++ [Char.ofNat 0, Char.ofNat 0], past := [] }

/-- Modelled from the spec: `strcpy` is a function of the C library, which is not
among the sources, and the spec has no words on it. It copies the characters of `src`
and the terminating NUL to the start of `dst` without looking at the room there: the
bytes that do not fit into the cells of the array go to the memory behind it. -/
def strcpy (dst : NumberFormat) (src : List Char) : NumberFormat :=
  let bytes := src ++ [Char.ofNat 0]
  { cells := bytes.take dst.cells.length ++ dst.cells.drop bytes.length
    past := bytes.drop dst.cells.length ++ dst.past.drop (bytes.length - dst.cells.length) }

/-- The characters `+`, `-`, blank, `0` and `#` of the class `[+- 0#]`. -/
def isFormatFlag (c : Char) : Bool :=
  c = '+' || c = '-' || c = ' ' || c = '0' || c = '#'

/-- What the class `[efEF]` followed by the end of the string matches. -/
def isConversion : List Char → Bool
  | [c] => c = 'e' || c = 'f' || c = 'E' || c = 'F'
  | _ => false

/-- Modelled from the spec: `QRegExpValidator` is a class of Qt, which is not among
the sources, and the spec has no words on it. `validate` answers `Acceptable` for the
strings that the regular expression matches entirely. The expression is
`numberRegExp` (`QcvProcessor.cpp`, line 27),
`%[+- 0#]*[0-9]*([.][0-9]+)?[efEF]`: a percent sign, flags, digits, optionally a dot
with at least one digit, and one conversion character. Taking the longest run of
flags and then the longest run of digits loses no match, because what follows a run
cannot start with a character of the run. -/
def matchesNumberRegExp (format : List Char) : Bool :=
  match format with
  | c :: rest =>
    if c = '%' then
      match (rest.dropWhile isFormatFlag).dropWhile Char.isDigit with
      | d :: frac =>
        if d = '.' then
          (match frac with
            | f :: more => f.isDigit && isConversion (more.dropWhile Char.isDigit)
            | [] => false)
        else isConversion (d :: frac)
      | [] => false
    else false
  | [] => false

/-- The method `QcvProcessor::setNumberFormat` (`QcvProcessor.cpp`, lines 83 to
102). `format` holds the characters of the C string before its terminating NUL, so
`strlen(format)` is its length. The warning that is printed otherwise changes
nothing. -/
def QcvProcessor.setNumberFormat (numberFormat : NumberFormat) (format : List Char) :
    NumberFormat :=
  if matchesNumberRegExp format && decide (format.length ≤ 10) then
    strcpy numberFormat format
  else numberFormat

/-- Whether the source lock is held when the event of index `n` of a trace happens,
for a lock that is free when the trace starts. -/
def lockHeldAt (events : List Event) (n : Nat) : Bool :=
  (events.take n).foldl
    (fun held e =>
      match e with
      | Event.lock => true
      | Event.unlock => false
      | _ => held)
    false

/-- The signals that a trace emits, in the order in which it emits them. -/
def signalsOf (events : List Event) : List Signal :=
  events.filterMap fun e =>
    match e with
    | Event.emit signal => some signal
    | _ => none

/-! # Theorems -/

/-! ## Frame lemmas: what the loops of `setup` and `cleanup` leave alone -/

theorem foldl_keeps {σ α β : Type} (f : σ → α → σ) (p : σ → β)
    (h : ∀ s a, p (f s a) = p s) (l : List α) (s : σ) : p (l.foldl f s) = p s := by
  induction l generalizing s with
  | nil => rfl
  | cons a l ih => simp [List.foldl, ih, h]

namespace CvSimpleDFT

theorem config_setupChannel (env : Env) (s : CvSimpleDFT) (i : Nat) :
    (setupChannel env s i).config = s.config := by
  simp [setupChannel, setupPlane, config, List.range_succ]

theorem config_cleanupChannel (s : CvSimpleDFT) (i : Nat) :
    (cleanupChannel s i).config = s.config := by
  simp [cleanupChannel, config, List.range_succ]

theorem config_setup_false (env : Env) (s : CvSimpleDFT) (img : Mat Pixel) :
    (s.setup env img false).config = s.config := by
  unfold setup
  rw [foldl_keeps _ config (config_setupChannel env)]
  rfl

theorem logScaleFactor_setup (env : Env) (s : CvSimpleDFT) (img : Mat Pixel) (full : Bool) :
    (s.setup env img full).logScaleFactor = s.logScaleFactor := by
  have h := foldl_keeps (setupChannel env) config (config_setupChannel env)
  unfold setup
  have h2 := fun l s => congrArg Config.logScaleFactor (h l s)
  simp only [config] at h2
  rw [h2]
  cases full <;> rfl

theorem logScaleFactor_cleanup (env : Env) (s : CvSimpleDFT) :
    (s.cleanup env).logScaleFactor = s.logScaleFactor := by
  have h := foldl_keeps cleanupChannel config config_cleanupChannel
  have h2 := fun l s => congrArg Config.logScaleFactor (h l s)
  simp only [config] at h2
  unfold cleanup
  simp only [h2]

theorem logScaleFactor_update (env : Env) (s : CvSimpleDFT) :
    (s.update env).logScaleFactor = s.logScaleFactor := by
  unfold update
  split <;> rfl

theorem logScaleFactor_new (env : Env) (img : Mat Pixel) :
    (new env img).logScaleFactor = Double.fin 10 := by
  unfold new
  simp only [logScaleFactor_setup]

end CvSimpleDFT

/-! ## The log scale factor -/

namespace CvSimpleDFT

theorem getLogScaleFactor_setLogScaleFactor (s : CvSimpleDFT) (v : Double) :
    (s.setLogScaleFactor v).getLogScaleFactor =
      if Double.gt v maxLogScaleFactor then maxLogScaleFactor
      else if Double.lt v minLogScaleFactor then minLogScaleFactor else v := by
  unfold setLogScaleFactor getLogScaleFactor
  split
  · rfl
  · split <;> rfl

/-- C1: for every requested value `v`, `setLogScaleFactor(v)` followed by
`getLogScaleFactor()` returns `minLogScaleFactor` when `v < minLogScaleFactor`,
`maxLogScaleFactor` when `v > maxLogScaleFactor`, and exactly `v` when
`minLogScaleFactor <= v <= maxLogScaleFactor`. -/
theorem setLogScaleFactor_clamps (s : CvSimpleDFT) (v : Double) :
    (Double.lt v minLogScaleFactor = true →
      (s.setLogScaleFactor v).getLogScaleFactor = minLogScaleFactor) ∧
    (Double.gt v maxLogScaleFactor = true →
      (s.setLogScaleFactor v).getLogScaleFactor = maxLogScaleFactor) ∧
    (Double.le minLogScaleFactor v = true ∧ Double.le v maxLogScaleFactor = true →
      (s.setLogScaleFactor v).getLogScaleFactor = v) := by
  rw [getLogScaleFactor_setLogScaleFactor]
  cases v with
  | nan => simp [Double.lt, Double.gt, Double.le, minLogScaleFactor, maxLogScaleFactor]
  | negInf => simp [Double.lt, Double.gt, Double.le, minLogScaleFactor, maxLogScaleFactor]
  | posInf => simp [Double.lt, Double.gt, Double.le, minLogScaleFactor, maxLogScaleFactor]
  | fin q =>
    simp only [Double.lt, Double.gt, Double.le, minLogScaleFactor, maxLogScaleFactor,
      decide_eq_true_eq]
    refine ⟨fun h => ?_, fun h => ?_, fun h => ?_⟩
    · rw [if_neg (by linarith), if_pos h]
    · rw [if_pos h]
    · rw [if_neg (by linarith [h.2]), if_neg (by linarith [h.1])]

/-- C1, at the requests 3, 40 and 12.5 on a freshly constructed processor: the stored
factor is 5, 30 and 12.5. -/
theorem setLogScaleFactor_clamps_witness :
    ((new sampleEnv (sampleImage 4 4)).setLogScaleFactor (Double.fin 3)).getLogScaleFactor
        = Double.fin 5 ∧
    ((new sampleEnv (sampleImage 4 4)).setLogScaleFactor (Double.fin 40)).getLogScaleFactor
        = Double.fin 30 ∧
    ((new sampleEnv (sampleImage 4 4)).setLogScaleFactor
        (Double.fin (25 / 2))).getLogScaleFactor = Double.fin (25 / 2) :=
  ⟨(setLogScaleFactor_clamps _ (Double.fin 3)).1 (by decide),
   (setLogScaleFactor_clamps _ (Double.fin 40)).2.1 (by decide),
   (setLogScaleFactor_clamps _ (Double.fin (25 / 2))).2.2
     ⟨by norm_num [Double.le, minLogScaleFactor], by norm_num [Double.le, maxLogScaleFactor]⟩⟩

theorem logScaleFactorInRange_setLogScaleFactor (s : CvSimpleDFT) (v : Double)
    (hv : v.isNaN = false) : logScaleFactorInRange (s.setLogScaleFactor v) := by
  unfold logScaleFactorInRange
  rw [getLogScaleFactor_setLogScaleFactor]
  cases v with
  | nan => simp [Double.isNaN] at hv
  | negInf =>
    norm_num [Double.lt, Double.gt, Double.le, minLogScaleFactor, maxLogScaleFactor]
  | posInf =>
    norm_num [Double.lt, Double.gt, Double.le, minLogScaleFactor, maxLogScaleFactor]
  | fin q =>
    simp only [Double.lt, Double.gt, minLogScaleFactor, maxLogScaleFactor]
    by_cases h1 : (30 : ℚ) < q
    · norm_num [h1, Double.le]
    · by_cases h2 : q < (5 : ℚ)
      · norm_num [h1, h2, Double.le]
      · simp only [h1, h2, decide_False, Bool.false_eq_true, if_false, Double.le,
          decide_eq_true_eq]
        exact ⟨not_lt.mp h2, not_lt.mp h1⟩

theorem logScaleFactorInRange_step (env : Env) (s : CvSimpleDFT) (c : Call)
    (hc : c.requestsNaN = false) (hs : logScaleFactorInRange s) :
    logScaleFactorInRange (step env s c) := by
  cases c with
  | setLogScaleFactor v => exact logScaleFactorInRange_setLogScaleFactor s v hc
  | setup img full =>
    simpa [logScaleFactorInRange, step, getLogScaleFactor, logScaleFactor_setup] using hs
  | cleanupSetup img =>
    simpa [logScaleFactorInRange, step, getLogScaleFactor, logScaleFactor_setup,
      logScaleFactor_cleanup] using hs
  | update =>
    simpa [logScaleFactorInRange, step, getLogScaleFactor, logScaleFactor_update] using hs

theorem logScaleFactorInRange_run (env : Env) (calls : List Call) (s : CvSimpleDFT)
    (hc : ∀ c ∈ calls, c.requestsNaN = false) (hs : logScaleFactorInRange s) :
    logScaleFactorInRange (run env s calls) := by
  induction calls generalizing s with
  | nil => exact hs
  | cons c cs ih =>
    simp only [run, List.foldl]
    exact ih _ (fun d hd => hc d (List.mem_cons_of_mem _ hd))
      (logScaleFactorInRange_step env s c (hc c (List.mem_cons_self _ _)) hs)

/-- C2, as stated, fails: after construction and the single call
`setLogScaleFactor(NaN)` the stored factor is NaN, which is not in the range. -/
theorem logScaleFactor_range_counterexample :
    (run sampleEnv (new sampleEnv (sampleImage 4 4))
        [Call.setLogScaleFactor Double.nan]).getLogScaleFactor = Double.nan ∧
    ¬ logScaleFactorInRange
        (run sampleEnv (new sampleEnv (sampleImage 4 4))
          [Call.setLogScaleFactor Double.nan]) := by
  constructor
  · rfl
  · simp [logScaleFactorInRange, run, step, getLogScaleFactor_setLogScaleFactor,
      Double.gt, Double.lt, Double.le, maxLogScaleFactor, minLogScaleFactor]

/-- C2, amended: in every state reached from construction by a sequence of
`setLogScaleFactor`, `setup`, `cleanup`-then-`setup` and `update` calls in which no
request is NaN (infinite requests included), the stored log scale factor lies in
`[minLogScaleFactor, maxLogScaleFactor]`; `setLogScaleFactor` is a total function, it
has no error result. -/
theorem logScaleFactor_range_of_reachable (env : Env) (img : Mat Pixel) (calls : List Call)
    (hc : ∀ c ∈ calls, c.requestsNaN = false) :
    logScaleFactorInRange (run env (new env img) calls) := by
  apply logScaleFactorInRange_run env calls _ hc
  simp [logScaleFactorInRange, getLogScaleFactor, logScaleFactor_new, Double.le,
    minLogScaleFactor, maxLogScaleFactor]
  norm_num

/-- C2, amended, on a sequence of calls with requests below, above and inside the
range, a source replacement and an update. -/
theorem logScaleFactor_range_of_reachable_witness :
    logScaleFactorInRange
      (run sampleEnv (new sampleEnv (sampleImage 4 4))
        [Call.setLogScaleFactor Double.negInf, Call.update,
         Call.setLogScaleFactor (Double.fin 100), Call.cleanupSetup (sampleImage 3 2),
         Call.setLogScaleFactor (Double.fin 7), Call.setup (sampleImage 3 2) false]) :=
  logScaleFactor_range_of_reachable sampleEnv (sampleImage 4 4) _ (by
    intro c hc
    simp only [List.mem_cons, List.mem_singleton, List.not_mem_nil, or_false] at hc
    rcases hc with h | h | h | h | h | h <;> subst h <;> rfl)

/-- C3: the bounds are `minLogScaleFactor = 5.0` and `maxLogScaleFactor = 30.0`, and a
freshly constructed `CvSimpleDFT` has `logScaleFactor = 10.0`, which lies between the
two bounds. -/
theorem logScaleFactor_defaults (env : Env) (img : Mat Pixel) :
    minLogScaleFactor = Double.fin 5 ∧ maxLogScaleFactor = Double.fin 30 ∧
    (new env img).getLogScaleFactor = Double.fin 10 ∧
    Double.le minLogScaleFactor (new env img).getLogScaleFactor = true ∧
    Double.le (new env img).getLogScaleFactor maxLogScaleFactor = true := by
  refine ⟨rfl, rfl, logScaleFactor_new env img, ?_, ?_⟩
  · simp only [getLogScaleFactor, logScaleFactor_new]; decide
  · simp only [getLogScaleFactor, logScaleFactor_new]; decide

end CvSimpleDFT

/-! ## The geometry planner -/

theorem MIN_eq_min (a b : Int) : MIN a b = min a b := by
  unfold MIN
  split
  · exact (min_eq_right (le_of_lt ‹_›)).symm
  · exact (min_eq_left (not_lt.mp ‹_›)).symm

theorem MAX_eq_max (a b : Int) : MAX a b = max a b := by
  unfold MAX
  split
  · exact (max_eq_right (le_of_lt ‹_›)).symm
  · exact (max_eq_left (not_lt.mp ‹_›)).symm

theorem MIN_le_MAX (a b : Int) : MIN a b ≤ MAX a b := by
  rw [MIN_eq_min, MAX_eq_max]
  exact min_le_max

namespace CvSimpleDFT

theorem plannedFrom_of_config {s t : CvSimpleDFT} {img : Mat Pixel}
    (h : s.config = t.config) (ht : plannedFrom t img) : plannedFrom s img := by
  have h1 := congrArg (fun c => c.base.sourceImage) h
  have h2 := congrArg Config.minSize h
  have h3 := congrArg Config.maxSize h
  have h4 := congrArg Config.borderSize h
  have h5 := congrArg Config.optimalDFTSize h
  have h6 := congrArg Config.dftSize h
  simp only [config] at h1 h2 h3 h4 h5 h6
  unfold plannedFrom at *
  rw [h1, h2, h3, h4, h5, h6]
  exact ht

theorem plannedFrom_setup (env : Env) (s : CvSimpleDFT) (img : Mat Pixel) :
    plannedFrom (s.setup env img true) img := by
  unfold setup
  refine plannedFrom_of_config (foldl_keeps _ config (config_setupChannel env) _ _) ?_
  simp [plannedFrom, CvProcessor.setup]

theorem plannedFrom_new (env : Env) (img : Mat Pixel) : plannedFrom (new env img) img := by
  unfold new
  simp only [plannedFrom]
  have h := config_setup_false env
  have h1 := fun s i => congrArg (fun c => c.base.sourceImage) (h s i)
  have h2 := fun s i => congrArg Config.minSize (h s i)
  have h3 := fun s i => congrArg Config.maxSize (h s i)
  have h4 := fun s i => congrArg Config.borderSize (h s i)
  have h5 := fun s i => congrArg Config.optimalDFTSize (h s i)
  have h6 := fun s i => congrArg Config.dftSize (h s i)
  simp only [config] at h1 h2 h3 h4 h5 h6
  refine ⟨?_, h2 _ _, h3 _ _, h4 _ _, h5 _ _, ?_⟩
  · simp only [CvProcessor.addImage]
    split <;> split <;> simp [h1, CvProcessor.new]
  · simp only [h6, h5]

/-- C4: for every source image with `rows >= 0` and `cols >= 0`, after construction
or a full setup, `minSize = min(rows, cols)`, `maxSize = max(rows, cols)`,
`borderSize = floor((maxSize - minSize) / 2)` and
`dftSize = (optimalDFTSize, optimalDFTSize)`. -/
theorem planner_fields (env : Env) (s0 : CvSimpleDFT) (img : Mat Pixel)
    (_hr : 0 ≤ img.rows) (_hc : 0 ≤ img.cols) :
    ∀ s, (s = new env img ∨ s = s0.setup env img true) →
      s.minSize = min img.rows img.cols ∧
      s.maxSize = max img.rows img.cols ∧
      s.borderSize = ⌊(((s.maxSize - s.minSize : Int) : ℚ)) / 2⌋ ∧
      s.dftSize = { width := s.optimalDFTSize, height := s.optimalDFTSize } := by
  intro s hs
  have hp : plannedFrom s img := by
    rcases hs with h | h <;> subst h
    · exact plannedFrom_new env img
    · exact plannedFrom_setup env s0 img
  obtain ⟨_, h2, h3, h4, _, h6⟩ := hp
  refine ⟨h2.trans (MIN_eq_min _ _), h3.trans (MAX_eq_max _ _), ?_, h6⟩
  rw [h4, h2, h3]
  have hnn : 0 ≤ MAX img.rows img.cols - MIN img.rows img.cols :=
    sub_nonneg.mpr (MIN_le_MAX _ _)
  rw [Int.tdiv_eq_ediv hnn (by decide)]
  have := Rat.floor_intCast_div_natCast (MAX img.rows img.cols - MIN img.rows img.cols) 2
  simpa using this.symm

/-- C4 on a 200 x 300 image, after construction: `minSize = 200`, `maxSize = 300`
and `borderSize = 50`. -/
theorem planner_fields_witness :
    0 ≤ (sampleImage 200 300).rows ∧ 0 ≤ (sampleImage 200 300).cols ∧
    (new sampleEnv (sampleImage 200 300)).minSize = 200 ∧
    (new sampleEnv (sampleImage 200 300)).maxSize = 300 ∧
    (new sampleEnv (sampleImage 200 300)).borderSize = 50 ∧
    (new sampleEnv (sampleImage 200 300)).borderSize =
      ⌊((((new sampleEnv (sampleImage 200 300)).maxSize -
          (new sampleEnv (sampleImage 200 300)).minSize : Int) : ℚ)) / 2⌋ ∧
    (new sampleEnv (sampleImage 200 300)).dftSize = { width := 200, height := 200 } :=
  have h := planner_fields sampleEnv (new sampleEnv (sampleImage 4 4)) (sampleImage 200 300)
    (by decide) (by decide) _ (Or.inl rfl)
  ⟨by decide, by decide, h.1, h.2.1, by decide, h.2.2.1, h.2.2.2⟩

theorem rowRange_zero_eq {T : Type} (m : Mat T) : m.rowRange 0 m.rows = m := by
  cases m
  simp [Mat.rowRange]

theorem update_of_wide (env : Env) (s : CvSimpleDFT)
    (h : s.sourceImage.cols > s.sourceImage.rows) :
    s.update env =
      { s with
        inFrameSquare :=
          resize env (s.sourceImage.colRange s.borderSize (s.borderSize + s.minSize))
            s.dftSize } := by
  unfold update
  rw [if_pos h]

theorem update_of_not_wide (env : Env) (s : CvSimpleDFT)
    (h : ¬ s.sourceImage.cols > s.sourceImage.rows) :
    s.update env =
      { s with
        inFrameSquare :=
          resize env (s.sourceImage.rowRange s.borderSize (s.borderSize + s.minSize))
            s.dftSize } := by
  unfold update
  rw [if_neg h]

/-- C5: for every source image with `rows == cols`, after construction or a full
setup `borderSize` is 0, `update` takes its else branch and crops the row range
`[borderSize, borderSize + minSize)`, and that range is `[0, rows)`, the whole
image. -/
theorem square_image_crop (env : Env) (s0 : CvSimpleDFT) (img : Mat Pixel)
    (h : img.rows = img.cols) :
    ∀ s, (s = new env img ∨ s = s0.setup env img true) →
      s.borderSize = 0 ∧
      s.update env =
        { s with
          inFrameSquare :=
            resize env (img.rowRange s.borderSize (s.borderSize + s.minSize)) s.dftSize } ∧
      img.rowRange s.borderSize (s.borderSize + s.minSize) = img.rowRange 0 img.rows ∧
      img.rowRange 0 img.rows = img := by
  intro s hs
  have hp : plannedFrom s img := by
    rcases hs with h | h <;> subst h
    · exact plannedFrom_new env img
    · exact plannedFrom_setup env s0 img
  obtain ⟨h1, h2, _, h4, _, _⟩ := hp
  have hmin : s.minSize = img.rows := by rw [h2, MIN_eq_min, h, min_self]
  have hb : s.borderSize = 0 := by
    rw [h4, MIN_eq_min, MAX_eq_max, h, min_self, max_self, sub_self]
    rfl
  refine ⟨hb, ?_, ?_, rowRange_zero_eq img⟩
  · rw [update_of_not_wide env s (by rw [h1, h]; exact lt_irrefl _), h1]
  · rw [hb, hmin, zero_add]

/-- C5 on a 240 x 240 image. -/
theorem square_image_crop_witness :
    (sampleImage 240 240).rows = (sampleImage 240 240).cols ∧
    (new sampleEnv (sampleImage 240 240)).borderSize = 0 ∧
    (sampleImage 240 240).rowRange (new sampleEnv (sampleImage 240 240)).borderSize
        ((new sampleEnv (sampleImage 240 240)).borderSize +
          (new sampleEnv (sampleImage 240 240)).minSize) = sampleImage 240 240 :=
  have h := square_image_crop sampleEnv (new sampleEnv (sampleImage 4 4))
    (sampleImage 240 240) rfl _ (Or.inl rfl)
  ⟨rfl, h.1, h.2.2.1.trans h.2.2.2⟩

theorem geometryMatches_of_plannedFrom {s : CvSimpleDFT} {img : Mat Pixel}
    (h : plannedFrom s img) : geometryMatches s := by
  obtain ⟨h1, h2, h3, h4, _, _⟩ := h
  exact ⟨by rw [h1]; exact h2, by rw [h1]; exact h3, by rw [h4, h2, h3]⟩

/-- C8: when the dimensions of the source image match the cached geometry, `update`
crops the column range `[borderSize, borderSize + minSize)` over all rows when
`cols > rows`, and otherwise the row range `[borderSize, borderSize + minSize)` over
all columns; in both cases the cropped region has `minSize` rows and `minSize`
columns. -/
theorem update_crops_square (env : Env) (s : CvSimpleDFT) (h : geometryMatches s) :
    (s.sourceImage.cols > s.sourceImage.rows →
      s.update env =
        { s with
          inFrameSquare :=
            resize env (s.sourceImage.colRange s.borderSize (s.borderSize + s.minSize))
              s.dftSize } ∧
      (s.sourceImage.colRange s.borderSize (s.borderSize + s.minSize)).rows
        = s.sourceImage.rows ∧
      (s.sourceImage.colRange s.borderSize (s.borderSize + s.minSize)).rows = s.minSize ∧
      (s.sourceImage.colRange s.borderSize (s.borderSize + s.minSize)).cols = s.minSize) ∧
    (¬ s.sourceImage.cols > s.sourceImage.rows →
      s.update env =
        { s with
          inFrameSquare :=
            resize env (s.sourceImage.rowRange s.borderSize (s.borderSize + s.minSize))
              s.dftSize } ∧
      (s.sourceImage.rowRange s.borderSize (s.borderSize + s.minSize)).cols
        = s.sourceImage.cols ∧
      (s.sourceImage.rowRange s.borderSize (s.borderSize + s.minSize)).rows = s.minSize ∧
      (s.sourceImage.rowRange s.borderSize (s.borderSize + s.minSize)).cols = s.minSize) := by
  obtain ⟨hmin, _, _⟩ := h
  constructor
  · intro hw
    refine ⟨update_of_wide env s hw, rfl, ?_, ?_⟩
    · show s.sourceImage.rows = s.minSize
      rw [hmin, MIN_eq_min]
      omega
    · simp only [Mat.colRange, add_sub_cancel_left]
  · intro hw
    refine ⟨update_of_not_wide env s hw, rfl, ?_, ?_⟩
    · simp only [Mat.rowRange, add_sub_cancel_left]
    · show s.sourceImage.cols = s.minSize
      rw [hmin, MIN_eq_min]
      omega

/-- C8 on a 200 x 300 image (wider than high) and on a 300 x 200 image. -/
theorem update_crops_square_witness :
    geometryMatches (new sampleEnv (sampleImage 200 300)) ∧
    ((sampleImage 200 300).colRange 50 250).rows = 200 ∧
    ((sampleImage 200 300).colRange 50 250).cols = 200 ∧
    (new sampleEnv (sampleImage 200 300)).update sampleEnv =
      { new sampleEnv (sampleImage 200 300) with
        inFrameSquare :=
          resize sampleEnv ((sampleImage 200 300).colRange 50 250)
            (new sampleEnv (sampleImage 200 300)).dftSize } :=
  have g := geometryMatches_of_plannedFrom (plannedFrom_new sampleEnv (sampleImage 200 300))
  ⟨g, rfl, rfl,
    ((update_crops_square sampleEnv (new sampleEnv (sampleImage 200 300)) g).1
      (by decide)).1⟩

end CvSimpleDFT

/-! ## The optimal DFT size -/

theorem stripFactor_dvd (p : Nat) (fuel n : Nat) : stripFactor p fuel n ∣ n := by
  induction fuel generalizing n with
  | zero => exact dvd_refl n
  | succ f ih =>
    unfold stripFactor
    split
    · rename_i h
      exact dvd_trans (ih (n / p)) (Nat.div_dvd_of_dvd (Nat.dvd_of_mod_eq_zero h.2))
    · exact dvd_refl n

theorem stripFactor_ne_zero (p : Nat) (fuel n : Nat) (hn : n ≠ 0) :
    stripFactor p fuel n ≠ 0 := by
  intro h
  have hd := stripFactor_dvd p fuel n
  rw [h] at hd
  exact hn (Nat.eq_zero_of_zero_dvd hd)

theorem stripFactor_mul_pow (p : Nat) (fuel n : Nat) :
    ∃ k, n = stripFactor p fuel n * p ^ k := by
  induction fuel generalizing n with
  | zero => exact ⟨0, by simp [stripFactor]⟩
  | succ f ih =>
    unfold stripFactor
    split
    · rename_i h
      obtain ⟨k, hk⟩ := ih (n / p)
      refine ⟨k + 1, ?_⟩
      have hdiv : n / p * p = n := Nat.div_mul_cancel (Nat.dvd_of_mod_eq_zero h.2)
      calc n = n / p * p := hdiv.symm
        _ = stripFactor p f (n / p) * p ^ k * p := by rw [← hk]
        _ = stripFactor p f (n / p) * p ^ (k + 1) := by rw [pow_succ, mul_assoc]
    · exact ⟨0, by simp⟩

theorem not_dvd_stripFactor (p : Nat) (hp : 2 ≤ p) (fuel n : Nat) (hn : n ≠ 0)
    (hfuel : n ≤ fuel) : ¬ p ∣ stripFactor p fuel n := by
  induction fuel generalizing n with
  | zero => exact absurd (Nat.le_zero.mp hfuel) hn
  | succ f ih =>
    unfold stripFactor
    split
    · rename_i h
      have hdvd : p ∣ n := Nat.dvd_of_mod_eq_zero h.2
      have hpos : 0 < n / p :=
        Nat.div_pos (Nat.le_of_dvd (Nat.pos_of_ne_zero hn) hdvd) (by omega)
      have hlt : n / p < n := Nat.div_lt_self (Nat.pos_of_ne_zero hn) (by omega)
      exact ih (n / p) (by omega) (by omega)
    · rename_i h
      intro hd
      exact h ⟨hn, Nat.mod_eq_zero_of_dvd hd⟩

theorem isSmooth_iff (n : Nat) : isSmooth n = true ↔ 0 < n ∧ onlyFactors235 n := by
  unfold isSmooth
  rw [beq_iff_eq]
  obtain ⟨i, hi⟩ := stripFactor_mul_pow 2 n n
  obtain ⟨j, hj⟩ := stripFactor_mul_pow 3 n (stripFactor 2 n n)
  obtain ⟨k, hk⟩ := stripFactor_mul_pow 5 n (stripFactor 3 n (stripFactor 2 n n))
  constructor
  · intro h
    rw [h, one_mul] at hk
    rw [hk] at hj
    rw [hj] at hi
    have hpos : 0 < n := by
      rw [hi]
      positivity
    refine ⟨hpos, fun p hp hd => ?_⟩
    rw [hi] at hd
    rcases (Nat.Prime.dvd_mul hp).mp hd with h1 | h1
    · rcases (Nat.Prime.dvd_mul hp).mp h1 with h2 | h2
      · exact Or.inr (Or.inr
          ((Nat.prime_dvd_prime_iff_eq hp (by norm_num)).mp (hp.dvd_of_dvd_pow h2)))
      · exact Or.inr (Or.inl
          ((Nat.prime_dvd_prime_iff_eq hp (by norm_num)).mp (hp.dvd_of_dvd_pow h2)))
    · exact Or.inl
        ((Nat.prime_dvd_prime_iff_eq hp (by norm_num)).mp (hp.dvd_of_dvd_pow h1))
  · rintro ⟨hpos, hf⟩
    have hn : n ≠ 0 := Nat.pos_iff_ne_zero.mp hpos
    have ha0 := stripFactor_ne_zero 2 n n hn
    have had := stripFactor_dvd 2 n n
    have ha2 := not_dvd_stripFactor 2 (le_refl 2) n n hn (le_refl n)
    have hale : stripFactor 2 n n ≤ n := Nat.le_of_dvd hpos had
    have hb0 := stripFactor_ne_zero 3 n _ ha0
    have hbd := stripFactor_dvd 3 n (stripFactor 2 n n)
    have hb3 := not_dvd_stripFactor 3 (by norm_num) n _ ha0 hale
    have hble : stripFactor 3 n (stripFactor 2 n n) ≤ n :=
      le_trans (Nat.le_of_dvd (Nat.pos_of_ne_zero ha0) hbd) hale
    have hrd := stripFactor_dvd 5 n (stripFactor 3 n (stripFactor 2 n n))
    have hr5 := not_dvd_stripFactor 5 (by norm_num) n _ hb0 hble
    by_contra hne
    obtain ⟨p, hp, hpd⟩ := Nat.exists_prime_and_dvd hne
    have hpb := dvd_trans hpd hrd
    have hpa := dvd_trans hpb hbd
    rcases hf p hp (dvd_trans hpa had) with h | h | h
    · exact ha2 (h ▸ hpa)
    · exact hb3 (h ▸ hpb)
    · exact hr5 (h ▸ hpd)

theorem firstSmooth_spec (fuel n m : Nat) (hnm : n ≤ m) (hm : m ≤ n + fuel)
    (hs : isSmooth m = true) :
    isSmooth (firstSmooth fuel n) = true ∧ n ≤ firstSmooth fuel n ∧
      firstSmooth fuel n ≤ m := by
  induction fuel generalizing n with
  | zero =>
    have : m = n := by omega
    subst this
    exact ⟨hs, le_refl _, le_refl _⟩
  | succ f ih =>
    unfold firstSmooth
    split
    · rename_i h
      exact ⟨h, le_refl _, hnm⟩
    · rename_i h
      have hne : n ≠ m := fun e => h (e ▸ hs)
      obtain ⟨h1, h2, h3⟩ := ih (n + 1) (by omega) (by omega)
      exact ⟨h1, by omega, h3⟩

theorem isSmooth_two_pow (k : Nat) : isSmooth (2 ^ k) = true := by
  rw [isSmooth_iff]
  refine ⟨by positivity, fun p hp hd => Or.inl ?_⟩
  exact (Nat.prime_dvd_prime_iff_eq hp Nat.prime_two).mp (hp.dvd_of_dvd_pow hd)

theorem exists_smooth_near (n : Nat) : ∃ m, n ≤ m ∧ m ≤ n + (n + 1) ∧ isSmooth m = true := by
  rcases Nat.lt_or_ge n 2 with h | h
  · exact ⟨1, by omega, by omega, isSmooth_two_pow 0⟩
  · refine ⟨2 ^ Nat.clog 2 n, Nat.le_pow_clog (by norm_num) n, ?_, isSmooth_two_pow _⟩
    have hpos : 0 < Nat.clog 2 n := Nat.clog_pos (by norm_num) h
    have hlt := Nat.pow_pred_clog_lt_self (b := 2) (by norm_num) (x := n) (by omega)
    have hsplit : 2 ^ Nat.clog 2 n = 2 * 2 ^ (Nat.clog 2 n).pred := by
      rw [← pow_succ']
      congr 1
      have := Nat.succ_pred_eq_of_pos hpos
      omega
    omega

/-- The planner function returns a product of powers of 2, 3 and 5 that is not below
its argument, and the smallest such number. -/
theorem getOptimalDFTSize_spec (v : Int) :
    ∃ r : Nat, getOptimalDFTSize v = (r : Int) ∧ v ≤ (r : Int) ∧ 0 < r ∧
      onlyFactors235 r ∧
      ∀ m : Nat, v ≤ (m : Int) → 0 < m → onlyFactors235 m → r ≤ m := by
  obtain ⟨m0, h1, h2, h3⟩ := exists_smooth_near v.toNat
  obtain ⟨hs, hle, _⟩ := firstSmooth_spec (v.toNat + 1) v.toNat m0 h1 h2 h3
  refine ⟨firstSmooth (v.toNat + 1) v.toNat, rfl, ?_, ((isSmooth_iff _).mp hs).1,
    ((isSmooth_iff _).mp hs).2, ?_⟩
  · have := Int.self_le_toNat v
    omega
  · intro m hvm hm hf
    have hsm : isSmooth m = true := (isSmooth_iff m).mpr ⟨hm, hf⟩
    have hnm : v.toNat ≤ m := by omega
    rcases Nat.lt_or_ge (v.toNat + (v.toNat + 1)) m with hbig | hsmall
    · obtain ⟨_, _, h5⟩ := firstSmooth_spec (v.toNat + 1) v.toNat m0 h1 h2 h3
      omega
    · exact (firstSmooth_spec (v.toNat + 1) v.toNat m hnm hsmall hsm).2.2

namespace CvSimpleDFT

/-- C6: for every source image with `rows >= 1` and `cols >= 1`, after construction or
a full setup `optimalDFTSize` is `getOptimalDFTSize(minSize)`, it is not below
`minSize = min(rows, cols)`, its only prime factors are 2, 3 and 5, and it is the
smallest integer `N >= min(rows, cols)` with these prime factors only. -/
theorem optimalDFTSize_smallest (env : Env) (s0 : CvSimpleDFT) (img : Mat Pixel)
    (hr : 1 ≤ img.rows) (hc : 1 ≤ img.cols) :
    ∀ s, (s = new env img ∨ s = s0.setup env img true) →
      s.getOptimalDftSize = getOptimalDFTSize s.minSize ∧
      s.minSize = min img.rows img.cols ∧
      s.minSize ≤ s.getOptimalDftSize ∧
      intOnlyFactors235 s.getOptimalDftSize ∧
      ∀ N : Int, min img.rows img.cols ≤ N → intOnlyFactors235 N →
        s.getOptimalDftSize ≤ N := by
  intro s hs
  have hp : plannedFrom s img := by
    rcases hs with h | h <;> subst h
    · exact plannedFrom_new env img
    · exact plannedFrom_setup env s0 img
  obtain ⟨_, h2, _, _, h5, _⟩ := hp
  have hmin : s.minSize = min img.rows img.cols := h2.trans (MIN_eq_min _ _)
  have hone : 1 ≤ min img.rows img.cols := le_min hr hc
  obtain ⟨r, hr1, hr2, _, hr4, hr5⟩ := getOptimalDFTSize_spec (MIN img.rows img.cols)
  rw [MIN_eq_min] at hr1 hr2 hr5
  have hopt : s.getOptimalDftSize = (r : Int) := by
    unfold getOptimalDftSize
    rw [h5, MIN_eq_min, hr1]
  refine ⟨?_, hmin, ?_, ?_, ?_⟩
  · unfold getOptimalDftSize
    rw [h5, h2]
  · rw [hopt, hmin]
    exact hr2
  · rw [hopt]
    intro p hp hd
    exact hr4 p hp (Int.natCast_dvd_natCast.mp hd)
  · intro N hN hf
    rw [hopt]
    have hNpos : 0 < N := by omega
    have hcast : ((N.toNat : Nat) : Int) = N := Int.toNat_of_nonneg (le_of_lt hNpos)
    have hle : r ≤ N.toNat := by
      apply hr5 N.toNat
      · rw [hcast]; exact hN
      · omega
      · intro p hp hd
        apply hf p hp
        rw [← hcast]
        exact Int.natCast_dvd_natCast.mpr hd
    omega

/-- C6 on a 200 x 241 image: the planned size is 200, and on a 241 x 300 image it is
243. -/
theorem optimalDFTSize_smallest_witness :
    1 ≤ (sampleImage 241 300).rows ∧ 1 ≤ (sampleImage 241 300).cols ∧
    (new sampleEnv (sampleImage 241 300)).getOptimalDftSize = 243 ∧
    (new sampleEnv (sampleImage 241 300)).minSize ≤
      (new sampleEnv (sampleImage 241 300)).getOptimalDftSize ∧
    intOnlyFactors235 (new sampleEnv (sampleImage 241 300)).getOptimalDftSize :=
  have h := optimalDFTSize_smallest sampleEnv (new sampleEnv (sampleImage 4 4))
    (sampleImage 241 300) (by decide) (by decide) _ (Or.inl rfl)
  ⟨by decide, by decide, by decide, h.2.2.1, h.2.2.2.1⟩

/-- C7, as stated, fails: the constructor and `setup` have no check on the dimensions
and no error result. On an image of 0 rows and 5 columns the constructor returns a
state, with the geometry `minSize = 0`, `maxSize = 5`, `borderSize = 2`,
`optimalDFTSize = 1` and `dftSize = (1, 1)`, and so does a full setup. -/
theorem planner_accepts_empty_image :
    (sampleImage 0 5).rows ≤ 0 ∧
    (new sampleEnv (sampleImage 0 5)).minSize = 0 ∧
    (new sampleEnv (sampleImage 0 5)).maxSize = 5 ∧
    (new sampleEnv (sampleImage 0 5)).borderSize = 2 ∧
    (new sampleEnv (sampleImage 0 5)).optimalDFTSize = 1 ∧
    (new sampleEnv (sampleImage 0 5)).dftSize = { width := 1, height := 1 } ∧
    ((new sampleEnv (sampleImage 4 4)).setup sampleEnv (sampleImage 0 5) true).minSize = 0 ∧
    ((new sampleEnv (sampleImage 4 4)).setup sampleEnv (sampleImage 0 5) true).maxSize = 5 ∧
    ((new sampleEnv (sampleImage 4 4)).setup sampleEnv (sampleImage 0 5) true).borderSize
      = 2 ∧
    ((new sampleEnv (sampleImage 4 4)).setup sampleEnv (sampleImage 0 5) true).optimalDFTSize
      = 1 ∧
    ((new sampleEnv (sampleImage 4 4)).setup sampleEnv (sampleImage 0 5) true).dftSize
      = { width := 1, height := 1 } := by
  refine ⟨?_, ?_, ?_, ?_, ?_, ?_, ?_, ?_, ?_, ?_, ?_⟩ <;> decide

/-- C7, amended: geometry planning does not reject an empty image. For every source
image with `rows = 0` or `cols = 0` (and no negative dimension), construction and
full setup return a state, whose geometry is `minSize = 0`,
`maxSize = max(rows, cols)`, `borderSize = maxSize / 2`,
`optimalDFTSize = getOptimalDFTSize(0)` and
`dftSize = (optimalDFTSize, optimalDFTSize)`. -/
theorem planner_on_empty_image (env : Env) (s0 : CvSimpleDFT) (img : Mat Pixel)
    (hr : 0 ≤ img.rows) (hc : 0 ≤ img.cols) (h0 : img.rows ≤ 0 ∨ img.cols ≤ 0) :
    ∀ s, (s = new env img ∨ s = s0.setup env img true) →
      s.minSize = 0 ∧ s.maxSize = max img.rows img.cols ∧
      s.borderSize = s.maxSize / 2 ∧
      s.optimalDFTSize = getOptimalDFTSize 0 ∧
      s.dftSize = { width := s.optimalDFTSize, height := s.optimalDFTSize } := by
  intro s hs
  have hp : plannedFrom s img := by
    rcases hs with h | h <;> subst h
    · exact plannedFrom_new env img
    · exact plannedFrom_setup env s0 img
  obtain ⟨_, h2, h3, h4, h5, h6⟩ := hp
  have hmin : MIN img.rows img.cols = 0 := by
    rw [MIN_eq_min]
    omega
  have hmax : 0 ≤ MAX img.rows img.cols := by
    rw [MAX_eq_max]
    omega
  refine ⟨by rw [h2, hmin], by rw [h3, MAX_eq_max], ?_, by rw [h5, hmin], h6⟩
  rw [h4, h3, hmin, sub_zero, Int.tdiv_eq_ediv hmax (by decide)]

/-- C7, amended, on an image of 0 rows and 5 columns. -/
theorem planner_on_empty_image_witness :
    0 ≤ (sampleImage 0 5).rows ∧ 0 ≤ (sampleImage 0 5).cols ∧
    ((sampleImage 0 5).rows ≤ 0 ∨ (sampleImage 0 5).cols ≤ 0) ∧
    (new sampleEnv (sampleImage 0 5)).minSize = 0 ∧
    (new sampleEnv (sampleImage 0 5)).maxSize = 5 ∧
    (new sampleEnv (sampleImage 0 5)).borderSize = 2 :=
  have h := planner_on_empty_image sampleEnv (new sampleEnv (sampleImage 4 4))
    (sampleImage 0 5) (by decide) (by decide) (Or.inl (by decide)) _ (Or.inl rfl)
  ⟨by decide, by decide, Or.inl (by decide), h.1, h.2.1, h.2.2.1⟩

end CvSimpleDFT

/-! ## The frequency shift -/

theorem Mat.foldl_set_row {T : Type} (m : Mat T) (i : Int) (f : Nat → T) (c : Nat) :
    (List.range c).foldl (fun out j => out.set i (j : Int) (f j)) m =
      { m with
        data := fun a b => if a = i ∧ 0 ≤ b ∧ b < (c : Int) then f b.toNat else m.data a b } := by
  induction c with
  | zero =>
    cases m
    simp only [List.range_zero, List.foldl_nil, Mat.mk.injEq, true_and]
    funext a b
    rw [if_neg]
    omega
  | succ c ih =>
    rw [List.range_succ, List.foldl_append, ih]
    simp only [List.foldl_cons, List.foldl_nil, Mat.set, Mat.mk.injEq, true_and]
    funext a b
    by_cases h1 : a = i ∧ b = (c : Int)
    · obtain ⟨ha, hb⟩ := h1
      subst ha hb
      rw [if_pos ⟨rfl, rfl⟩, if_pos ⟨rfl, by omega, by push_cast; omega⟩]
      simp
    · rw [if_neg h1]
      by_cases h2 : a = i ∧ 0 ≤ b ∧ b < (c : Int)
      · rw [if_pos h2, if_pos ⟨h2.1, h2.2.1, by push_cast; omega⟩]
      · rw [if_neg h2, if_neg]
        rintro ⟨ha, hb0, hb1⟩
        push_cast at hb1
        by_cases hbc : b = (c : Int)
        · exact h1 ⟨ha, hbc⟩
        · exact h2 ⟨ha, hb0, by omega⟩

theorem Mat.foldl_set_rows {T : Type} (m : Mat T) (g : Nat → Nat → T) (r c : Nat) :
    (List.range r).foldl
        (fun out i => (List.range c).foldl (fun out j => out.set (i : Int) (j : Int) (g i j)) out)
        m =
      { m with
        data := fun a b =>
          if (0 ≤ a ∧ a < (r : Int)) ∧ 0 ≤ b ∧ b < (c : Int) then g a.toNat b.toNat
          else m.data a b } := by
  induction r with
  | zero =>
    cases m
    simp only [List.range_zero, List.foldl_nil, Mat.mk.injEq, true_and]
    funext a b
    rw [if_neg]
    omega
  | succ r ih =>
    rw [List.range_succ, List.foldl_append, ih]
    simp only [List.foldl_cons, List.foldl_nil]
    rw [Mat.foldl_set_row]
    simp only [Mat.mk.injEq, true_and]
    funext a b
    by_cases h1 : a = (r : Int) ∧ 0 ≤ b ∧ b < (c : Int)
    · obtain ⟨ha, hb⟩ := h1
      subst ha
      rw [if_pos ⟨rfl, hb⟩, if_pos ⟨⟨by omega, by push_cast; omega⟩, hb⟩]
      simp
    · rw [if_neg h1]
      by_cases h2 : (0 ≤ a ∧ a < (r : Int)) ∧ 0 ≤ b ∧ b < (c : Int)
      · rw [if_pos h2, if_pos ⟨⟨h2.1.1, by push_cast; omega⟩, h2.2⟩]
      · rw [if_neg h2, if_neg]
        rintro ⟨⟨ha0, ha1⟩, hb⟩
        push_cast at ha1
        by_cases har : a = (r : Int)
        · exact h1 ⟨har, hb⟩
        · exact h2 ⟨⟨ha0, by omega⟩, hb⟩

/-- The image left by `frequencyShift`: the header of `imgOut`, and inside the
dimensions of `imgIn` the elements of `imgIn` times `pow(-1.0, i + j)`. -/
theorem frequencyShift_eq {T : Type} [Mul T] [One T] [Neg T] (imgIn imgOut : Mat T) :
    frequencyShift imgIn imgOut =
      { imgOut with
        data := fun a b =>
          if (0 ≤ a ∧ a < imgIn.rows) ∧ 0 ≤ b ∧ b < imgIn.cols then
            imgIn.get a b * powMinusOne (a + b)
          else imgOut.data a b } := by
  unfold frequencyShift
  rw [Mat.foldl_set_rows imgOut
    (fun i j => imgIn.get (i : Int) (j : Int) * powMinusOne ((i : Int) + (j : Int)))]
  simp only [Mat.mk.injEq, true_and]
  funext a b
  by_cases h : (0 ≤ a ∧ a < imgIn.rows) ∧ 0 ≤ b ∧ b < imgIn.cols
  · have ha : ((a.toNat : Nat) : Int) = a := Int.toNat_of_nonneg h.1.1
    have hb : ((b.toNat : Nat) : Int) = b := Int.toNat_of_nonneg h.2.1
    rw [if_pos h, if_pos ⟨⟨h.1.1, by omega⟩, h.2.1, by omega⟩, ha, hb]
  · rw [if_neg h, if_neg]
    rintro ⟨⟨ha0, ha1⟩, hb0, hb1⟩
    exact h ⟨⟨ha0, by omega⟩, hb0, by omega⟩

theorem frequencyShift_get {T : Type} [Mul T] [One T] [Neg T] (imgIn imgOut : Mat T)
    (i j : Int) (hi : 0 ≤ i ∧ i < imgIn.rows) (hj : 0 ≤ j ∧ j < imgIn.cols) :
    (frequencyShift imgIn imgOut).get i j = imgIn.get i j * powMinusOne (i + j) := by
  rw [frequencyShift_eq]
  simp only [Mat.get]
  rw [if_pos ⟨hi, hj⟩]

theorem frequencyShift_rows {T : Type} [Mul T] [One T] [Neg T] (imgIn imgOut : Mat T) :
    (frequencyShift imgIn imgOut).rows = imgOut.rows := by
  rw [frequencyShift_eq]

theorem frequencyShift_cols {T : Type} [Mul T] [One T] [Neg T] (imgIn imgOut : Mat T) :
    (frequencyShift imgIn imgOut).cols = imgOut.cols := by
  rw [frequencyShift_eq]

namespace Double

theorem mul_one_eq (x : Double) : x * (1 : Double) = x := by
  show Double.mul x (fin 1) = x
  cases x <;> simp [Double.mul, Double.mulInf]

theorem mul_neg_one_eq (x : Double) : x * (-1 : Double) = -x := by
  show Double.mul x (Double.neg (fin 1)) = Double.neg x
  cases x <;> simp [Double.mul, Double.mulInf, Double.neg]

theorem one_mul_eq (x : Double) : fin 1 * x = x := by
  show Double.mul (fin 1) x = x
  cases x <;> simp [Double.mul, Double.mulInf]

theorem neg_one_mul_eq (x : Double) : fin (-1) * x = -x := by
  show Double.mul (fin (-1)) x = Double.neg x
  cases x <;> simp [Double.mul, Double.mulInf, Double.neg]

theorem neg_neg_eq (x : Double) : -(-x) = x := by
  show Double.neg (Double.neg x) = x
  cases x <;> simp [Double.neg]

theorem mul_powMinusOne (x : Double) (k : Int) :
    x * powMinusOne k = if k % 2 = 0 then x else -x := by
  unfold powMinusOne
  split
  · exact mul_one_eq x
  · exact mul_neg_one_eq x

end Double

/-- C9: for every input image `imgIn` and output image `imgOut` of the same
dimensions, `frequencyShift` leaves `imgOut(i, j) = (-1)^(i+j) * imgIn(i, j)` at every
pixel `(i, j)`: pixels with `i + j` even are copied unchanged and pixels with `i + j`
odd are negated. -/
theorem frequencyShift_pixel (imgIn imgOut : Mat Double)
    (_hrows : imgOut.rows = imgIn.rows) (_hcols : imgOut.cols = imgIn.cols)
    (i j : Int) (hi : 0 ≤ i ∧ i < imgIn.rows) (hj : 0 ≤ j ∧ j < imgIn.cols) :
    (frequencyShift imgIn imgOut).get i j =
        Double.fin ((-1) ^ (i + j).toNat) * imgIn.get i j ∧
    ((i + j) % 2 = 0 → (frequencyShift imgIn imgOut).get i j = imgIn.get i j) ∧
    ((i + j) % 2 = 1 → (frequencyShift imgIn imgOut).get i j = -(imgIn.get i j)) := by
  rw [frequencyShift_get imgIn imgOut i j hi hj, Double.mul_powMinusOne]
  have hcast : (((i + j).toNat : Nat) : Int) = i + j := Int.toNat_of_nonneg (by omega)
  refine ⟨?_, fun h => by rw [if_pos h], fun h => by rw [if_neg (by omega)]⟩
  split
  · rename_i h
    have hev : Even (i + j).toNat := by
      rw [Nat.even_iff]
      omega
    rw [hev.neg_one_pow, Double.one_mul_eq]
  · rename_i h
    have hodd : Odd (i + j).toNat := by
      rw [Nat.odd_iff]
      omega
    rw [hodd.neg_one_pow, Double.neg_one_mul_eq]

/-- C9 on a 2 x 3 image, at the pixels (1, 2) and (0, 2). -/
theorem frequencyShift_pixel_witness :
    (frequencyShift (sampleDoubleImage 2 3) (sampleDoubleImage 2 3)).get 1 2 =
        -((sampleDoubleImage 2 3).get 1 2) ∧
    (frequencyShift (sampleDoubleImage 2 3) (sampleDoubleImage 2 3)).get 0 2 =
        (sampleDoubleImage 2 3).get 0 2 :=
  ⟨(frequencyShift_pixel (sampleDoubleImage 2 3) (sampleDoubleImage 2 3) rfl rfl 1 2
      ⟨by decide, by decide⟩ ⟨by decide, by decide⟩).2.2 (by decide),
   (frequencyShift_pixel (sampleDoubleImage 2 3) (sampleDoubleImage 2 3) rfl rfl 0 2
      ⟨by decide, by decide⟩ ⟨by decide, by decide⟩).2.1 (by decide)⟩

/-- C10: `frequencyShift` is an involution. For every image `x`, whatever its
dimensions (even ones in particular), and buffers `y` and `z` of the dimensions of
`x`, shifting `x` into `y` and then `y` into `z` leaves `z(i, j) = x(i, j)` at every
pixel. -/
theorem frequencyShift_involution (x y z : Mat Double)
    (hy : y.rows = x.rows ∧ y.cols = x.cols) (_hz : z.rows = x.rows ∧ z.cols = x.cols)
    (i j : Int) (hi : 0 ≤ i ∧ i < x.rows) (hj : 0 ≤ j ∧ j < x.cols) :
    (frequencyShift (frequencyShift x y) z).get i j = x.get i j := by
  have hi2 : 0 ≤ i ∧ i < (frequencyShift x y).rows := by
    rw [frequencyShift_rows, hy.1]
    exact hi
  have hj2 : 0 ≤ j ∧ j < (frequencyShift x y).cols := by
    rw [frequencyShift_cols, hy.2]
    exact hj
  rw [frequencyShift_get _ z i j hi2 hj2, frequencyShift_get x y i j hi hj,
    Double.mul_powMinusOne, Double.mul_powMinusOne]
  split
  · rfl
  · exact Double.neg_neg_eq _

/-- C10 on a 4 x 6 image, at the pixel (1, 2), where the sum of the indices is odd. -/
theorem frequencyShift_involution_witness :
    (frequencyShift
        (frequencyShift (sampleDoubleImage 4 6) (sampleDoubleImage 4 6))
        (sampleDoubleImage 4 6)).get 1 2 = Double.fin 6 :=
  frequencyShift_involution (sampleDoubleImage 4 6) (sampleDoubleImage 4 6)
    (sampleDoubleImage 4 6) ⟨rfl, rfl⟩ ⟨rfl, rfl⟩ 1 2 ⟨by decide, by decide⟩
    ⟨by decide, by decide⟩

/-! ## The buffers after construction and setup -/

theorem modify_concat {α : Type} (l : List α) (a : α) (f : α → α) (n : Nat)
    (h : l.length = n) : (l ++ [a]).modify f n = l ++ [f a] := by
  subst h
  induction l with
  | nil => rfl
  | cons b l ih => simp [List.modify_succ_cons, ih]

namespace CvSimpleDFT

theorem images_setupChannel (env : Env) (s : CvSimpleDFT) (i : Nat) :
    ((setupChannel env s i).inFrameSquare, (setupChannel env s i).spectrumMagnitudeImage)
      = (s.inFrameSquare, s.spectrumMagnitudeImage) := by
  simp [setupChannel, setupPlane, List.range_succ]

theorem buffers_setupChannel_fresh (env : Env) (s : CvSimpleDFT) (k : Nat)
    (h : s.buffers = freshBuffers env s.dftSize k) :
    (setupChannel env s k).buffers = freshBuffers env s.dftSize (k + 1) := by
  have h1 := congrArg Buffers.channels h
  have h2 := congrArg Buffers.channelsDouble h
  have h3 := congrArg Buffers.channelsDoubleComplexComponents h
  have h4 := congrArg Buffers.channelsComplexImages h
  have h5 := congrArg Buffers.channelsComplexSpectrums h
  have h6 := congrArg Buffers.channelsComplexSpectrumComponents h
  have h7 := congrArg Buffers.channelsSpectrumMagnitude h
  have h8 := congrArg Buffers.channelsSpectrumLogMagnitude h
  have h9 := congrArg Buffers.channelsSpectrumLogMagnitudeDisplay h
  simp only [buffers, freshBuffers] at h1 h2 h3 h4 h5 h6 h7 h8 h9
  simp only [setupChannel, setupPlane, buffers, freshBuffers, List.range_succ,
    List.range_zero, List.nil_append, List.foldl_cons, List.foldl_nil, List.cons_append,
    h1, h2, h3, h4, h5, h6, h7, h8, h9, List.replicate_succ']
  simp only [modify_concat _ _ _ k (List.length_replicate _ _), List.nil_append,
    List.cons_append]
  rfl

end CvSimpleDFT

namespace CvSimpleDFT

theorem dftSize_setupLoop (env : Env) (s : CvSimpleDFT) (l : List Nat) :
    (l.foldl (setupChannel env) s).dftSize = s.dftSize :=
  congrArg Config.dftSize (foldl_keeps (setupChannel env) config (config_setupChannel env) l s)

theorem buffers_setupLoop_fresh (env : Env) (s : CvSimpleDFT) (n : Nat)
    (h : s.buffers = freshBuffers env s.dftSize 0) :
    ((List.range n).foldl (setupChannel env) s).buffers = freshBuffers env s.dftSize n := by
  induction n with
  | zero => exact h
  | succ k ih =>
    rw [List.range_succ, List.foldl_append]
    simp only [List.foldl_cons, List.foldl_nil]
    have hd := dftSize_setupLoop env s (List.range k)
    rw [← hd] at ih ⊢
    exact buffers_setupChannel_fresh env _ k ih

theorem images_setupLoop (env : Env) (s : CvSimpleDFT) (l : List Nat) :
    (l.foldl (setupChannel env) s).inFrameSquare = s.inFrameSquare ∧
    (l.foldl (setupChannel env) s).spectrumMagnitudeImage = s.spectrumMagnitudeImage := by
  have h := foldl_keeps (setupChannel env)
    (fun t => (t.inFrameSquare, t.spectrumMagnitudeImage)) (images_setupChannel env) l s
  exact ⟨congrArg Prod.fst h, congrArg Prod.snd h⟩

/-- The state a full setup reaches before its loop over the channels (lines 67 to
76). -/
theorem setup_true_eq (env : Env) (s : CvSimpleDFT) (img : Mat Pixel) :
    s.setup env img true =
      (List.range img.channels.toNat).foldl (setupChannel env)
        { s with
          toCvProcessor := CvProcessor.setup s.toCvProcessor img true
          minSize := MIN img.rows img.cols
          maxSize := MAX img.rows img.cols
          borderSize := Int.tdiv (MAX img.rows img.cols - MIN img.rows img.cols) 2
          optimalDFTSize := getOptimalDFTSize (MIN img.rows img.cols)
          dftSize :=
            { height := getOptimalDFTSize (MIN img.rows img.cols),
              width := getOptimalDFTSize (MIN img.rows img.cols) }
          inFrameSquare :=
            Mat.create
              { height := getOptimalDFTSize (MIN img.rows img.cols),
                width := getOptimalDFTSize (MIN img.rows img.cols) }
              img.type env.junkPixel
          spectrumMagnitudeImage :=
            Mat.create
              { height := getOptimalDFTSize (MIN img.rows img.cols),
                width := getOptimalDFTSize (MIN img.rows img.cols) }
              img.type env.junkPixel } := by
  simp [setup, CvProcessor.setup]

theorem nbChannels_of_plannedFrom_new (env : Env) (img : Mat Pixel) :
    (new env img).nbChannels = img.channels ∧ (new env img).type = img.type := by
  unfold new
  have h := config_setup_false env
  have h1 := fun s i => congrArg (fun c => c.base.nbChannels) (h s i)
  have h2 := fun s i => congrArg (fun c => c.base.type) (h s i)
  simp only [config] at h1 h2
  constructor
  · simp only [CvProcessor.addImage]
    split <;> split <;> simp [h1, CvProcessor.new]
  · simp only [CvProcessor.addImage]
    split <;> split <;> simp [h2, CvProcessor.new]

theorem nbChannels_setup_true (env : Env) (s : CvSimpleDFT) (img : Mat Pixel) :
    (s.setup env img true).nbChannels = img.channels ∧
    (s.setup env img true).type = img.type := by
  rw [setup_true_eq]
  have h := foldl_keeps (setupChannel env) config (config_setupChannel env)
  have h1 := fun l s => congrArg (fun c => c.base.nbChannels) (h l s)
  have h2 := fun l s => congrArg (fun c => c.base.type) (h l s)
  simp only [config] at h1 h2
  rw [h1, h2]
  simp [CvProcessor.setup]

theorem buffers_new (env : Env) (img : Mat Pixel) :
    (new env img).buffers =
      freshBuffers env
        { width := getOptimalDFTSize (MIN img.rows img.cols),
          height := getOptimalDFTSize (MIN img.rows img.cols) }
        img.channels.toNat := by
  unfold new
  simp only [setup, Bool.false_eq_true, if_false]
  exact buffers_setupLoop_fresh env _ _ rfl

theorem buffers_cleanup_setup (env : Env) (s : CvSimpleDFT) (img : Mat Pixel) :
    ((s.cleanup env).setup env img true).buffers =
      freshBuffers env
        { width := getOptimalDFTSize (MIN img.rows img.cols),
          height := getOptimalDFTSize (MIN img.rows img.cols) }
        img.channels.toNat := by
  rw [setup_true_eq]
  exact buffers_setupLoop_fresh env _ _ rfl

theorem images_new (env : Env) (img : Mat Pixel) :
    (new env img).inFrameSquare =
        Mat.create
          { width := getOptimalDFTSize (MIN img.rows img.cols),
            height := getOptimalDFTSize (MIN img.rows img.cols) }
          img.type env.junkPixel ∧
    (new env img).spectrumMagnitudeImage =
        Mat.create
          { width := getOptimalDFTSize (MIN img.rows img.cols),
            height := getOptimalDFTSize (MIN img.rows img.cols) }
          img.type env.junkPixel := by
  unfold new
  simp only [setup, Bool.false_eq_true, if_false]
  exact images_setupLoop env _ _

theorem images_setup_true (env : Env) (s : CvSimpleDFT) (img : Mat Pixel) :
    (s.setup env img true).inFrameSquare =
        Mat.create
          { width := getOptimalDFTSize (MIN img.rows img.cols),
            height := getOptimalDFTSize (MIN img.rows img.cols) }
          img.type env.junkPixel ∧
    (s.setup env img true).spectrumMagnitudeImage =
        Mat.create
          { width := getOptimalDFTSize (MIN img.rows img.cols),
            height := getOptimalDFTSize (MIN img.rows img.cols) }
          img.type env.junkPixel := by
  rw [setup_true_eq]
  exact images_setupLoop env _ _

end CvSimpleDFT

namespace CvSimpleDFT

theorem components_setupChannel (env : Env) (s : CvSimpleDFT) (k : Nat) :
    (setupChannel env s k).channelsDoubleComplexComponents =
      List.modify (fun planes => planes.modify (fun m => m.setTo (Double.fin 0)) 1) k
        (List.modify (fun planes => planes ++ [Mat.create s.dftSize CV_64FC1 env.junkDouble]) k
          (List.modify
            (fun planes => planes ++ [Mat.create s.dftSize CV_64FC1 env.junkDouble]) k
            (s.channelsDoubleComplexComponents ++ [[]]))) := by
  simp [setupChannel, setupPlane, List.range_succ]

theorem imaginaryPlaneZero_setupChannel (env : Env) (s : CvSimpleDFT) (k : Nat)
    (hlen : k ≤ s.channelsDoubleComplexComponents.length) :
    (setupChannel env s k).channelsDoubleComplexComponents.length =
        s.channelsDoubleComplexComponents.length + 1 ∧
    imaginaryPlaneZero (setupChannel env s k).channelsDoubleComplexComponents k ∧
    ∀ i, i < k → imaginaryPlaneZero s.channelsDoubleComplexComponents i →
      imaginaryPlaneZero (setupChannel env s k).channelsDoubleComplexComponents i := by
  rw [components_setupChannel]
  refine ⟨by simp, ?_, ?_⟩
  · have hk : k < (s.channelsDoubleComplexComponents ++ [[]]).length := by
      simp
      omega
    obtain ⟨p, hp⟩ : ∃ p, (s.channelsDoubleComplexComponents ++ [[]])[k]? = some p :=
      ⟨_, List.getElem?_eq_getElem hk⟩
    have h1 : 1 < (p ++ [Mat.create s.dftSize CV_64FC1 env.junkDouble] ++
        [Mat.create s.dftSize CV_64FC1 env.junkDouble]).length := by
      simp
    obtain ⟨x, hx⟩ : ∃ x, (p ++ [Mat.create s.dftSize CV_64FC1 env.junkDouble] ++
        [Mat.create s.dftSize CV_64FC1 env.junkDouble])[1]? = some x :=
      ⟨_, List.getElem?_eq_getElem h1⟩
    refine ⟨List.modify (fun m => m.setTo (Double.fin 0)) 1
        (p ++ [Mat.create s.dftSize CV_64FC1 env.junkDouble] ++
          [Mat.create s.dftSize CV_64FC1 env.junkDouble]),
      x.setTo (Double.fin 0), ?_, ?_, fun a b => rfl⟩
    · simp only [List.getElem?_modify, hp, Option.map_eq_map, Option.map_some', if_true]
    · simp only [List.getElem?_modify, hx, Option.map_eq_map, Option.map_some', if_true]
  · rintro i hi ⟨planes, m, h1, h2, h3⟩
    refine ⟨planes, m, ?_, h2, h3⟩
    have hne : ¬ k = i := by omega
    simp only [List.getElem?_modify, hne, if_false, Option.map_eq_map, Option.map_id']
    rw [List.getElem?_append_left (by omega)]
    exact h1

theorem imaginaryPlaneZero_setupLoop (env : Env) (s : CvSimpleDFT) (n : Nat) :
    ((List.range n).foldl (setupChannel env) s).channelsDoubleComplexComponents.length =
        s.channelsDoubleComplexComponents.length + n ∧
    ∀ i, i < n →
      imaginaryPlaneZero
        ((List.range n).foldl (setupChannel env) s).channelsDoubleComplexComponents i := by
  induction n with
  | zero => exact ⟨rfl, fun i hi => absurd hi (Nat.not_lt_zero i)⟩
  | succ k ih =>
    rw [List.range_succ, List.foldl_append]
    simp only [List.foldl_cons, List.foldl_nil]
    obtain ⟨hlen, hz⟩ := ih
    obtain ⟨h1, h2, h3⟩ := imaginaryPlaneZero_setupChannel env
      ((List.range k).foldl (setupChannel env) s) k (by omega)
    refine ⟨by omega, fun i hi => ?_⟩
    rcases Nat.lt_succ_iff_lt_or_eq.mp hi with hlt | heq
    · exact h3 i hlt (hz i hlt)
    · rw [heq]
      exact h2

theorem imaginaryPlaneZero_replicate (n i : Nat) (P Q : Mat Double) (h : i < n) :
    imaginaryPlaneZero (List.replicate n [P, Q.setTo (Double.fin 0)]) i := by
  refine ⟨[P, Q.setTo (Double.fin 0)], Q.setTo (Double.fin 0), ?_, rfl, fun a b => rfl⟩
  rw [List.getElem?_eq_getElem (by simpa using h)]
  simp

theorem components_update (env : Env) (s : CvSimpleDFT) :
    (s.update env).channelsDoubleComplexComponents = s.channelsDoubleComplexComponents := by
  unfold update
  split <;> rfl

/-- C16: after construction and after every full setup, for every channel `i` in
`0..nbChannels-1` the imaginary input plane `channelsDoubleComplexComponents[i][1]`
exists and is zero at every pixel; `update` does not write the component planes at
all. -/
theorem imaginary_plane_zero (env : Env) (s0 : CvSimpleDFT) (img : Mat Pixel) :
    (∀ s, (s = new env img ∨ s = s0.setup env img true) →
      ∀ i : Nat, (i : Int) < s.nbChannels →
        imaginaryPlaneZero s.channelsDoubleComplexComponents i) ∧
    ∀ t : CvSimpleDFT,
      (t.update env).channelsDoubleComplexComponents = t.channelsDoubleComplexComponents := by
  refine ⟨?_, components_update env⟩
  intro s hs i hi
  rcases hs with h | h <;> subst h
  · rw [(nbChannels_of_plannedFrom_new env img).1] at hi
    have hb := congrArg Buffers.channelsDoubleComplexComponents (buffers_new env img)
    simp only [buffers, freshBuffers] at hb
    rw [hb]
    have hi' : i < img.channels.toNat := by omega
    exact imaginaryPlaneZero_replicate _ i _ _ hi'
  · rw [(nbChannels_setup_true env s0 img).1] at hi
    rw [setup_true_eq]
    exact (imaginaryPlaneZero_setupLoop env _ _).2 i (by omega)

/-- C16 on a three-channel 4 x 4 image: the plane of index 1 of channel 2 is zero
after construction. -/
theorem imaginary_plane_zero_witness :
    imaginaryPlaneZero
      (new sampleEnv (sampleImage 4 4)).channelsDoubleComplexComponents 2 :=
  (imaginary_plane_zero sampleEnv (new sampleEnv (sampleImage 4 4)) (sampleImage 4 4)).1
    _ (Or.inl rfl) 2 (by decide)

end CvSimpleDFT

namespace CvSimpleDFT

theorem buffersShaped_of_fresh (env : Env) (s : CvSimpleDFT) (n : Nat)
    (hb : s.buffers =
      freshBuffers env { width := s.optimalDFTSize, height := s.optimalDFTSize } n)
    (hn : (n : Int) = s.nbChannels) : buffersShaped s := by
  have h1 := congrArg Buffers.channels hb
  have h2 := congrArg Buffers.channelsDouble hb
  have h3 := congrArg Buffers.channelsDoubleComplexComponents hb
  have h4 := congrArg Buffers.channelsComplexImages hb
  have h5 := congrArg Buffers.channelsComplexSpectrums hb
  have h6 := congrArg Buffers.channelsComplexSpectrumComponents hb
  have h7 := congrArg Buffers.channelsSpectrumMagnitude hb
  have h8 := congrArg Buffers.channelsSpectrumLogMagnitude hb
  have h9 := congrArg Buffers.channelsSpectrumLogMagnitudeDisplay hb
  simp only [buffers, freshBuffers] at h1 h2 h3 h4 h5 h6 h7 h8 h9
  unfold buffersShaped
  rw [h1, h2, h3, h4, h5, h6, h7, h8, h9]
  simp only [List.length_replicate, hn, List.mem_replicate, and_imp, true_and]
  refine ⟨⟨?_, ?_⟩, ?_, ?_, ?_, ?_, ?_, ?_, ?_, ?_, ?_⟩
  all_goals intro _ m hm
  all_goals subst hm
  all_goals first
    | rfl
    | exact ⟨rfl, rfl⟩
    | (intro x hx
       simp only [List.mem_cons, List.mem_singleton, List.not_mem_nil, or_false] at hx
       rcases hx with h | h <;> subst h <;> exact ⟨rfl, rfl⟩)

/-- C17: after construction, and after every `cleanup()` followed by
`setup(newImage, true)`, each of the nine per-channel buffer lists holds exactly
`nbChannels` entries, each entry of the two component lists holds exactly 2 planes,
every buffer has `optimalDFTSize` rows and columns for the `optimalDFTSize` of the new
image, and the lists are those of a processor freshly constructed on the new image:
no entry of the previous geometry remains. -/
theorem buffers_after_setup (env : Env) (s0 : CvSimpleDFT) (img : Mat Pixel)
    (hch : 0 ≤ img.channels) :
    ∀ s, (s = new env img ∨ s = (s0.cleanup env).setup env img true) →
      buffersShaped s ∧
      s.nbChannels = img.channels ∧
      s.optimalDFTSize = getOptimalDFTSize (MIN img.rows img.cols) ∧
      s.buffers = (new env img).buffers := by
  intro s hs
  have hfresh : s.buffers =
      freshBuffers env
        { width := getOptimalDFTSize (MIN img.rows img.cols),
          height := getOptimalDFTSize (MIN img.rows img.cols) }
        img.channels.toNat := by
    rcases hs with h | h <;> subst h
    · exact buffers_new env img
    · exact buffers_cleanup_setup env s0 img
  have hnb : s.nbChannels = img.channels := by
    rcases hs with h | h <;> subst h
    · exact (nbChannels_of_plannedFrom_new env img).1
    · exact (nbChannels_setup_true env _ img).1
  have hopt : s.optimalDFTSize = getOptimalDFTSize (MIN img.rows img.cols) := by
    have hp : plannedFrom s img := by
      rcases hs with h | h <;> subst h
      · exact plannedFrom_new env img
      · exact plannedFrom_setup env _ img
    exact hp.2.2.2.2.1
  refine ⟨?_, hnb, hopt, hfresh.trans (buffers_new env img).symm⟩
  apply buffersShaped_of_fresh env s img.channels.toNat
  · rw [hopt]
    exact hfresh
  · rw [hnb]
    exact Int.toNat_of_nonneg hch

/-- C17 on the replacement of a 256 x 256 source by a 300 x 200 one. -/
theorem buffers_after_setup_witness :
    0 ≤ (sampleImage 300 200).channels ∧
    buffersShaped
      (((new sampleEnv (sampleImage 256 256)).cleanup sampleEnv).setup sampleEnv
        (sampleImage 300 200) true) ∧
    (((new sampleEnv (sampleImage 256 256)).cleanup sampleEnv).setup sampleEnv
        (sampleImage 300 200) true).buffers = (new sampleEnv (sampleImage 300 200)).buffers :=
  have h := buffers_after_setup sampleEnv (new sampleEnv (sampleImage 256 256))
    (sampleImage 300 200) (by decide) _ (Or.inr rfl)
  ⟨by decide, h.1, h.2.2.2⟩

/-- C18: after construction and after every full setup, `inFrameSquare` and
`spectrumMagnitudeImage` have the same shape: both have `optimalDFTSize` rows and
`optimalDFTSize` columns, and both have the pixel type of the source image, hence its
channel count. -/
theorem square_and_spectrum_shape (env : Env) (s0 : CvSimpleDFT) (img : Mat Pixel) :
    ∀ s, (s = new env img ∨ s = s0.setup env img true) →
      s.inFrameSquare.isSquare s.optimalDFTSize ∧
      s.spectrumMagnitudeImage.isSquare s.optimalDFTSize ∧
      s.inFrameSquare.type = img.type ∧
      s.spectrumMagnitudeImage.type = img.type ∧
      s.inFrameSquare.channels = img.channels ∧
      s.spectrumMagnitudeImage.channels = img.channels := by
  intro s hs
  have himg : s.inFrameSquare =
        Mat.create
          { width := getOptimalDFTSize (MIN img.rows img.cols),
            height := getOptimalDFTSize (MIN img.rows img.cols) }
          img.type env.junkPixel ∧
      s.spectrumMagnitudeImage =
        Mat.create
          { width := getOptimalDFTSize (MIN img.rows img.cols),
            height := getOptimalDFTSize (MIN img.rows img.cols) }
          img.type env.junkPixel := by
    rcases hs with h | h <;> subst h
    · exact images_new env img
    · exact images_setup_true env s0 img
  have hopt : s.optimalDFTSize = getOptimalDFTSize (MIN img.rows img.cols) := by
    have hp : plannedFrom s img := by
      rcases hs with h | h <;> subst h
      · exact plannedFrom_new env img
      · exact plannedFrom_setup env _ img
    exact hp.2.2.2.2.1
  rw [himg.1, himg.2, hopt]
  exact ⟨⟨rfl, rfl⟩, ⟨rfl, rfl⟩, rfl, rfl, rfl, rfl⟩

/-- C18 on a 300 x 200 three-channel image after a full setup: both images are
200 x 200 of type `CV_8UC3`. -/
theorem square_and_spectrum_shape_witness :
    ((new sampleEnv (sampleImage 4 4)).setup sampleEnv (sampleImage 300 200)
        true).inFrameSquare.isSquare 200 ∧
    ((new sampleEnv (sampleImage 4 4)).setup sampleEnv (sampleImage 300 200)
        true).spectrumMagnitudeImage.isSquare 200 ∧
    ((new sampleEnv (sampleImage 4 4)).setup sampleEnv (sampleImage 300 200)
        true).spectrumMagnitudeImage.type = 16 :=
  have h := square_and_spectrum_shape sampleEnv (new sampleEnv (sampleImage 4 4))
    (sampleImage 300 200) _ (Or.inr rfl)
  ⟨h.1, h.2.1, h.2.2.2.1⟩

end CvSimpleDFT

/-! ## The log scale -/

theorem Mat.elem_setElem {T : Type} (m : Mat T) (k j : Nat) (v : T) :
    (m.setElem k v).elem j = if j = k then v else m.elem j := by
  simp only [Mat.elem, Mat.setElem, Mat.set, Mat.get]
  by_cases h : j = k
  · subst h
    simp
  · rw [if_neg h, if_neg]
    rintro ⟨h1, h2⟩
    have e1 := Int.emod_add_ediv (j : Int) m.cols
    have e2 := Int.emod_add_ediv (k : Int) m.cols
    rw [h1, h2] at e1
    exact h (by exact_mod_cast e1.symm.trans e2)

theorem Mat.foldl_setElem {T : Type} (m : Mat T) (val : Nat → T) (n : Nat) :
    ((List.range n).foldl (fun (out : Mat T) (k : Nat) => out.setElem k (val k)) m).cols
        = m.cols ∧
    ((List.range n).foldl (fun (out : Mat T) (k : Nat) => out.setElem k (val k)) m).rows
        = m.rows ∧
    ∀ j, ((List.range n).foldl
        (fun (out : Mat T) (k : Nat) => out.setElem k (val k)) m).elem j =
      if j < n then val j else m.elem j := by
  induction n with
  | zero => simp
  | succ n ih =>
    obtain ⟨h1, h2, h3⟩ := ih
    rw [List.range_succ, List.foldl_append]
    simp only [List.foldl_cons, List.foldl_nil]
    refine ⟨h1, h2, fun j => ?_⟩
    rw [Mat.elem_setElem, h3]
    by_cases hj : j = n
    · subst hj
      simp
    · rw [if_neg hj]
      by_cases hlt : j < n
      · rw [if_pos hlt, if_pos (by omega)]
      · rw [if_neg hlt, if_neg (by omega)]

theorem logScaleImg_elem_aux {T : Type} [Add T] [Mul T] [One T] (log : T → T)
    (imgIn imgOut : Mat T) (scaleFactor : T) (htotal : imgOut.total = imgIn.total)
    (k : Nat) (hk : (k : Int) < imgIn.total) :
    (logScaleImg log imgIn imgOut scaleFactor).elem k
        = scaleFactor * log (1 + imgIn.elem k) := by
  obtain ⟨_, _, h3⟩ := Mat.foldl_setElem imgOut
    (fun k => scaleFactor * log (1 + imgIn.elem k))
    (min imgIn.total.toNat imgOut.total.toNat)
  unfold logScaleImg
  rw [h3 k, if_pos]
  rw [htotal, min_self]
  omega

/-- C12: for every input image `imgIn` and output image `imgOut` with the same number
of elements and every scale factor `s`, `logScaleImg` leaves
`imgOut(k) = s * log(1 + imgIn(k))` for every element `k`; the header of `imgOut` is
unchanged. -/
theorem logScaleImg_elem {T : Type} [Add T] [Mul T] [One T] (log : T → T)
    (imgIn imgOut : Mat T) (scaleFactor : T) (htotal : imgOut.total = imgIn.total)
    (k : Nat) (hk : (k : Int) < imgIn.total) :
    (logScaleImg log imgIn imgOut scaleFactor).elem k
        = scaleFactor * log (1 + imgIn.elem k) ∧
    (logScaleImg log imgIn imgOut scaleFactor).rows = imgOut.rows ∧
    (logScaleImg log imgIn imgOut scaleFactor).cols = imgOut.cols := by
  obtain ⟨h1, h2, _⟩ := Mat.foldl_setElem imgOut
    (fun k => scaleFactor * log (1 + imgIn.elem k))
    (min imgIn.total.toNat imgOut.total.toNat)
  exact ⟨logScaleImg_elem_aux log imgIn imgOut scaleFactor htotal k hk, h2, h1⟩

/-- C12 over the real numbers with the natural logarithm, on two images of six
elements (2 x 3 in, 3 x 2 out), at the element of rank 4. -/
theorem logScaleImg_elem_witness :
    (logScaleImg Real.log
        ({ rows := 2, cols := 3, type := CV_64FC1, data := fun i j => ((i + j : Int) : ℝ) } :
          Mat ℝ)
        ({ rows := 3, cols := 2, type := CV_64FC1, data := fun _ _ => 0 } : Mat ℝ)
        10).elem 4
      = 10 * Real.log (1 +
          ({ rows := 2, cols := 3, type := CV_64FC1,
             data := fun i j => ((i + j : Int) : ℝ) } : Mat ℝ).elem 4) :=
  (logScaleImg_elem Real.log _ _ 10 (by decide) 4 (by decide)).1

/-- C13, as stated, fails on doubles: the magnitude `m = 2 ^ (-60)` is positive, the
sum `1.0 + m` rounds to `1.0`, the logarithm of `1.0` is `0.0`, and the output
`10.0 * 0.0` of `logScaleImg` is 0 although `m` is not 0. -/
theorem logScale_zero_at_tiny_magnitude :
    Double.le (Double.fin 0) (tinyImage.elem 0) = true ∧
    tinyImage.elem 0 ≠ Double.fin 0 ∧
    Double.le minLogScaleFactor (Double.fin 10) = true ∧
    Double.le (Double.fin 10) maxLogScaleFactor = true ∧
    (1 : Double) + tinyImage.elem 0 = Double.fin 1 ∧
    (logScaleImg logAtOne tinyImage tinyImage (Double.fin 10)).elem 0 = Double.fin 0 := by
  refine ⟨?_, ?_, ?_, ?_, ?_, ?_⟩ <;> with_unfolding_all decide

/-- C13, amended: over the real numbers, that is with `1 + m`, the natural logarithm
and the product computed without rounding, for every magnitude `m >= 0` of the input
image and every scale factor `s` in `[minLogScaleFactor, maxLogScaleFactor]`, the
argument `1 + m` of the logarithm is at least 1, the output `s * ln(1 + m)` of
`logScaleImg` is at least 0, it is 0 exactly when `m = 0`, and it does not decrease
when `m` increases. -/
theorem logScale_real (imgIn imgOut : Mat ℝ) (s : ℝ) (a b : ℚ)
    (hmin : minLogScaleFactor = Double.fin a) (hmax : maxLogScaleFactor = Double.fin b)
    (hs : (a : ℝ) ≤ s ∧ s ≤ (b : ℝ)) (htotal : imgOut.total = imgIn.total)
    (k : Nat) (hk : (k : Int) < imgIn.total) (hm : 0 ≤ imgIn.elem k) :
    1 ≤ 1 + imgIn.elem k ∧
    0 ≤ (logScaleImg Real.log imgIn imgOut s).elem k ∧
    ((logScaleImg Real.log imgIn imgOut s).elem k = 0 ↔ imgIn.elem k = 0) ∧
    ∀ j : Nat, (j : Int) < imgIn.total → imgIn.elem k ≤ imgIn.elem j →
      (logScaleImg Real.log imgIn imgOut s).elem k
        ≤ (logScaleImg Real.log imgIn imgOut s).elem j := by
  have ha : a = 5 := (Double.fin.inj hmin).symm
  have _hb : b = 30 := (Double.fin.inj hmax).symm
  have hspos : 0 < s := by
    have h5 : (0 : ℝ) < (a : ℝ) := by rw [ha]; norm_num
    linarith [hs.1]
  have hk' := (logScaleImg_elem_aux Real.log imgIn imgOut s htotal k hk)
  rw [hk']
  have h1 : 1 ≤ 1 + imgIn.elem k := by linarith
  refine ⟨h1, mul_nonneg (le_of_lt hspos) (Real.log_nonneg h1), ?_, ?_⟩
  · constructor
    · intro h0
      rcases mul_eq_zero.mp h0 with h | h
      · exact absurd h (ne_of_gt hspos)
      · by_contra hne
        have hgt : 1 < 1 + imgIn.elem k := by
          have : 0 < imgIn.elem k := lt_of_le_of_ne hm (Ne.symm hne)
          linarith
        exact absurd h (ne_of_gt (Real.log_pos hgt))
    · intro h0
      rw [h0, add_zero, Real.log_one, mul_zero]
  · intro j hj hle
    rw [logScaleImg_elem_aux Real.log imgIn imgOut s htotal j hj]
    apply mul_le_mul_of_nonneg_left _ (le_of_lt hspos)
    exact Real.log_le_log (by linarith) (by linarith)

/-- C13, amended, on a 2 x 3 image of the magnitudes `i + j`, with the scale factor
10, at the element of rank 4. -/
theorem logScale_real_witness :
    0 ≤ (logScaleImg Real.log
        ({ rows := 2, cols := 3, type := CV_64FC1, data := fun i j => ((i + j : Int) : ℝ) } :
          Mat ℝ)
        ({ rows := 2, cols := 3, type := CV_64FC1, data := fun _ _ => 0 } : Mat ℝ)
        10).elem 4 :=
  (logScale_real _ _ 10 5 30 rfl rfl (by norm_num) (by decide) 4 (by decide)
    (by norm_num [Mat.elem, Mat.get])).2.1

/-! ## The shift theorem -/

theorem pow_mod_of_pow_eq_one {R : Type} [CommRing R] (ω : R) (N : Nat) (h1 : ω ^ N = 1)
    (a : Nat) : ω ^ (a % N) = ω ^ a := by
  conv_rhs => rw [← Nat.mod_add_div a N]
  rw [pow_add, pow_mul, h1, one_pow, mul_one]

theorem dft2_checkerboard {R : Type} [CommRing R] (ω : R) (N k : Nat)
    (h1 : ω ^ N = 1) (h2 : ω ^ k = -1) (f : Nat → Nat → R) (u v : Nat) :
    dft2 ω N (fun i j => f i j * (if ((i : Int) + (j : Int)) % 2 = 0 then 1 else -1)) u v
      = dft2 ω N f ((u + k) % N) ((v + k) % N) := by
  unfold dft2
  refine Finset.sum_congr rfl fun i _ => Finset.sum_congr rfl fun j _ => ?_
  have hsign : (if ((i : Int) + (j : Int)) % 2 = 0 then (1 : R) else -1) = ω ^ (k * (i + j)) := by
    rw [pow_mul, h2]
    rcases Nat.even_or_odd (i + j) with he | ho
    · rw [he.neg_one_pow, if_pos]
      have := Nat.even_iff.mp he
      omega
    · rw [ho.neg_one_pow, if_neg]
      have := Nat.odd_iff.mp ho
      omega
  have hu : ω ^ ((u + k) % N * i) = ω ^ ((u + k) * i) := by
    rw [pow_mul, pow_mod_of_pow_eq_one ω N h1, ← pow_mul]
  have hv : ω ^ ((v + k) % N * j) = ω ^ ((v + k) * j) := by
    rw [pow_mul, pow_mod_of_pow_eq_one ω N h1, ← pow_mul]
  beta_reduce
  rw [hsign, pow_add (a := ω) ((u + k) % N * i), hu, hv, ← pow_add, mul_assoc, ← pow_add]
  congr 2
  ring

theorem exp_root_pow (N : Nat) (hN : N ≠ 0) :
    Complex.exp (-(2 * Real.pi * Complex.I) / N) ^ N = 1 := by
  rw [← Complex.exp_nat_mul]
  have hN' : (N : ℂ) ≠ 0 := Nat.cast_ne_zero.mpr hN
  have : (N : ℂ) * (-(2 * Real.pi * Complex.I) / N) = -(2 * Real.pi * Complex.I) := by
    field_simp
    ring
  rw [this, Complex.exp_neg, Complex.exp_two_pi_mul_I, inv_one]

theorem exp_root_pow_half (k : Nat) (hk : k ≠ 0) :
    Complex.exp (-(2 * Real.pi * Complex.I) / ((2 * k : Nat) : ℂ)) ^ k = -1 := by
  rw [← Complex.exp_nat_mul]
  have hk' : (k : ℂ) ≠ 0 := Nat.cast_ne_zero.mpr hk
  have : (k : ℂ) * (-(2 * Real.pi * Complex.I) / ((2 * k : Nat) : ℂ))
      = -(Real.pi * Complex.I) := by
    push_cast
    field_simp
    ring
  rw [this, Complex.exp_neg, Complex.exp_pi_mul_I]
  norm_num

/-- C11: the shift theorem for `frequencyShift`. For every real `N x N` image `x`
with `N` even (and a buffer `y` of the same dimensions), the 2D discrete Fourier
transform of `frequencyShift(x)` at bin `(u, v)` is the transform of `x` at bin
`((u + N/2) mod N, (v + N/2) mod N)`; the zero-frequency term of `x` therefore appears
at the centre bin `(N/2, N/2)`. -/
theorem frequencyShift_dft (N : Nat) (hN : Even N) (x y : Mat ℝ)
    (hx : x.rows = N ∧ x.cols = N) (_hy : y.rows = N ∧ y.cols = N) (u v : Nat) :
    dft2 (Complex.exp (-(2 * Real.pi * Complex.I) / N)) N
        (fun i j => (((frequencyShift x y).get (i : Int) (j : Int) : ℝ) : ℂ)) u v
      = dft2 (Complex.exp (-(2 * Real.pi * Complex.I) / N)) N
        (fun i j => ((x.get (i : Int) (j : Int) : ℝ) : ℂ)) ((u + N / 2) % N) ((v + N / 2) % N) ∧
    dft2 (Complex.exp (-(2 * Real.pi * Complex.I) / N)) N
        (fun i j => (((frequencyShift x y).get (i : Int) (j : Int) : ℝ) : ℂ)) (N / 2) (N / 2)
      = dft2 (Complex.exp (-(2 * Real.pi * Complex.I) / N)) N
        (fun i j => ((x.get (i : Int) (j : Int) : ℝ) : ℂ)) 0 0 := by
  have key : ∀ u v : Nat,
      dft2 (Complex.exp (-(2 * Real.pi * Complex.I) / N)) N
        (fun i j => (((frequencyShift x y).get (i : Int) (j : Int) : ℝ) : ℂ)) u v
      = dft2 (Complex.exp (-(2 * Real.pi * Complex.I) / N)) N
        (fun i j => ((x.get (i : Int) (j : Int) : ℝ) : ℂ))
        ((u + N / 2) % N) ((v + N / 2) % N) := by
    intro u v
    rcases Nat.eq_zero_or_pos N with h0 | hpos
    · subst h0
      simp [dft2]
    · obtain ⟨k, hk⟩ := hN
      have hk2 : N = 2 * k := by omega
      have hkne : k ≠ 0 := by omega
      have hhalf : N / 2 = k := by omega
      have h1 := exp_root_pow N (by omega)
      have h2 : Complex.exp (-(2 * Real.pi * Complex.I) / N) ^ k = -1 := by
        rw [hk2]
        exact exp_root_pow_half k hkne
      rw [hhalf, ← dft2_checkerboard _ N k h1 h2]
      unfold dft2
      refine Finset.sum_congr rfl fun i hi => Finset.sum_congr rfl fun j hj => ?_
      have hi' : i < N := Finset.mem_range.mp hi
      have hj' : j < N := Finset.mem_range.mp hj
      beta_reduce
      rw [frequencyShift_get x y (i : Int) (j : Int) ⟨by omega, by rw [hx.1]; omega⟩
        ⟨by omega, by rw [hx.2]; omega⟩]
      unfold powMinusOne
      split <;> simp
  refine ⟨key u v, ?_⟩
  rw [key]
  have hmod : (N / 2 + N / 2) % N = 0 := by
    obtain ⟨k, hk⟩ := hN
    have : N / 2 + N / 2 = N := by omega
    rw [this, Nat.mod_self]
  rw [hmod]

/-- C11 on a 2 x 2 image: bin (0, 1) of the transform of the shifted image is bin
(1, 0) of the transform of the image. -/
theorem frequencyShift_dft_witness :
    dft2 (Complex.exp (-(2 * Real.pi * Complex.I) / (2 : Nat))) 2
        (fun i j => (((frequencyShift (sampleRealImage 2 2) (sampleRealImage 2 2)).get
            (i : Int) (j : Int) : ℝ) : ℂ)) 0 1
      = dft2 (Complex.exp (-(2 * Real.pi * Complex.I) / (2 : Nat))) 2
        (fun i j => (((sampleRealImage 2 2).get (i : Int) (j : Int) : ℝ) : ℂ))
        ((0 + 2 / 2) % 2) ((1 + 2 / 2) % 2) :=
  (frequencyShift_dft 2 (by decide) (sampleRealImage 2 2) (sampleRealImage 2 2)
    ⟨rfl, rfl⟩ ⟨rfl, rfl⟩ 0 1).1

/-! ## What `update` leaves undone -/

namespace CvSimpleDFT

theorem buffers_update (env : Env) (s : CvSimpleDFT) :
    (s.update env).buffers = s.buffers ∧
    (s.update env).spectrumMagnitudeImage = s.spectrumMagnitudeImage := by
  unfold update
  split <;> exact ⟨rfl, rfl⟩

/-- C14 at a failing input: `update` has no statement for the split, the transform,
the magnitude or the log scale (comments only), so the buffers keep what memory held
when they were allocated. On the constant 4 x 4 images of value 128 and of value 0,
with 7.0 in that memory, `optimalDFTSize` is 4, the centre bin is (2, 2), and bin
(0, 0) of every channel of `channelsSpectrumMagnitude` and of
`channelsSpectrumLogMagnitude` is 7.0 after `update`, not 0. -/
theorem update_leaves_magnitude :
    ((new junkEnv (sampleImage 4 4)).update junkEnv).optimalDFTSize = 4 ∧
    ((new junkEnv (sampleImage 4 4)).update junkEnv).channelsSpectrumMagnitude.map
        (fun m => m.get 0 0) = [Double.fin 7, Double.fin 7, Double.fin 7] ∧
    ((new junkEnv (zeroImage 4 4)).update junkEnv).channelsSpectrumMagnitude.map
        (fun m => m.get 0 0) = [Double.fin 7, Double.fin 7, Double.fin 7] ∧
    ((new junkEnv (zeroImage 4 4)).update junkEnv).channelsSpectrumLogMagnitude.map
        (fun m => m.get 0 0) = [Double.fin 7, Double.fin 7, Double.fin 7] := by
  refine ⟨?_, ?_, ?_, ?_⟩ <;> decide

/-- C15 at a failing input: `update` has no statement for the merge (a comment only),
so `spectrumMagnitudeImage` keeps what memory held when it was allocated. On a 4 x 4
three-channel image, with 3 in the memory of the image and 9 in the memory of the
display buffers, component 0 of `spectrumMagnitudeImage` at (0, 0) is 3 after `update`
and `channelsSpectrumLogMagnitudeDisplay[0]` at (0, 0) is 9. -/
theorem update_leaves_spectrum_image :
    ((new junkEnv (sampleImage 4 4)).update junkEnv).spectrumMagnitudeImage.get 0 0 0 = 3 ∧
    ((new junkEnv (sampleImage 4 4)).update junkEnv).channelsSpectrumLogMagnitudeDisplay.map
        (fun m => m.get 0 0) = [9, 9, 9] := by
  refine ⟨?_, ?_⟩ <;> decide

end CvSimpleDFT

/-! ## The source lock -/

namespace QcvSimpleDFT

theorem update_with_free_lock (env : Env) (s : QcvSimpleDFT)
    (h : s.sourceLock = some { locked := false }) :
    (update env s).outcome = Outcome.returned ∧
    (update env s).state.sourceLock = some { locked := false } ∧
    (update env s).state.toCvSimpleDFT = s.toCvSimpleDFT.update env ∧
    (update env s).events =
      [Event.lock, Event.coreUpdateBegin, Event.coreUpdateEnd, Event.unlock,
       Event.emit Signal.updated, Event.emit Signal.processTimeUpdated] := by
  simp [update, lockSource, unlockSource, coreUpdate, QcvProcessor.update, emitSignal,
    Run.andThen, Run.ret, h]

theorem update_without_lock (env : Env) (s : QcvSimpleDFT) (h : s.sourceLock = none) :
    (update env s).outcome = Outcome.returned ∧
    (update env s).state.sourceLock = none ∧
    (update env s).state.toCvSimpleDFT = s.toCvSimpleDFT.update env ∧
    (update env s).events =
      [Event.coreUpdateBegin, Event.coreUpdateEnd,
       Event.emit Signal.updated, Event.emit Signal.processTimeUpdated] := by
  simp [update, lockSource, unlockSource, coreUpdate, QcvProcessor.update, emitSignal,
    Run.andThen, Run.ret, h]

/-- C19 at a failing input: on a processor whose source lock is not `NULL` and is
free, `setSourceImage(NULL)` raises `NULL_IMAGE`, emits no signal, runs no update and
leaves every attribute of `CvSimpleDFT` as it was, but the lock is held afterwards:
`QcvProcessor::setSourceImage` locks it before the call that throws and the statement
that unlocks it is not reached. -/
theorem setSourceImage_null_keeps_lock :
    (setSourceImage sampleEnv
        (new sampleEnv (sampleImage 4 4) (some { locked := false })) none).outcome
      = Outcome.raised CvProcessorException.NULL_IMAGE ∧
    (setSourceImage sampleEnv
        (new sampleEnv (sampleImage 4 4) (some { locked := false })) none).events
      = [Event.lock] ∧
    (setSourceImage sampleEnv
        (new sampleEnv (sampleImage 4 4) (some { locked := false })) none).state.toCvSimpleDFT
      = (new sampleEnv (sampleImage 4 4) (some { locked := false })).toCvSimpleDFT ∧
    (new sampleEnv (sampleImage 4 4) (some { locked := false })).sourceLock
      = some { locked := false } ∧
    (setSourceImage sampleEnv
        (new sampleEnv (sampleImage 4 4) (some { locked := false })) none).state.sourceLock
      = some { locked := true } :=
  ⟨rfl, rfl, rfl, rfl, rfl⟩

/-- C20 at a failing input: the lock that is free before `setSourceImage(NULL)` is
held when the call leaves with `NULL_IMAGE`, for `QcvProcessor::setSourceImage` and
for `QcvSimpleDFT::setSourceImage`: one `lock` and no `unlock`. -/
theorem setSourceImage_null_lock_not_scoped :
    (QcvProcessor.setSourceImage sampleEnv
        (new sampleEnv (sampleImage 4 4) (some { locked := false })) none).outcome
      = Outcome.raised CvProcessorException.NULL_IMAGE ∧
    (QcvProcessor.setSourceImage sampleEnv
        (new sampleEnv (sampleImage 4 4) (some { locked := false })) none).state.sourceLock
      = some { locked := true } ∧
    (QcvProcessor.setSourceImage sampleEnv
        (new sampleEnv (sampleImage 4 4) (some { locked := false })) none).events
      = [Event.lock] ∧
    (setSourceImage sampleEnv
        (new sampleEnv (sampleImage 4 4) (some { locked := false })) none).outcome
      = Outcome.raised CvProcessorException.NULL_IMAGE ∧
    (setSourceImage sampleEnv
        (new sampleEnv (sampleImage 4 4) (some { locked := false })) none).state.sourceLock
      = some { locked := true } ∧
    (setSourceImage sampleEnv
        (new sampleEnv (sampleImage 4 4) (some { locked := false })) none).events
      = [Event.lock] :=
  ⟨rfl, rfl, rfl, rfl, rfl, rfl⟩

end QcvSimpleDFT

theorem Run.andThen_mk (st : QcvSimpleDFT) (ev : List Event) (next : QcvSimpleDFT → Run) :
    Run.andThen { state := st, events := ev, outcome := Outcome.returned } next =
      { state := (next st).state, events := ev ++ (next st).events,
        outcome := (next st).outcome } := rfl

theorem Run.andThen_ite (c : Prop) [Decidable c] (r1 r2 : Run) (next : QcvSimpleDFT → Run) :
    Run.andThen (if c then r1 else r2) next =
      if c then Run.andThen r1 next else Run.andThen r2 next := by
  split <;> rfl

theorem Run.state_ite (c : Prop) [Decidable c] (r1 r2 : Run) :
    (if c then r1 else r2).state = if c then r1.state else r2.state := by
  split <;> rfl

theorem Run.outcome_ite (c : Prop) [Decidable c] (r1 r2 : Run) :
    (if c then r1 else r2).outcome = if c then r1.outcome else r2.outcome := by
  split <;> rfl

theorem Run.events_ite (c : Prop) [Decidable c] (r1 r2 : Run) :
    (if c then r1 else r2).events = if c then r1.events else r2.events := by
  split <;> rfl

theorem QcvProcessor.setSourceImage_releases_lock (env : Env) (s : QcvSimpleDFT)
    (img : Mat Pixel) (h : s.sourceLock = some { locked := false }) :
    (QcvProcessor.setSourceImage env s (some img)).outcome = Outcome.returned ∧
    (QcvProcessor.setSourceImage env s (some img)).state.sourceLock
      = some { locked := false } ∧
    (QcvProcessor.setSourceImage env s (some img)).state.toCvSimpleDFT
      = (((s.toCvSimpleDFT.cleanup env).setup env img true).update env) := by
  simp only [QcvProcessor.setSourceImage, CvProcessor.setSourceImage, QcvSimpleDFT.update,
    QcvSimpleDFT.lockSource, QcvSimpleDFT.unlockSource, QcvSimpleDFT.coreUpdate,
    QcvProcessor.update, QcvSimpleDFT.emitSignal, Run.andThen_mk, Run.ret, h,
    Run.andThen_ite, Run.state_ite, Run.outcome_ite, Bool.false_eq_true, if_false, ite_self]
  exact ⟨trivial, trivial, trivial⟩

theorem QcvSimpleDFT.setSourceImage_lock_free_after (env : Env) (s : QcvSimpleDFT)
    (img : Mat Pixel) (h : s.sourceLock = some { locked := false }) :
    (QcvSimpleDFT.setSourceImage env s (some img)).outcome = Outcome.returned ∧
    (QcvSimpleDFT.setSourceImage env s (some img)).state.sourceLock
      = some { locked := false } := by
  simp only [QcvSimpleDFT.setSourceImage, QcvProcessor.setSourceImage,
    CvProcessor.setSourceImage, QcvSimpleDFT.update,
    QcvSimpleDFT.lockSource, QcvSimpleDFT.unlockSource, QcvSimpleDFT.coreUpdate,
    QcvProcessor.update, QcvSimpleDFT.emitSignal, Run.andThen_mk, Run.ret, h,
    Run.andThen_ite, Run.state_ite, Run.outcome_ite, Bool.false_eq_true, if_false, ite_self]
  exact ⟨trivial, trivial⟩

/-- With a `NULL` source lock, `update` and the two `setSourceImage`, with an image or
with `NULL`, perform no operation on a lock. -/
theorem QcvSimpleDFT.no_lock_event_without_lock (env : Env) (s : QcvSimpleDFT)
    (image : Option (Mat Pixel)) (h : s.sourceLock = none) :
    (∀ e ∈ (QcvSimpleDFT.update env s).events, e ≠ Event.lock ∧ e ≠ Event.unlock) ∧
    (∀ e ∈ (QcvProcessor.setSourceImage env s image).events,
      e ≠ Event.lock ∧ e ≠ Event.unlock) ∧
    (∀ e ∈ (QcvSimpleDFT.setSourceImage env s image).events,
      e ≠ Event.lock ∧ e ≠ Event.unlock) := by
  cases image with
  | none =>
    simp [QcvSimpleDFT.setSourceImage, QcvProcessor.setSourceImage,
      CvProcessor.setSourceImage, QcvSimpleDFT.update,
      QcvSimpleDFT.lockSource, QcvSimpleDFT.unlockSource, QcvSimpleDFT.coreUpdate,
      QcvProcessor.update, QcvSimpleDFT.emitSignal, Run.andThen, Run.ret, h]
  | some img =>
    simp only [QcvSimpleDFT.setSourceImage, QcvProcessor.setSourceImage,
      CvProcessor.setSourceImage, QcvSimpleDFT.update,
      QcvSimpleDFT.lockSource, QcvSimpleDFT.unlockSource, QcvSimpleDFT.coreUpdate,
      QcvProcessor.update, QcvSimpleDFT.emitSignal, Run.andThen_mk, Run.ret, h,
      Run.andThen_ite, Run.state_ite, Run.outcome_ite, Run.events_ite, ite_self]
    refine ⟨by simp, ?_, ?_⟩
    · split_ifs <;> simp
    · split_ifs <;> simp

/-! ## More on the planner and the log scale factor -/

namespace CvSimpleDFT

/-- C25, as stated, fails: `maxLogScaleFactor` is 30.0, not 20.0, and the request 25.0
is stored as it is, which is above 20. -/
theorem maxLogScaleFactor_not_twenty :
    maxLogScaleFactor = Double.fin 30 ∧
    maxLogScaleFactor ≠ Double.fin 20 ∧
    ((new sampleEnv (sampleImage 4 4)).setLogScaleFactor (Double.fin 25)).getLogScaleFactor
      = Double.fin 25 ∧
    Double.le
      ((new sampleEnv (sampleImage 4 4)).setLogScaleFactor (Double.fin 25)).getLogScaleFactor
      (Double.fin 20) = false := by
  refine ⟨rfl, by decide, ?_, ?_⟩
  · rw [getLogScaleFactor_setLogScaleFactor]
    decide
  · rw [getLogScaleFactor_setLogScaleFactor]
    decide

/-- C25, amended: the maximum log scale factor is 30. `maxLogScaleFactor` is 30.0,
the factor ranges over 5 to 30, and after any `setLogScaleFactor(v)` with `v` not NaN
the stored `logScaleFactor` is at most 30; for no `v` at all is it above 30. -/
theorem logScaleFactor_at_most_thirty (s : CvSimpleDFT) (v : Double)
    (hv : v.isNaN = false) :
    maxLogScaleFactor = Double.fin 30 ∧
    minLogScaleFactor = Double.fin 5 ∧
    Double.le (s.setLogScaleFactor v).getLogScaleFactor (Double.fin 30) = true ∧
    Double.le (Double.fin 5) (s.setLogScaleFactor v).getLogScaleFactor = true ∧
    ∀ w : Double,
      Double.gt (s.setLogScaleFactor w).getLogScaleFactor (Double.fin 30) = false := by
  have h := logScaleFactorInRange_setLogScaleFactor s v hv
  refine ⟨rfl, rfl, h.2, h.1, ?_⟩
  intro w
  rw [getLogScaleFactor_setLogScaleFactor]
  cases w with
  | nan => simp [Double.lt, Double.gt, maxLogScaleFactor, minLogScaleFactor]
  | negInf => norm_num [Double.lt, Double.gt, maxLogScaleFactor, minLogScaleFactor]
  | posInf => norm_num [Double.lt, Double.gt, maxLogScaleFactor, minLogScaleFactor]
  | fin q =>
    simp only [Double.lt, Double.gt, minLogScaleFactor, maxLogScaleFactor]
    by_cases h1 : (30 : ℚ) < q
    · norm_num [h1, Double.lt]
    · by_cases h2 : q < (5 : ℚ)
      · norm_num [h1, h2, Double.lt]
      · simp [h1, h2, Double.lt]

/-- C25, amended, at the requests 25 and 100: the stored factors 25 and 30 are at most
30. -/
theorem logScaleFactor_at_most_thirty_witness :
    Double.le
      ((new sampleEnv (sampleImage 4 4)).setLogScaleFactor (Double.fin 25)).getLogScaleFactor
      (Double.fin 30) = true ∧
    Double.le
      ((new sampleEnv (sampleImage 4 4)).setLogScaleFactor (Double.fin 100)).getLogScaleFactor
      (Double.fin 30) = true :=
  ⟨(logScaleFactor_at_most_thirty _ (Double.fin 25) rfl).2.2.1,
   (logScaleFactor_at_most_thirty _ (Double.fin 100) rfl).2.2.1⟩

/-- C26: for every source image with `rows >= 0` and `cols >= 0` whose dimensions
match the cached geometry, the crop range of `update` is in bounds and centred:
`0 <= borderSize`, `borderSize + minSize <= maxSize`, where `maxSize` is the length of
the axis that `update` crops (the columns when `cols > rows`, the rows otherwise), and
the margin after the range, `maxSize - minSize - borderSize`, is `borderSize` or
`borderSize + 1`. -/
theorem crop_range_in_bounds (s : CvSimpleDFT) (_hr : 0 ≤ s.sourceImage.rows)
    (_hc : 0 ≤ s.sourceImage.cols) (h : geometryMatches s) :
    0 ≤ s.borderSize ∧
    s.borderSize + s.minSize ≤ s.maxSize ∧
    (s.maxSize - s.minSize - s.borderSize = s.borderSize ∨
      s.maxSize - s.minSize - s.borderSize = s.borderSize + 1) ∧
    (s.sourceImage.cols > s.sourceImage.rows → s.maxSize = s.sourceImage.cols) ∧
    (¬ s.sourceImage.cols > s.sourceImage.rows → s.maxSize = s.sourceImage.rows) := by
  obtain ⟨h1, h2, h3⟩ := h
  have hle : s.minSize ≤ s.maxSize := by
    rw [h1, h2]
    exact MIN_le_MAX _ _
  have hb : s.borderSize = (s.maxSize - s.minSize) / 2 := by
    rw [h3, Int.tdiv_eq_ediv (by omega) (by decide)]
  rw [MAX_eq_max] at h2
  refine ⟨by omega, by omega, by omega, fun hw => ?_, fun hw => ?_⟩
  · rw [h2]
    omega
  · rw [h2]
    omega

/-- C26 on a 200 x 301 image: the range is [50, 250) of 301 columns, the margin after
it is 51. -/
theorem crop_range_in_bounds_witness :
    0 ≤ (new sampleEnv (sampleImage 200 301)).sourceImage.rows ∧
    geometryMatches (new sampleEnv (sampleImage 200 301)) ∧
    (new sampleEnv (sampleImage 200 301)).borderSize = 50 ∧
    (new sampleEnv (sampleImage 200 301)).borderSize
        + (new sampleEnv (sampleImage 200 301)).minSize
      ≤ (new sampleEnv (sampleImage 200 301)).maxSize ∧
    (new sampleEnv (sampleImage 200 301)).maxSize = 301 :=
  have g := geometryMatches_of_plannedFrom (plannedFrom_new sampleEnv (sampleImage 200 301))
  have h := crop_range_in_bounds (new sampleEnv (sampleImage 200 301))
    (by decide) (by decide) g
  ⟨by decide, g, by decide, h.2.1, h.2.2.2.1 (by decide)⟩

/-- C28: a full setup does not reset the tunable. For every state and every new
source image, `setup(image, true)` leaves `logScaleFactor` as it was, with or without
the `cleanup` that a replacement of the source image runs first, so a value set with
`setLogScaleFactor` is still there after the replacement. -/
theorem logScaleFactor_survives_setup (env : Env) (s : CvSimpleDFT) (img : Mat Pixel)
    (v : Double) :
    (s.setup env img true).getLogScaleFactor = s.getLogScaleFactor ∧
    ((s.cleanup env).setup env img true).getLogScaleFactor = s.getLogScaleFactor ∧
    (((s.setLogScaleFactor v).cleanup env).setup env img true).getLogScaleFactor
      = (s.setLogScaleFactor v).getLogScaleFactor := by
  simp only [getLogScaleFactor, logScaleFactor_setup, logScaleFactor_cleanup, and_self]

end CvSimpleDFT

/-! ## What `update` leaves alone -/

namespace CvSimpleDFT

theorem squareFrameSized_setup_true (env : Env) (s : CvSimpleDFT) (img : Mat Pixel) :
    squareFrameSized (s.setup env img true) := by
  unfold squareFrameSized
  rw [(images_setup_true env s img).1, setup_true_eq, dftSize_setupLoop]
  exact ⟨rfl, rfl⟩

theorem squareFrameSized_setup_false (env : Env) (s : CvSimpleDFT) (img : Mat Pixel)
    (h : squareFrameSized s) : squareFrameSized (s.setup env img false) := by
  unfold squareFrameSized
  have hd := congrArg Config.dftSize (config_setup_false env s img)
  simp only [config] at hd
  rw [hd]
  simp only [setup, Bool.false_eq_true, if_false]
  rw [(images_setupLoop env s _).1]
  exact h

theorem squareFrameSized_update (env : Env) (s : CvSimpleDFT) :
    squareFrameSized (s.update env) := by
  unfold squareFrameSized update
  split <;> exact ⟨rfl, rfl⟩

theorem squareFrameSized_step (env : Env) (s : CvSimpleDFT) (c : Call)
    (h : squareFrameSized s) : squareFrameSized (step env s c) := by
  cases c with
  | setLogScaleFactor v =>
    simp only [step, setLogScaleFactor]
    split_ifs <;> exact h
  | setup img full =>
    cases full
    · exact squareFrameSized_setup_false env s img h
    · exact squareFrameSized_setup_true env s img
  | cleanupSetup img => exact squareFrameSized_setup_true env _ img
  | update => exact squareFrameSized_update env s

theorem squareFrameSized_new (env : Env) (img : Mat Pixel) :
    squareFrameSized (new env img) := by
  unfold squareFrameSized
  rw [(images_new env img).1, (plannedFrom_new env img).2.2.2.2.2]
  have h := (plannedFrom_new env img).2.2.2.2.1
  rw [h]
  exact ⟨rfl, rfl⟩

theorem squareFrameSized_run (env : Env) (calls : List Call) (s : CvSimpleDFT)
    (h : squareFrameSized s) : squareFrameSized (run env s calls) := by
  induction calls generalizing s with
  | nil => exact h
  | cons c l ih => exact ih _ (squareFrameSized_step env s c h)

theorem config_update (env : Env) (s : CvSimpleDFT) : (s.update env).config = s.config := by
  unfold update
  split <;> rfl

end CvSimpleDFT

namespace CvSimpleDFT

/-- C22: `CvSimpleDFT::update()` changes no configuration. For every state it leaves
`minSize`, `maxSize`, `borderSize`, `optimalDFTSize`, `dftSize`, `logScaleFactor`,
`nbChannels`, the number of entries of each of the nine per-channel buffer lists and
the dimensions of `spectrumMagnitudeImage` unchanged, and it gives `inFrameSquare`
the dimensions of `dftSize`. These are the dimensions `inFrameSquare` has already in
every state that the constructor and any sequence of calls reach, so there its
dimensions are unchanged too. -/
theorem update_changes_no_configuration (env : Env) (s : CvSimpleDFT) (img : Mat Pixel)
    (calls : List Call) :
    ((s.update env).minSize = s.minSize ∧
     (s.update env).maxSize = s.maxSize ∧
     (s.update env).borderSize = s.borderSize ∧
     (s.update env).optimalDFTSize = s.optimalDFTSize ∧
     (s.update env).dftSize = s.dftSize ∧
     (s.update env).logScaleFactor = s.logScaleFactor ∧
     (s.update env).nbChannels = s.nbChannels) ∧
    ((s.update env).channels.length = s.channels.length ∧
     (s.update env).channelsDouble.length = s.channelsDouble.length ∧
     (s.update env).channelsDoubleComplexComponents.length
       = s.channelsDoubleComplexComponents.length ∧
     (s.update env).channelsComplexImages.length = s.channelsComplexImages.length ∧
     (s.update env).channelsComplexSpectrums.length = s.channelsComplexSpectrums.length ∧
     (s.update env).channelsComplexSpectrumComponents.length
       = s.channelsComplexSpectrumComponents.length ∧
     (s.update env).channelsSpectrumMagnitude.length = s.channelsSpectrumMagnitude.length ∧
     (s.update env).channelsSpectrumLogMagnitude.length
       = s.channelsSpectrumLogMagnitude.length ∧
     (s.update env).channelsSpectrumLogMagnitudeDisplay.length
       = s.channelsSpectrumLogMagnitudeDisplay.length) ∧
    ((s.update env).spectrumMagnitudeImage.rows = s.spectrumMagnitudeImage.rows ∧
     (s.update env).spectrumMagnitudeImage.cols = s.spectrumMagnitudeImage.cols) ∧
    ((s.update env).inFrameSquare.rows = s.dftSize.height ∧
     (s.update env).inFrameSquare.cols = s.dftSize.width) ∧
    (((run env (new env img) calls).update env).inFrameSquare.rows
       = (run env (new env img) calls).inFrameSquare.rows ∧
     ((run env (new env img) calls).update env).inFrameSquare.cols
       = (run env (new env img) calls).inFrameSquare.cols) := by
  have hc := config_update env s
  have hb := (buffers_update env s).1
  have hm := (buffers_update env s).2
  have hs := squareFrameSized_update env s
  have hd : (s.update env).dftSize = s.dftSize := congrArg Config.dftSize hc
  have hr := squareFrameSized_run env calls _ (squareFrameSized_new env img)
  have hu := squareFrameSized_update env (run env (new env img) calls)
  have hd2 := congrArg Config.dftSize (config_update env (run env (new env img) calls))
  simp only [config] at hd2
  refine ⟨⟨congrArg Config.minSize hc, congrArg Config.maxSize hc,
    congrArg Config.borderSize hc, congrArg Config.optimalDFTSize hc, hd,
    congrArg Config.logScaleFactor hc, congrArg (fun c => c.base.nbChannels) hc⟩,
    ⟨congrArg (fun b => b.channels.length) hb,
     congrArg (fun b => b.channelsDouble.length) hb,
     congrArg (fun b => b.channelsDoubleComplexComponents.length) hb,
     congrArg (fun b => b.channelsComplexImages.length) hb,
     congrArg (fun b => b.channelsComplexSpectrums.length) hb,
     congrArg (fun b => b.channelsComplexSpectrumComponents.length) hb,
     congrArg (fun b => b.channelsSpectrumMagnitude.length) hb,
     congrArg (fun b => b.channelsSpectrumLogMagnitude.length) hb,
     congrArg (fun b => b.channelsSpectrumLogMagnitudeDisplay.length) hb⟩,
    ⟨by rw [hm], by rw [hm]⟩, ⟨?_, ?_⟩, ⟨?_, ?_⟩⟩
  · rw [hs.1, hd]
  · rw [hs.2, hd]
  · rw [hu.1, hd2, hr.1]
  · rw [hu.2, hd2, hr.2]

end CvSimpleDFT

/-! ## The indices of `cleanup` and the entries `setup` appends -/

namespace CvSimpleDFT

theorem lengths_cleanupChannel (s : CvSimpleDFT) (i : Nat) :
    (cleanupChannel s i).buffers.lengths = s.buffers.lengths := by
  simp [cleanupChannel, buffers, Buffers.lengths, List.range_succ, List.length_modify]

theorem components_cleanupChannel (s : CvSimpleDFT) (i j : Nat) (h : i ≠ j) :
    (cleanupChannel s i).channelsComplexSpectrumComponents[j]?
        = s.channelsComplexSpectrumComponents[j]? ∧
    (cleanupChannel s i).channelsDoubleComplexComponents[j]?
        = s.channelsDoubleComplexComponents[j]? := by
  simp [cleanupChannel, List.range_succ, List.getElem?_modify, h]

end CvSimpleDFT

namespace CvSimpleDFT

theorem cleanupChannelInRange_of (s : CvSimpleDFT) (i : Nat)
    (hl : ∀ n ∈ s.buffers.lengths, i < n)
    (h1 : ∀ planes, s.channelsComplexSpectrumComponents[i]? = some planes →
      2 ≤ planes.length)
    (h2 : ∀ planes, s.channelsDoubleComplexComponents[i]? = some planes →
      2 ≤ planes.length) :
    cleanupChannelInRange s i = true := by
  simp only [Buffers.lengths, buffers, List.mem_cons, List.mem_singleton, forall_eq_or_imp,
    forall_eq, List.not_mem_nil, false_implies, implies_true, and_true] at hl
  obtain ⟨l1, l2, l3, l4, l5, l6, l7, l8, l9⟩ := hl
  have e1 := List.getElem?_eq_getElem l6
  have e2 := List.getElem?_eq_getElem l3
  have g1 := h1 _ e1
  have g2 := h2 _ e2
  unfold cleanupChannelInRange
  rw [e1, e2]
  simp [l1, l2, l4, l5, l7, l8, l9, g1, g2]

theorem cleanupLoop_inRange (s : CvSimpleDFT) (h : cleanupInvariant s) (k : Nat)
    (hk : k ≤ s.nbChannels.toNat) :
    (List.range k).foldl cleanupChannelChecked (some s)
      = some ((List.range k).foldl cleanupChannel s) ∧
    ((List.range k).foldl cleanupChannel s).buffers.lengths = s.buffers.lengths ∧
    ∀ j, k ≤ j →
      ((List.range k).foldl cleanupChannel s).channelsComplexSpectrumComponents[j]?
        = s.channelsComplexSpectrumComponents[j]? ∧
      ((List.range k).foldl cleanupChannel s).channelsDoubleComplexComponents[j]?
        = s.channelsDoubleComplexComponents[j]? := by
  induction k with
  | zero => exact ⟨rfl, rfl, fun _ _ => ⟨rfl, rfl⟩⟩
  | succ k ih =>
    obtain ⟨ih1, ih2, ih3⟩ := ih (by omega)
    rw [List.range_succ, List.foldl_append, List.foldl_append, ih1]
    simp only [List.foldl_cons, List.foldl_nil, cleanupChannelChecked]
    have hin : cleanupChannelInRange ((List.range k).foldl cleanupChannel s) k = true := by
      apply cleanupChannelInRange_of
      · rw [ih2]
        intro n hn
        have := h.1 n hn
        omega
      · intro planes hp
        rw [(ih3 k (le_refl k)).1] at hp
        have := h.2.2 planes (List.getElem?_mem hp)
        omega
      · intro planes hp
        rw [(ih3 k (le_refl k)).2] at hp
        have := h.2.1 planes (List.getElem?_mem hp)
        omega
    rw [if_pos hin]
    refine ⟨rfl, ?_, ?_⟩
    · rw [lengths_cleanupChannel, ih2]
    · intro j hj
      have hne : k ≠ j := by omega
      have hc := components_cleanupChannel ((List.range k).foldl cleanupChannel s) k j hne
      rw [hc.1, hc.2]
      exact ih3 j (by omega)

theorem lengths_setupChannel (env : Env) (s : CvSimpleDFT) (i : Nat) :
    (setupChannel env s i).buffers.lengths = s.buffers.lengths.map (fun n => n + 1) := by
  simp [setupChannel, setupPlane, buffers, Buffers.lengths, List.range_succ,
    List.length_modify]

theorem lengths_setupLoop (env : Env) (s : CvSimpleDFT) (m : Nat) :
    ((List.range m).foldl (setupChannel env) s).buffers.lengths
      = s.buffers.lengths.map (fun n => n + m) := by
  induction m with
  | zero => simp
  | succ k ih =>
    rw [List.range_succ, List.foldl_append]
    simp only [List.foldl_cons, List.foldl_nil]
    rw [lengths_setupChannel, ih, List.map_map]
    apply List.map_congr_left
    intro n _
    simp only [Function.comp]
    omega

theorem lengths_setup (env : Env) (s : CvSimpleDFT) (img : Mat Pixel) (full : Bool)
    (hch : img.channels = s.nbChannels) :
    (s.setup env img full).buffers.lengths
      = s.buffers.lengths.map (fun n => n + s.nbChannels.toNat) ∧
    (s.setup env img full).nbChannels = s.nbChannels := by
  cases full
  · constructor
    · simp only [setup, Bool.false_eq_true, if_false]
      exact lengths_setupLoop env s _
    · exact congrArg (fun c => c.base.nbChannels) (config_setup_false env s img)
  · constructor
    · rw [setup_true_eq, hch]
      exact lengths_setupLoop env _ _
    · rw [(nbChannels_setup_true env s img).1, hch]

end CvSimpleDFT

namespace CvSimpleDFT

/-- C27: under the invariant that every per-channel buffer list holds at least
`nbChannels` entries and every entry of the two component lists holds 2 planes, the
loop of `CvSimpleDFT::cleanup()` uses no index out of range (the run with checked
indices ends in the state of the plain loop), and after `cleanup()` all nine
per-channel lists are empty. When the lists hold `nbChannels` entries each and
`setup()` is called without a `cleanup()` before it, for an image with as many
channels (or with `fullSetup` false), it appends: each list holds `2 * nbChannels`
entries afterwards. -/
theorem cleanup_indices_in_range (env : Env) (s : CvSimpleDFT) (img : Mat Pixel)
    (full : Bool) (h : cleanupInvariant s) :
    cleanupLoopChecked s = some ((List.range s.nbChannels.toNat).foldl cleanupChannel s) ∧
    ((s.cleanup env).channels = [] ∧
     (s.cleanup env).channelsDouble = [] ∧
     (s.cleanup env).channelsDoubleComplexComponents = [] ∧
     (s.cleanup env).channelsComplexImages = [] ∧
     (s.cleanup env).channelsComplexSpectrums = [] ∧
     (s.cleanup env).channelsComplexSpectrumComponents = [] ∧
     (s.cleanup env).channelsSpectrumMagnitude = [] ∧
     (s.cleanup env).channelsSpectrumLogMagnitude = [] ∧
     (s.cleanup env).channelsSpectrumLogMagnitudeDisplay = []) ∧
    ((∀ n ∈ s.buffers.lengths, (n : Int) = s.nbChannels) →
      img.channels = s.nbChannels →
      (s.setup env img full).nbChannels = s.nbChannels ∧
      ∀ n ∈ (s.setup env img full).buffers.lengths,
        (n : Int) = 2 * (s.setup env img full).nbChannels) := by
  refine ⟨(cleanupLoop_inRange s h _ (le_refl _)).1,
    ⟨rfl, rfl, rfl, rfl, rfl, rfl, rfl, rfl, rfl⟩, ?_⟩
  intro hex hch
  obtain ⟨hl, hn⟩ := lengths_setup env s img full hch
  refine ⟨hn, ?_⟩
  rw [hl, hn]
  intro n hn2
  obtain ⟨m, hm, rfl⟩ := List.mem_map.1 hn2
  have := hex m hm
  push_cast
  omega

/-- C27 on the processor of a 4 x 4 image of three channels: the invariant holds
after construction, the loop of `cleanup` runs with every index in range, the lists
are empty after `cleanup`, and a full setup on the same image without a `cleanup`
leaves 6 entries in `channels`. -/
theorem cleanup_indices_in_range_witness :
    cleanupInvariant (new sampleEnv (sampleImage 4 4)) ∧
    (cleanupLoopChecked (new sampleEnv (sampleImage 4 4))).isSome = true ∧
    ((new sampleEnv (sampleImage 4 4)).cleanup sampleEnv).channels = [] ∧
    (new sampleEnv (sampleImage 4 4)).nbChannels = 3 ∧
    ((((new sampleEnv (sampleImage 4 4)).setup sampleEnv (sampleImage 4 4)
        true).buffers.channels.length : Nat) : Int)
      = 2 * ((new sampleEnv (sampleImage 4 4)).setup sampleEnv (sampleImage 4 4)
          true).nbChannels :=
  have hinv : cleanupInvariant (new sampleEnv (sampleImage 4 4)) := by
    unfold cleanupInvariant
    decide
  have h := cleanup_indices_in_range sampleEnv (new sampleEnv (sampleImage 4 4))
    (sampleImage 4 4) true hinv
  ⟨hinv, by rw [h.1]; rfl, h.2.1.1, by decide,
    (h.2.2 (by decide) (by decide)).2 _ (List.mem_cons_self _ _)⟩

end CvSimpleDFT

/-! ## The number format -/

theorem QcvProcessor.setNumberFormat_rejected (numberFormat : NumberFormat)
    (format : List Char)
    (h : matchesNumberRegExp format = false ∨ 10 < format.length) :
    QcvProcessor.setNumberFormat numberFormat format = numberFormat := by
  unfold QcvProcessor.setNumberFormat
  rcases h with h | h
  · simp [h]
  · have : ¬ format.length ≤ 10 := by omega
    simp [this]

theorem QcvProcessor.setNumberFormat_fits (numberFormat : NumberFormat)
    (format : List Char) (hc : numberFormat.cells.length = 10) (hp : numberFormat.past = [])
    (h : format.length < 10) :
    (QcvProcessor.setNumberFormat numberFormat format).past = [] := by
  unfold QcvProcessor.setNumberFormat
  split
  · simp only [strcpy, hc, hp, List.drop_nil, List.append_nil]
    apply List.drop_eq_nil_of_le
    simp
    omega
  · exact hp

/-- C24 at a failing input: the test of `setNumberFormat` is `strlen(format) <= 10`,
which lets a format of exactly 10 characters through, and `strcpy` then writes 11
bytes into the 10 cells of `numberFormat`. The format `"%123456.1f"` matches
`numberRegExp` and has 10 characters; the call fills the 10 cells with them and
writes the terminating NUL into the memory behind the array. Its length plus the
terminating NUL is 11, more than 10, so the claim has it rejected. -/
theorem setNumberFormat_overruns :
    matchesNumberRegExp "%123456.1f".toList = true ∧
    "%123456.1f".toList.length = 10 ∧
    NumberFormat.initial.cells.length = 10 ∧
    (QcvProcessor.setNumberFormat NumberFormat.initial "%123456.1f".toList).cells
      = "%123456.1f".toList ∧
    (QcvProcessor.setNumberFormat NumberFormat.initial "%123456.1f".toList).past
      = [Char.ofNat 0] ∧
    QcvProcessor.setNumberFormat NumberFormat.initial "%123456.1f".toList
      ≠ NumberFormat.initial := by
  refine ⟨?_, ?_, ?_, ?_, ?_, ?_⟩ <;> decide

/-! ## The lock during an update -/

namespace QcvSimpleDFT

/-- C21, as stated, fails: on a processor with a free source lock, `update` produces
the events lock, start of `CvSimpleDFT::update()`, end of `CvSimpleDFT::update()`,
unlock, `updated`, `processTimeUpdated`. The crop and the loop over the channels are
both statements of `CvSimpleDFT::update()`, and the lock is still held when that call
ends: it is released after the loop over the channels, not before it. -/
theorem update_holds_lock_to_the_end :
    (update sampleEnv (new sampleEnv (sampleImage 4 4) (some { locked := false }))).events
      = [Event.lock, Event.coreUpdateBegin, Event.coreUpdateEnd, Event.unlock,
         Event.emit Signal.updated, Event.emit Signal.processTimeUpdated] ∧
    lockHeldAt
      (update sampleEnv (new sampleEnv (sampleImage 4 4) (some { locked := false }))).events
      2 = true ∧
    List.indexOf Event.coreUpdateEnd
      (update sampleEnv (new sampleEnv (sampleImage 4 4) (some { locked := false }))).events
      = 2 ∧
    List.indexOf Event.unlock
      (update sampleEnv (new sampleEnv (sampleImage 4 4) (some { locked := false }))).events
      = 3 :=
  ⟨rfl, rfl, rfl, rfl⟩

/-- C21, amended: during an update cycle the source lock is held across the whole
call of `CvSimpleDFT::update()`, the crop and resize of the source into
`inFrameSquare` and the loop over the channels. `QcvSimpleDFT::update` takes the lock
before that call and releases it after the call has returned, before it emits
`updated` and `processTimeUpdated`. -/
theorem update_lock_spans_core_update (env : Env) (s : QcvSimpleDFT)
    (h : s.sourceLock = some { locked := false }) :
    (update env s).events
      = [Event.lock, Event.coreUpdateBegin, Event.coreUpdateEnd, Event.unlock,
         Event.emit Signal.updated, Event.emit Signal.processTimeUpdated] ∧
    lockHeldAt (update env s).events 1 = true ∧
    lockHeldAt (update env s).events 2 = true ∧
    lockHeldAt (update env s).events 3 = true ∧
    lockHeldAt (update env s).events 4 = false ∧
    lockHeldAt (update env s).events 5 = false ∧
    (update env s).state.toCvSimpleDFT = s.toCvSimpleDFT.update env := by
  obtain ⟨_, _, hs, he⟩ := update_with_free_lock env s h
  rw [he]
  exact ⟨rfl, rfl, rfl, rfl, rfl, rfl, hs⟩

/-- C21, amended, on the processor of a 4 x 4 image with a free lock: the lock is held
at the end of `CvSimpleDFT::update()` and free when `updated` is emitted. -/
theorem update_lock_spans_core_update_witness :
    (new sampleEnv (sampleImage 4 4) (some { locked := false })).sourceLock
      = some { locked := false } ∧
    lockHeldAt
      (update sampleEnv (new sampleEnv (sampleImage 4 4) (some { locked := false }))).events
      2 = true ∧
    lockHeldAt
      (update sampleEnv (new sampleEnv (sampleImage 4 4) (some { locked := false }))).events
      4 = false :=
  ⟨rfl,
   (update_lock_spans_core_update sampleEnv
      (new sampleEnv (sampleImage 4 4) (some { locked := false })) rfl).2.2.1,
   (update_lock_spans_core_update sampleEnv
      (new sampleEnv (sampleImage 4 4) (some { locked := false })) rfl).2.2.2.2.1⟩

end QcvSimpleDFT

/-! ## The signals of a source replacement -/

theorem Run.outcome_of_andThen (r : Run) (next : QcvSimpleDFT → Run)
    (h : (r.andThen next).outcome = Outcome.returned) : r.outcome = Outcome.returned := by
  unfold Run.andThen at h
  split at h
  · assumption
  · exact h

theorem QcvProcessor.baseReplace_returned (env : Env) (s : QcvSimpleDFT)
    (image : Option (Mat Pixel))
    (h : (QcvProcessor.setSourceImage env s image).outcome = Outcome.returned) :
    (∃ img, image = some img) ∧
    (s.sourceLock = none ∨ s.sourceLock = some { locked := false }) := by
  unfold QcvProcessor.setSourceImage at h
  have h1 := Run.outcome_of_andThen _ _ h
  constructor
  · cases image with
    | some img => exact ⟨img, rfl⟩
    | none =>
      exfalso
      cases hl : s.sourceLock with
      | none =>
        simp [QcvSimpleDFT.lockSource, CvProcessor.setSourceImage, Run.andThen, Run.ret, hl]
          at h
      | some m =>
        cases m with
        | mk locked =>
          cases locked <;>
            simp [QcvSimpleDFT.lockSource, CvProcessor.setSourceImage, Run.andThen,
              Run.ret, hl] at h
  · cases hl : s.sourceLock with
    | none => exact Or.inl rfl
    | some m =>
      cases m with
      | mk locked =>
        cases locked
        · exact Or.inr rfl
        · simp [QcvSimpleDFT.lockSource, hl] at h1

theorem QcvSimpleDFT.setSourceImage_returned (env : Env) (s : QcvSimpleDFT)
    (image : Option (Mat Pixel))
    (h : (QcvSimpleDFT.setSourceImage env s image).outcome = Outcome.returned) :
    (∃ img, image = some img) ∧
    (s.sourceLock = none ∨ s.sourceLock = some { locked := false }) :=
  QcvProcessor.baseReplace_returned env s image (Run.outcome_of_andThen _ _ h)

theorem QcvProcessor.baseReplace_state (env : Env) (s : QcvSimpleDFT) (img : Mat Pixel)
    (hl : s.sourceLock = none ∨ s.sourceLock = some { locked := false }) :
    (QcvProcessor.setSourceImage env s (some img)).outcome = Outcome.returned ∧
    (QcvProcessor.setSourceImage env s (some img)).state.sourceLock = s.sourceLock ∧
    (QcvProcessor.setSourceImage env s (some img)).state.toCvSimpleDFT
      = (((s.toCvSimpleDFT.cleanup env).setup env img true).update env) := by
  rcases hl with hl | hl
  · simp only [QcvProcessor.setSourceImage, CvProcessor.setSourceImage, QcvSimpleDFT.update,
      QcvSimpleDFT.lockSource, QcvSimpleDFT.unlockSource, QcvSimpleDFT.coreUpdate,
      QcvProcessor.update, QcvSimpleDFT.emitSignal, Run.andThen_mk, Run.ret, hl,
      Run.andThen_ite, Run.state_ite, Run.outcome_ite, Bool.false_eq_true, if_false,
      ite_self]
    exact ⟨trivial, trivial, trivial⟩
  · simp only [QcvProcessor.setSourceImage, CvProcessor.setSourceImage, QcvSimpleDFT.update,
      QcvSimpleDFT.lockSource, QcvSimpleDFT.unlockSource, QcvSimpleDFT.coreUpdate,
      QcvProcessor.update, QcvSimpleDFT.emitSignal, Run.andThen_mk, Run.ret, hl,
      Run.andThen_ite, Run.state_ite, Run.outcome_ite, Bool.false_eq_true, if_false,
      ite_self]
    exact ⟨trivial, trivial, trivial⟩

theorem QcvSimpleDFT.setSourceImage_state (env : Env) (s : QcvSimpleDFT) (img : Mat Pixel)
    (hl : s.sourceLock = none ∨ s.sourceLock = some { locked := false }) :
    (QcvSimpleDFT.setSourceImage env s (some img)).outcome = Outcome.returned ∧
    (QcvSimpleDFT.setSourceImage env s (some img)).state.sourceLock = s.sourceLock ∧
    (QcvSimpleDFT.setSourceImage env s (some img)).state.toCvSimpleDFT
      = ((((s.toCvSimpleDFT.cleanup env).setup env img true).update env).update env) := by
  rcases hl with hl | hl
  · simp only [QcvSimpleDFT.setSourceImage, QcvProcessor.setSourceImage,
      CvProcessor.setSourceImage, QcvSimpleDFT.update,
      QcvSimpleDFT.lockSource, QcvSimpleDFT.unlockSource, QcvSimpleDFT.coreUpdate,
      QcvProcessor.update, QcvSimpleDFT.emitSignal, Run.andThen_mk, Run.ret, hl,
      Run.andThen_ite, Run.state_ite, Run.outcome_ite, Bool.false_eq_true, if_false,
      ite_self]
    exact ⟨trivial, trivial, trivial⟩
  · simp only [QcvSimpleDFT.setSourceImage, QcvProcessor.setSourceImage,
      CvProcessor.setSourceImage, QcvSimpleDFT.update,
      QcvSimpleDFT.lockSource, QcvSimpleDFT.unlockSource, QcvSimpleDFT.coreUpdate,
      QcvProcessor.update, QcvSimpleDFT.emitSignal, Run.andThen_mk, Run.ret, hl,
      Run.andThen_ite, Run.state_ite, Run.outcome_ite, Bool.false_eq_true, if_false,
      ite_self]
    exact ⟨trivial, trivial, trivial⟩

theorem QcvProcessor.baseReplace_signals (env : Env) (s : QcvSimpleDFT)
    (img : Mat Pixel)
    (hl : s.sourceLock = none ∨ s.sourceLock = some { locked := false }) :
    signalsOf (QcvProcessor.setSourceImage env s (some img)).events
      = [Signal.imageChangedTo, Signal.imageChanged]
        ++ (if s.sourceImage.size.width ≠ img.cols ∨ s.sourceImage.size.height ≠ img.rows
            then [Signal.imageSizeChanged] else [])
        ++ (if s.nbChannels ≠ img.channels then [Signal.imageColorsChanged] else [])
        ++ [Signal.updated, Signal.processTimeUpdated] ∧
    List.count Event.coreUpdateBegin (QcvProcessor.setSourceImage env s (some img)).events
      = 1 := by
  have hnb := (CvSimpleDFT.nbChannels_setup_true env (s.toCvSimpleDFT.cleanup env) img).1
  rcases hl with hl | hl
  · simp only [QcvProcessor.setSourceImage, CvProcessor.setSourceImage, QcvSimpleDFT.update,
      QcvSimpleDFT.lockSource, QcvSimpleDFT.unlockSource, QcvSimpleDFT.coreUpdate,
      QcvProcessor.update, QcvSimpleDFT.emitSignal, Run.andThen_mk, Run.ret, hl,
      Run.andThen_ite, Run.state_ite, Run.outcome_ite, Run.events_ite, Bool.false_eq_true,
      if_false, ite_self, hnb]
    split_ifs <;> simp [signalsOf]
  · simp only [QcvProcessor.setSourceImage, CvProcessor.setSourceImage, QcvSimpleDFT.update,
      QcvSimpleDFT.lockSource, QcvSimpleDFT.unlockSource, QcvSimpleDFT.coreUpdate,
      QcvProcessor.update, QcvSimpleDFT.emitSignal, Run.andThen_mk, Run.ret, hl,
      Run.andThen_ite, Run.state_ite, Run.outcome_ite, Run.events_ite, Bool.false_eq_true,
      if_false, ite_self, hnb]
    split_ifs <;> simp [signalsOf]

theorem CvSimpleDFT.dftSize_update (env : Env) (t : CvSimpleDFT) :
    (t.update env).dftSize = t.dftSize ∧
    (t.update env).optimalDFTSize = t.optimalDFTSize ∧
    (t.update env).nbChannels = t.nbChannels :=
  ⟨congrArg CvSimpleDFT.Config.dftSize (CvSimpleDFT.config_update env t),
   congrArg CvSimpleDFT.Config.optimalDFTSize (CvSimpleDFT.config_update env t),
   congrArg (fun c => c.base.nbChannels) (CvSimpleDFT.config_update env t)⟩

theorem QcvSimpleDFT.setSourceImage_signals_eq (env : Env) (s : QcvSimpleDFT)
    (img : Mat Pixel)
    (hl : s.sourceLock = none ∨ s.sourceLock = some { locked := false }) :
    signalsOf (QcvSimpleDFT.setSourceImage env s (some img)).events
      = [Signal.imageChangedTo, Signal.imageChanged]
        ++ (if s.sourceImage.size.width ≠ img.cols ∨ s.sourceImage.size.height ≠ img.rows
            then [Signal.imageSizeChanged] else [])
        ++ (if s.nbChannels ≠ img.channels then [Signal.imageColorsChanged] else [])
        ++ [Signal.updated, Signal.processTimeUpdated]
        ++ [Signal.squareImageChanged, Signal.spectrumImageChanged]
        ++ (if s.dftSize.width
                ≠ ((s.toCvSimpleDFT.cleanup env).setup env img true).dftSize.width ∨
              s.dftSize.height
                ≠ ((s.toCvSimpleDFT.cleanup env).setup env img true).dftSize.height
            then [Signal.imageSizeChanged,
              Signal.sendText
                (toString ((s.toCvSimpleDFT.cleanup env).setup env img true).optimalDFTSize)]
            else [])
        ++ [Signal.updated, Signal.processTimeUpdated] ∧
    List.count Event.coreUpdateBegin (QcvSimpleDFT.setSourceImage env s (some img)).events
      = 2 ∧
    List.count Event.coreUpdateEnd (QcvSimpleDFT.setSourceImage env s (some img)).events
      = 2 := by
  have hnb := (CvSimpleDFT.nbChannels_setup_true env (s.toCvSimpleDFT.cleanup env) img).1
  have hd := fun t => (CvSimpleDFT.dftSize_update env t).1
  have ho := fun t => (CvSimpleDFT.dftSize_update env t).2.1
  rcases hl with hl | hl
  · simp only [QcvSimpleDFT.setSourceImage, QcvProcessor.setSourceImage,
      CvProcessor.setSourceImage, QcvSimpleDFT.update,
      QcvSimpleDFT.lockSource, QcvSimpleDFT.unlockSource, QcvSimpleDFT.coreUpdate,
      QcvProcessor.update, QcvSimpleDFT.emitSignal, Run.andThen_mk, Run.ret, hl,
      Run.andThen_ite, Run.state_ite, Run.outcome_ite, Run.events_ite, Bool.false_eq_true,
      if_false, ite_self, hnb, hd, ho]
    split_ifs <;> exact ⟨rfl, rfl, rfl⟩
  · simp only [QcvSimpleDFT.setSourceImage, QcvProcessor.setSourceImage,
      CvProcessor.setSourceImage, QcvSimpleDFT.update,
      QcvSimpleDFT.lockSource, QcvSimpleDFT.unlockSource, QcvSimpleDFT.coreUpdate,
      QcvProcessor.update, QcvSimpleDFT.emitSignal, Run.andThen_mk, Run.ret, hl,
      Run.andThen_ite, Run.state_ite, Run.outcome_ite, Run.events_ite, Bool.false_eq_true,
      if_false, ite_self, hnb, hd, ho]
    split_ifs <;> exact ⟨rfl, rfl, rfl⟩

theorem Size.ne_iff (a b : Size) :
    a ≠ b ↔ a.width ≠ b.width ∨ a.height ≠ b.height := by
  cases a
  cases b
  simp only [ne_eq, Size.mk.injEq, not_and_or]

/-- C23: for every successful `QcvProcessor::setSourceImage(image)` (the call
returns, which it only does with an image), `imageChanged(sourceImage)` and
`imageChanged()` are emitted; `imageSizeChanged()` is emitted if and only if the
(width, height) of the previous source differs from `(image.cols, image.rows)`; and
`imageColorsChanged()` is emitted if and only if `nbChannels` after the call differs
from `nbChannels` before it. -/
theorem QcvProcessor.setSourceImage_signals (env : Env) (s : QcvSimpleDFT)
    (image : Option (Mat Pixel))
    (h : (QcvProcessor.setSourceImage env s image).outcome = Outcome.returned) :
    ∃ img, image = some img ∧
      Signal.imageChangedTo ∈ signalsOf (QcvProcessor.setSourceImage env s image).events ∧
      Signal.imageChanged ∈ signalsOf (QcvProcessor.setSourceImage env s image).events ∧
      (Signal.imageSizeChanged ∈ signalsOf (QcvProcessor.setSourceImage env s image).events
        ↔ (s.sourceImage.size.width, s.sourceImage.size.height) ≠ (img.cols, img.rows)) ∧
      (Signal.imageColorsChanged
          ∈ signalsOf (QcvProcessor.setSourceImage env s image).events
        ↔ (QcvProcessor.setSourceImage env s image).state.nbChannels ≠ s.nbChannels) := by
  obtain ⟨⟨img, rfl⟩, hl⟩ := QcvProcessor.baseReplace_returned env s image h
  have hs := (QcvProcessor.baseReplace_state env s img hl).2.2
  have he := (QcvProcessor.baseReplace_signals env s img hl).1
  have hn : (QcvProcessor.setSourceImage env s (some img)).state.nbChannels = img.channels := by
    show (QcvProcessor.setSourceImage env s (some img)).state.toCvSimpleDFT.nbChannels = _
    rw [hs, (CvSimpleDFT.dftSize_update env _).2.2,
      (CvSimpleDFT.nbChannels_setup_true env _ img).1]
  refine ⟨img, rfl, ?_, ?_, ?_, ?_⟩
  · rw [he]
    simp
  · rw [he]
    simp
  · rw [he]
    simp only [ne_eq, Prod.mk.injEq, not_and_or]
    split_ifs with h1 h2 h2 <;> simp [h1]
  · rw [he, hn]
    split_ifs with h1 h2 h2 <;> simp [h2, eq_comm]

/-- C23 on a processor of a 4 x 4 image of three channels, with a free lock, that is
given a 6 x 9 image of three channels: the call returns, `imageChanged()` is emitted,
and so is `imageSizeChanged()`, because (4, 4) differs from (9, 6). -/
theorem QcvProcessor.setSourceImage_signals_witness :
    (QcvProcessor.setSourceImage sampleEnv
        (QcvSimpleDFT.new sampleEnv (sampleImage 4 4) (some { locked := false }))
        (some (sampleImage 6 9))).outcome = Outcome.returned ∧
    Signal.imageChanged ∈
      signalsOf (QcvProcessor.setSourceImage sampleEnv
        (QcvSimpleDFT.new sampleEnv (sampleImage 4 4) (some { locked := false }))
        (some (sampleImage 6 9))).events ∧
    Signal.imageSizeChanged ∈
      signalsOf (QcvProcessor.setSourceImage sampleEnv
        (QcvSimpleDFT.new sampleEnv (sampleImage 4 4) (some { locked := false }))
        (some (sampleImage 6 9))).events := by
  obtain ⟨img, himg, _, h2, h3, _⟩ :=
    QcvProcessor.setSourceImage_signals sampleEnv
      (QcvSimpleDFT.new sampleEnv (sampleImage 4 4) (some { locked := false }))
      (some (sampleImage 6 9)) rfl
  cases himg
  exact ⟨rfl, h2, h3.2 (by decide)⟩

theorem QcvSimpleDFT.setSourceImage_final (env : Env) (s : QcvSimpleDFT) (img : Mat Pixel)
    (hl : s.sourceLock = none ∨ s.sourceLock = some { locked := false }) :
    (QcvSimpleDFT.setSourceImage env s (some img)).state.dftSize
      = ((s.toCvSimpleDFT.cleanup env).setup env img true).dftSize ∧
    (QcvSimpleDFT.setSourceImage env s (some img)).state.optimalDFTSize
      = ((s.toCvSimpleDFT.cleanup env).setup env img true).optimalDFTSize := by
  have hs := (QcvSimpleDFT.setSourceImage_state env s img hl).2.2
  constructor
  · show (QcvSimpleDFT.setSourceImage env s (some img)).state.toCvSimpleDFT.dftSize = _
    rw [hs, (CvSimpleDFT.dftSize_update env _).1, (CvSimpleDFT.dftSize_update env _).1]
  · show (QcvSimpleDFT.setSourceImage env s (some img)).state.toCvSimpleDFT.optimalDFTSize = _
    rw [hs, (CvSimpleDFT.dftSize_update env _).2.1, (CvSimpleDFT.dftSize_update env _).2.1]

/-- C29: for every successful `QcvSimpleDFT::setSourceImage(image)` (the call returns,
which it only does with an image), `sendText` carrying the decimal representation of
the new `optimalDFTSize` is emitted if and only if the DFT size after the call differs
from the DFT size before it, no other text is sent, and `squareImageChanged` and
`spectrumImageChanged` are emitted in any case. -/
theorem QcvSimpleDFT.setSourceImage_sends_size (env : Env) (s : QcvSimpleDFT)
    (image : Option (Mat Pixel))
    (h : (QcvSimpleDFT.setSourceImage env s image).outcome = Outcome.returned) :
    (∃ img, image = some img) ∧
    Signal.squareImageChanged ∈ signalsOf (QcvSimpleDFT.setSourceImage env s image).events ∧
    Signal.spectrumImageChanged
      ∈ signalsOf (QcvSimpleDFT.setSourceImage env s image).events ∧
    (Signal.sendText (toString (QcvSimpleDFT.setSourceImage env s image).state.optimalDFTSize)
        ∈ signalsOf (QcvSimpleDFT.setSourceImage env s image).events
      ↔ (QcvSimpleDFT.setSourceImage env s image).state.dftSize ≠ s.dftSize) ∧
    (∀ message,
      Signal.sendText message ∈ signalsOf (QcvSimpleDFT.setSourceImage env s image).events →
      message = toString (QcvSimpleDFT.setSourceImage env s image).state.optimalDFTSize) := by
  obtain ⟨⟨img, rfl⟩, hl⟩ := QcvSimpleDFT.setSourceImage_returned env s image h
  obtain ⟨hd, ho⟩ := QcvSimpleDFT.setSourceImage_final env s img hl
  have he := (QcvSimpleDFT.setSourceImage_signals_eq env s img hl).1
  refine ⟨⟨img, rfl⟩, ?_, ?_, ?_, ?_⟩
  · rw [he]
    simp
  · rw [he]
    simp
  · have hiff : ((s.toCvSimpleDFT.cleanup env).setup env img true).dftSize ≠ s.dftSize ↔
        (s.dftSize.width ≠ ((s.toCvSimpleDFT.cleanup env).setup env img true).dftSize.width ∨
          s.dftSize.height
            ≠ ((s.toCvSimpleDFT.cleanup env).setup env img true).dftSize.height) := by
      rw [ne_comm]
      exact Size.ne_iff _ _
    rw [he, hd, ho, hiff]
    split_ifs with h1 h2 h3 h3 h2 h3 h3 <;> simp [h3]
  · intro message
    rw [he, ho]
    split_ifs with h1 h2 h3 h3 h2 h3 h3 <;> simp

/-- C29 on a processor of a 4 x 4 image with a free lock: given a 6 x 9 image the call
returns and sends the text `"6"`, the new optimal DFT size, since the DFT size changes
from 4 x 4 to 6 x 6. -/
theorem QcvSimpleDFT.setSourceImage_sends_size_witness :
    (QcvSimpleDFT.setSourceImage sampleEnv
        (QcvSimpleDFT.new sampleEnv (sampleImage 4 4) (some { locked := false }))
        (some (sampleImage 6 9))).outcome = Outcome.returned ∧
    Signal.squareImageChanged ∈
      signalsOf (QcvSimpleDFT.setSourceImage sampleEnv
        (QcvSimpleDFT.new sampleEnv (sampleImage 4 4) (some { locked := false }))
        (some (sampleImage 6 9))).events ∧
    Signal.sendText
        (toString (QcvSimpleDFT.setSourceImage sampleEnv
          (QcvSimpleDFT.new sampleEnv (sampleImage 4 4) (some { locked := false }))
          (some (sampleImage 6 9))).state.optimalDFTSize) ∈
      signalsOf (QcvSimpleDFT.setSourceImage sampleEnv
        (QcvSimpleDFT.new sampleEnv (sampleImage 4 4) (some { locked := false }))
        (some (sampleImage 6 9))).events ∧
    (QcvSimpleDFT.setSourceImage sampleEnv
        (QcvSimpleDFT.new sampleEnv (sampleImage 4 4) (some { locked := false }))
        (some (sampleImage 6 9))).state.optimalDFTSize = 6 := by
  have h := QcvSimpleDFT.setSourceImage_sends_size sampleEnv
    (QcvSimpleDFT.new sampleEnv (sampleImage 4 4) (some { locked := false }))
    (some (sampleImage 6 9)) rfl
  exact ⟨rfl, h.2.1, h.2.2.2.1.2 (by decide), by decide⟩

/-- C30: for every successful `QcvSimpleDFT::setSourceImage(image)` (the call
returns), `CvSimpleDFT::update()` is started exactly twice, once by the update that
ends `QcvProcessor::setSourceImage` and once by the update that ends
`QcvSimpleDFT::setSourceImage`, and the signal `updated` is emitted exactly twice. -/
theorem QcvSimpleDFT.setSourceImage_updates_twice (env : Env) (s : QcvSimpleDFT)
    (image : Option (Mat Pixel))
    (h : (QcvSimpleDFT.setSourceImage env s image).outcome = Outcome.returned) :
    List.count Event.coreUpdateBegin (QcvSimpleDFT.setSourceImage env s image).events = 2 ∧
    List.count Event.coreUpdateEnd (QcvSimpleDFT.setSourceImage env s image).events = 2 ∧
    List.count Signal.updated (signalsOf (QcvSimpleDFT.setSourceImage env s image).events)
      = 2 ∧
    List.count Event.coreUpdateBegin
      (QcvProcessor.setSourceImage env s image).events = 1 := by
  obtain ⟨⟨img, rfl⟩, hl⟩ := QcvSimpleDFT.setSourceImage_returned env s image h
  have he := QcvSimpleDFT.setSourceImage_signals_eq env s img hl
  have hb := (QcvProcessor.baseReplace_signals env s img hl).2
  refine ⟨he.2.1, he.2.2, ?_, hb⟩
  rw [he.1]
  split_ifs <;> rfl

/-- C30 on a processor of a 4 x 4 image with a free lock that is given a 6 x 9 image:
the call returns, `CvSimpleDFT::update()` is started twice and `updated` is emitted
twice. -/
theorem QcvSimpleDFT.setSourceImage_updates_twice_witness :
    (QcvSimpleDFT.setSourceImage sampleEnv
        (QcvSimpleDFT.new sampleEnv (sampleImage 4 4) (some { locked := false }))
        (some (sampleImage 6 9))).outcome = Outcome.returned ∧
    List.count Event.coreUpdateBegin
      (QcvSimpleDFT.setSourceImage sampleEnv
        (QcvSimpleDFT.new sampleEnv (sampleImage 4 4) (some { locked := false }))
        (some (sampleImage 6 9))).events = 2 ∧
    List.count Signal.updated
      (signalsOf (QcvSimpleDFT.setSourceImage sampleEnv
        (QcvSimpleDFT.new sampleEnv (sampleImage 4 4) (some { locked := false }))
        (some (sampleImage 6 9))).events) = 2 :=
  have h := QcvSimpleDFT.setSourceImage_updates_twice sampleEnv
    (QcvSimpleDFT.new sampleEnv (sampleImage 4 4) (some { locked := false }))
    (some (sampleImage 6 9)) rfl
  ⟨rfl, h.1, h.2.2.1⟩

end OpenCVTP
